import Mathlib

/-!
# Host-side protocol of the string-match accelerator

A shallow embedding of `actions/hdl_stringmatch/sw/postgresql/hook/pg_capi_internal.c`:
the packet and pattern encoders, the register driver `action_regex` and the result
decoder `get_results`, followed by the properties proved about them.

Conventions of the embedding
* a byte is a `Fin 256`; memory is a total map from addresses to bytes;
* C unsigned integers are natural numbers reduced modulo `2 ^ width` after every
  operation that can wrap; a C `int` is held as its 32-bit two's-complement pattern;
* the MMIO transport is a trace: the values the card returns to successive
  `action_read` calls are an input list, every access is appended to a log.
-/

namespace PgCapi

/-! ## Bytes, memory and the libc primitives -/

/-- One octet (`unsigned char`). -/
abbrev Byte := Fin 256

/-- Byte-addressed memory. -/
abbrev Mem := Nat → Byte

/-- Conversion of an integer value to `unsigned char`: reduction modulo 256. -/
def toByte (v : Nat) : Byte := ⟨v % 256, Nat.mod_lt v (by decide)⟩

/-- The assignment `p[addr] = v` of an integer expression to an `unsigned char` cell. -/
def store (m : Mem) (addr : Nat) (v : Nat) : Mem :=
  fun x => if x = addr then toByte v else m x

/-- The libc call `memset (dst, c, n)`. -/
def memset (m : Mem) (dst : Nat) (c : Nat) (n : Nat) : Mem :=
  fun x => if dst ≤ x ∧ x < dst + n then toByte c else m x

/-- The libc call `memcpy (dst, src, n)`; `src` is the source object, indexed from 0. -/
def memcpy (m : Mem) (dst : Nat) (src : Nat → Byte) (n : Nat) : Mem :=
  fun x => if dst ≤ x ∧ x < dst + n then src (x - dst) else m x

/-- Arithmetic right shift `x >> k` of a C `int` held as its 32-bit pattern `x`. -/
def sar32 (x k : Nat) : Nat :=
  if x < 2147483648 then x >>> k else (x >>> k) ||| (4294967296 - 2 ^ (32 - k))

/-! ## Buffer encoder -/

/-- What an encoder call leaves behind: the memory, the value of the identifier
counter it incremented, and the returned address. -/
structure Encoded where
  mem : Mem
  id : Nat
  next : Nat

/-- The `do { ... } while (1)` padding loop shared by `fill_one_packet` and
`fill_one_pattern`: it stops when the address of the last written byte has its low six
bits set, otherwise it advances `bytes_used` (a `uint32_t`) and writes a zero byte. -/
def pad_loop (base : Nat) (m : Mem) (bytes_used : Nat) : Mem × Nat :=
  if ((base + bytes_used) % 18446744073709551616) &&& 0x3F = 0x3F then
    (m, bytes_used)
  else
    pad_loop base (store m (base + (bytes_used + 1) % 4294967296) 0x00)
      ((bytes_used + 1) % 4294967296)
termination_by 63 - (base + bytes_used) % 64
decreasing_by
  rename_i h
  have e : (63 : Nat) = 2 ^ 6 - 1 := by norm_num
  rw [e, Nat.and_pow_two_sub_one_eq_mod] at h
  norm_num at h
  omega

/-- The function `fill_one_packet (in_pkt, size, in_pkt_addr)`; `PACKET_ID` is the global
counter before the call and `m` the memory before the call. -/
def fill_one_packet (in_pkt : Nat → Byte) (size : Int) (in_pkt_addr : Nat)
    (PACKET_ID : Nat) (m : Mem) : Encoded :=
  let pkt_base_addr := in_pkt_addr
  let bytes_used : Nat := 0
  -- uint16_t pkt_len = size;
  let pkt_len : Nat := (size % 65536).toNat
  -- PACKET_ID++; pkt_id = PACKET_ID;
  let PACKET_ID := (PACKET_ID + 1) % 4294967296
  let pkt_id := PACKET_ID
  -- The frame header
  let s := (List.range 4).foldl
    (fun (s : Mem × Nat) _ => (store s.1 (pkt_base_addr + s.2) 0x5A, (s.2 + 1) % 4294967296))
    (m, bytes_used)
  let m := s.1
  let bytes_used := s.2
  -- The frame size
  let m := store m (pkt_base_addr + bytes_used) (pkt_len &&& 0xFF)
  let bytes_used := (bytes_used + 1) % 4294967296
  let m := store m (pkt_base_addr + bytes_used) 0
  let m := store m (pkt_base_addr + bytes_used)
    ((m (pkt_base_addr + bytes_used)).val ||| ((pkt_len >>> 8) &&& 0xF))
  let bytes_used := (bytes_used + 1) % 4294967296
  -- Skip the reserved bytes
  let m := memset m (pkt_base_addr + bytes_used) 0 54
  let bytes_used := (bytes_used + 54) % 4294967296
  let s := (List.range 4).foldl
    (fun (s : Mem × Nat) i =>
      (store s.1 (pkt_base_addr + s.2) (sar32 pkt_id (8 * i) &&& 0xFF),
        (s.2 + 1) % 4294967296))
    (m, bytes_used)
  let m := s.1
  let bytes_used := s.2
  -- The payload
  let m := memcpy m (pkt_base_addr + bytes_used) in_pkt pkt_len
  let bytes_used := (bytes_used + pkt_len) % 4294967296
  -- Padding to 64 bytes alignment
  let bytes_used := (bytes_used + 4294967295) % 4294967296
  let s := pad_loop pkt_base_addr m bytes_used
  let m := s.1
  let bytes_used := s.2
  let bytes_used := (bytes_used + 1) % 4294967296
  ⟨m, PACKET_ID, pkt_base_addr + bytes_used⟩

/-- The successive calls `pkt_src = fill_one_packet (VARDATA (attr_ptr), attr_len, pkt_src)`
made by the row loop of `capi_regex_pkt_psql_internal`; `rows` lists, in page order, the
attribute bytes and `attr_len` of the tuples that are encoded, and `start` holds the
memory, the counter `PACKET_ID` and `pkt_src` before the loop. -/
def fill_packets (rows : List ((Nat → Byte) × Int)) (start : Encoded) : Encoded :=
  rows.foldl (fun e row => fill_one_packet row.1 row.2 e.next e.id e.mem) start

/-- The value `(*size) = pkt_src - pkt_src_base` stored by `capi_regex_pkt_psql_internal`
(the job's `pkt_size`). -/
def pkt_size (rows : List ((Nat → Byte) × Int)) (pkt_src_base : Nat) (PACKET_ID : Nat)
    (m : Mem) : Nat :=
  (fill_packets rows ⟨m, PACKET_ID, pkt_src_base⟩).next - pkt_src_base

/-- The function `fill_one_pattern (in_patt, in_patt_addr)`. The macro
`PATTERN_WIDTH_BYTES` and the pattern compiler `fregex_get_config` come from headers
outside this file and are parameters: the compiler maps the pattern text to the
contents it leaves in `config_bytes` and the value it stores in `config_len`. -/
def fill_one_pattern (PATTERN_WIDTH_BYTES : Nat)
    (fregex_get_config : String → (Nat → Byte) × Int)
    (in_patt : String) (in_patt_addr : Nat) (PATTERN_ID : Nat) (m : Mem) : Encoded :=
  let patt_base_addr := in_patt_addr
  let bytes_used : Nat := 0
  -- Generate pattern ID
  let PATTERN_ID := (PATTERN_ID + 1) % 4294967296
  let pattern_id := PATTERN_ID
  let config_bytes := (fregex_get_config in_patt).1
  let config_len : Int := (fregex_get_config in_patt).2
  let s := (List.range 4).foldl
    (fun (s : Mem × Nat) _ => (store s.1 (patt_base_addr + s.2) 0x5A, (s.2 + 1) % 4294967296))
    (m, bytes_used)
  let m := s.1
  let bytes_used := s.2
  -- uint16_t patt_byte_cnt = (PATTERN_WIDTH_BYTES - 4);
  let patt_byte_cnt : Nat := (((PATTERN_WIDTH_BYTES : Int) - 4) % 65536).toNat
  let m := store m (patt_base_addr + bytes_used) (patt_byte_cnt &&& 0xFF)
  let bytes_used := (bytes_used + 1) % 4294967296
  let m := store m (patt_base_addr + bytes_used) ((patt_byte_cnt >>> 8) &&& 0x7)
  let bytes_used := (bytes_used + 1) % 4294967296
  let m := memset m (patt_base_addr + bytes_used) 0 54
  let bytes_used := (bytes_used + 54) % 4294967296
  -- Pattern ID;
  let s := (List.range 4).foldl
    (fun (s : Mem × Nat) i =>
      (store s.1 (patt_base_addr + s.2) ((pattern_id >>> (i * 8)) &&& 0xFF),
        (s.2 + 1) % 4294967296))
    (m, bytes_used)
  let m := s.1
  let bytes_used := s.2
  -- memcpy takes a size_t, bytes_used is a uint32_t
  let m := memcpy m (patt_base_addr + bytes_used) config_bytes
    (config_len % 18446744073709551616).toNat
  let bytes_used := (((bytes_used : Int) + config_len) % 4294967296).toNat
  -- Padding to 64 bytes alignment
  let bytes_used := (bytes_used + 4294967295) % 4294967296
  let s := pad_loop patt_base_addr m bytes_used
  let m := s.1
  let bytes_used := s.2
  let bytes_used := (bytes_used + 1) % 4294967296
  ⟨m, PATTERN_ID, patt_base_addr + bytes_used⟩

/-! ## Result decoding -/

/-- The value of a C `int` whose 32-bit pattern is `x % 2 ^ 32`. -/
def toInt32 (x : Nat) : Int :=
  if x % 4294967296 < 2147483648 then (x % 4294967296 : Nat)
  else ((x % 4294967296 : Nat) : Int) - 4294967296

/-- The function `get_results (result, num_matched_pkt, stat_dest_base)`. `result` is
`none` for a null pointer and otherwise the `uint32_t` array; `stat_dest_base` gives the
byte at a signed offset from the buffer start. Returns the return code and the array. -/
def get_results (result : Option (Nat → Nat)) (num_matched_pkt : Nat)
    (stat_dest_base : Int → Byte) : Int × Option (Nat → Nat) :=
  match result with
  | none => (1, none)
  | some result =>
    -- for (i = 0; i < (int)num_matched_pkt; i++)
    let s := (List.range (toInt32 num_matched_pkt).toNat).foldl
      (fun (s : (Nat → Nat) × Nat) i =>
        -- for (j = 4; j < 8; j++) pkt_id |= stat_dest_base[i * 10 + j] << (j % 4) * 8;
        let pkt_id := [4, 5, 6, 7].foldl
          (fun pkt_id j =>
            (pkt_id ||| ((stat_dest_base (toInt32 (i * 10 + j))).val <<< ((j % 4) * 8)))
              % 4294967296)
          s.2
        -- ((uint32_t*)result)[i] = pkt_id; pkt_id = 0;
        (Function.update s.1 i pkt_id, 0))
      (result, 0)
    (0, some s.1)

/-! ## Register protocol driver -/

/-- A 32-bit register value (`uint32_t`). -/
abbrev U32 := Fin 4294967296

/-- Conversion to `uint32_t`. -/
def toU32 (x : Nat) : U32 := ⟨x % 4294967296, Nat.mod_lt x (by decide)⟩

/-- The action registers used by the driver. Their numeric offsets are defined in a
header outside this file; they are told apart by name. -/
inductive Reg
  | ACTION_STATUS_L | ACTION_STATUS_H | ACTION_CONTROL_L | ACTION_CONTROL_H
  | ACTION_PATT_INIT_ADDR_L | ACTION_PATT_INIT_ADDR_H
  | ACTION_PKT_INIT_ADDR_L | ACTION_PKT_INIT_ADDR_H
  | ACTION_PATT_CARD_DDR_ADDR_L | ACTION_PATT_CARD_DDR_ADDR_H
  | ACTION_STAT_INIT_ADDR_L | ACTION_STAT_INIT_ADDR_H
  | ACTION_PATT_TOTAL_NUM_L | ACTION_PATT_TOTAL_NUM_H
  | ACTION_PKT_TOTAL_NUM_L | ACTION_PKT_TOTAL_NUM_H
  | ACTION_STAT_TOTAL_SIZE_L | ACTION_STAT_TOTAL_SIZE_H
  deriving DecidableEq, Repr

/-- One MMIO access: `action_write (h, addr, data)` or an `action_read (h, addr)` that
returned `data`. -/
inductive Event
  | write (addr : Reg) (data : U32)
  | read (addr : Reg) (data : U32)
  deriving DecidableEq, Repr

/-- The `action_read` call sites of `action_regex`. -/
inductive ReadPoint
  | print_control_status
  | pattern_copy
  | scanning
  | flushing
  | matched_count
  deriving DecidableEq, Repr

/-- How a run of the driver over a finite trace of read values ends. -/
inductive Outcome
  /-- The `return` at the end of `action_regex`. -/
  | returned
  /-- "Error code got 0X%X" followed by `exit (EXIT_FAILURE)`. -/
  | exit_error (code : Nat)
  /-- "Memory space for stat used up!" followed by `exit (EXIT_FAILURE)`. -/
  | exit_stat_used_up
  /-- The trace ended: the driver is at this `action_read`, waiting for the card. -/
  | waiting (at_read : ReadPoint)
  deriving DecidableEq, Repr

/-- The observable result of a run: how it ended, every MMIO access in order, the value of
the caller's `*num_matched_pkt`, and the read values not consumed. -/
structure Run where
  outcome : Outcome
  log : List Event
  num_matched_pkt : Nat
  input : List U32

/-- The global `int verbose_level = 0;`, which no function of the file assigns. -/
def verbose_level : Int := 0

/-- The function `print_control_status (h)`: four register reads when the verbosity is
above 2. Returns the log and the remaining read values, `none` when the trace ended
inside it. -/
def print_control_status (verbose : Int) (log : List Event) (input : List U32) :
    List Event × Option (List U32) :=
  if verbose > 2 then
    match input with
    | [] => (log, none)
    | [a] => (log ++ [.read .ACTION_STATUS_L a], none)
    | [a, b] => (log ++ [.read .ACTION_STATUS_L a, .read .ACTION_STATUS_H b], none)
    | [a, b, c] =>
      (log ++ [.read .ACTION_STATUS_L a, .read .ACTION_STATUS_H b,
        .read .ACTION_CONTROL_L c], none)
    | a :: b :: c :: d :: rest =>
      (log ++ [.read .ACTION_STATUS_L a, .read .ACTION_STATUS_H b,
        .read .ACTION_CONTROL_L c, .read .ACTION_CONTROL_H d], some rest)
  else (log, some input)

/-- The end of `action_regex`, entered once the flush is seen complete: the read of the
high status register into `*num_matched_pkt` and the control writes that stop flushing. -/
def read_matched_count (num_matched_pkt : Nat) (log : List Event) : List U32 → Run
  | [] => ⟨.waiting .matched_count, log, num_matched_pkt, []⟩
  | reg_data :: input =>
    let log := log ++ [.read .ACTION_STATUS_H reg_data]
    let num_matched_pkt := reg_data.val
    -- Stop flushing
    let log := log ++ [.write .ACTION_CONTROL_L 0x00000000,
      .write .ACTION_CONTROL_H 0x00000000]
    ⟨.returned, log, num_matched_pkt, input⟩

/-- The third polling loop of `action_regex` (flush) and the rest of the function. -/
def flush_loop (num_matched_pkt : Nat) (log : List Event) : List U32 → Run
  | [] => ⟨.waiting .flushing, log, num_matched_pkt, []⟩
  | reg_data :: input =>
    let log := log ++ [.read .ACTION_STATUS_L reg_data]
    -- Status[23:8]
    if reg_data.val &&& 0x00FFFF00 ≠ 0 then
      ⟨.exit_error ((reg_data.val &&& 0x00FFFF00) >>> 8), log, num_matched_pkt, input⟩
    -- Status[3]
    else if reg_data.val &&& 0x00000008 = 8 then
      read_matched_count num_matched_pkt log input
    else flush_loop num_matched_pkt log input

/-- The second polling loop of `action_regex` (packet phase), the stop and flush
control writes, and the rest of the function. -/
def scan_loop (num_matched_pkt : Nat) (log : List Event) : List U32 → Run
  | [] => ⟨.waiting .scanning, log, num_matched_pkt, []⟩
  | reg_data :: input =>
    let log := log ++ [.read .ACTION_STATUS_L reg_data]
    -- Status[23:8]
    if reg_data.val &&& 0x00FFFF00 ≠ 0 then
      ⟨.exit_error ((reg_data.val &&& 0x00FFFF00) >>> 8), log, num_matched_pkt, input⟩
    else if reg_data.val &&& 0x00000010 ≠ 0 then
      ⟨.exit_stat_used_up, log, num_matched_pkt, input⟩
    else if reg_data.val &&& 0x00000006 = 6 then
      -- Stop working
      let log := log ++ [.write .ACTION_CONTROL_L 0x00000000,
        .write .ACTION_CONTROL_H 0x00000000]
      -- Flush rest data
      let log := log ++ [.write .ACTION_CONTROL_L 0x00000008,
        .write .ACTION_CONTROL_H 0x00000000]
      flush_loop num_matched_pkt log input
    else scan_loop num_matched_pkt log input

/-- The first polling loop of `action_regex` (pattern phase), the work control write,
and the rest of the function. -/
def copy_loop (num_matched_pkt : Nat) (log : List Event) : List U32 → Run
  | [] => ⟨.waiting .pattern_copy, log, num_matched_pkt, []⟩
  | reg_data :: input =>
    let log := log ++ [.read .ACTION_STATUS_L reg_data]
    -- Status[23:8]
    if reg_data.val &&& 0x00FFFF00 ≠ 0 then
      ⟨.exit_error ((reg_data.val &&& 0x00FFFF00) >>> 8), log, num_matched_pkt, input⟩
    -- Status[0]
    else if reg_data.val &&& 0x00000001 = 1 then
      -- Start working control[2:1] = 11
      let log := log ++ [.write .ACTION_CONTROL_L 0x00000006,
        .write .ACTION_CONTROL_H 0x00000000]
      scan_loop num_matched_pkt log input
    else copy_loop num_matched_pkt log input

/-- The pointer and size arguments of `action_regex`, as 64-bit values. -/
structure ScanArgs where
  patt_src_base : Nat
  pkt_src_base : Nat
  stat_dest_base : Nat
  patt_size : Nat
  pkt_size : Nat
  stat_size : Nat

/-- The low half `(uint32_t) (((uint64_t) v) & 0xffffffff)` of a 64-bit quantity. -/
def lo32 (v : Nat) : U32 := toU32 ((v % 18446744073709551616) &&& 0xffffffff)

/-- The high half `(uint32_t) ((((uint64_t) v) >> 32) & 0xffffffff)`. -/
def hi32 (v : Nat) : U32 := toU32 (((v % 18446744073709551616) >>> 32) &&& 0xffffffff)

/-- The fourteen register writes with which `action_regex` hands over the buffers. -/
def config_writes (a : ScanArgs) : List Event :=
  [.write .ACTION_PATT_INIT_ADDR_L (lo32 a.patt_src_base),
   .write .ACTION_PATT_INIT_ADDR_H (hi32 a.patt_src_base),
   .write .ACTION_PKT_INIT_ADDR_L (lo32 a.pkt_src_base),
   .write .ACTION_PKT_INIT_ADDR_H (hi32 a.pkt_src_base),
   .write .ACTION_PATT_CARD_DDR_ADDR_L 0,
   .write .ACTION_PATT_CARD_DDR_ADDR_H 0,
   .write .ACTION_STAT_INIT_ADDR_L (lo32 a.stat_dest_base),
   .write .ACTION_STAT_INIT_ADDR_H (hi32 a.stat_dest_base),
   .write .ACTION_PATT_TOTAL_NUM_L (lo32 a.patt_size),
   .write .ACTION_PATT_TOTAL_NUM_H (hi32 a.patt_size),
   .write .ACTION_PKT_TOTAL_NUM_L (lo32 a.pkt_size),
   .write .ACTION_PKT_TOTAL_NUM_H (hi32 a.pkt_size),
   .write .ACTION_STAT_TOTAL_SIZE_L (lo32 a.stat_size),
   .write .ACTION_STAT_TOTAL_SIZE_H (hi32 a.stat_size)]

/-- The function `action_regex`. `verbose` is the value of `verbose_level`,
`num_matched_pkt` the caller's variable before the call, `input` the values the card
returns to the successive `action_read` calls. -/
def action_regex (verbose : Int) (a : ScanArgs) (num_matched_pkt : Nat)
    (input : List U32) : Run :=
  match print_control_status verbose [] input with
  | (log, none) => ⟨.waiting .print_control_status, log, num_matched_pkt, []⟩
  | (log, some input) =>
    let log := log ++ config_writes a
    -- Start copying the pattern from host memory to card
    let log := log ++ [.write .ACTION_CONTROL_L 0x00000001,
      .write .ACTION_CONTROL_H 0x00000000]
    match print_control_status verbose log input with
    | (log, none) => ⟨.waiting .print_control_status, log, num_matched_pkt, []⟩
    | (log, some input) => copy_loop num_matched_pkt log input


/-! ## The identifier counters as process state -/

/-- The state the encoders act on: the memory and the two globals
`uint32_t PATTERN_ID = 0; uint32_t PACKET_ID = 0;`. -/
structure Process where
  mem : Mem
  PATTERN_ID : Nat
  PACKET_ID : Nat

/-- The process state at program start, with the counters at their initialisers. -/
def Process.start (m : Mem) : Process := ⟨m, 0, 0⟩

/-- A call `fill_one_packet (in_pkt, size, in_pkt_addr)` on the process state: the state
after the call and the returned address. The function reads and writes `PACKET_ID`; it
has no occurrence of `PATTERN_ID`. -/
def Process.fill_one_packet (s : Process) (in_pkt : Nat → Byte) (size : Int)
    (in_pkt_addr : Nat) : Process × Nat :=
  let e := PgCapi.fill_one_packet in_pkt size in_pkt_addr s.PACKET_ID s.mem
  (⟨e.mem, s.PATTERN_ID, e.id⟩, e.next)

/-- A call `fill_one_pattern (in_patt, in_patt_addr)` on the process state. The function
reads and writes `PATTERN_ID`; it has no occurrence of `PACKET_ID`. -/
def Process.fill_one_pattern (PATTERN_WIDTH_BYTES : Nat)
    (fregex_get_config : String → (Nat → Byte) × Int) (s : Process) (in_patt : String)
    (in_patt_addr : Nat) : Process × Nat :=
  let e := PgCapi.fill_one_pattern PATTERN_WIDTH_BYTES fregex_get_config in_patt in_patt_addr
    s.PATTERN_ID s.mem
  (⟨e.mem, e.id, s.PACKET_ID⟩, e.next)

/-! ## Job descriptor and the job phases -/

/-- The macro `ACTION_WAIT_TIME` (seconds). -/
def ACTION_WAIT_TIME : Int := 10

/-- The macro `MAX_NUM_PATT`. -/
def MAX_NUM_PATT : Int := 1024

/-- The fields of `CAPIRegexJobDescriptor` (declared in a header outside this file) that
the functions here access, the text buffer `device` apart. A pointer is an address, 0
being `NULL`. -/
structure CAPIRegexJobDescriptor where
  card_no : Int
  timeout : Int
  attach_flags : Nat
  dn : Nat
  act : Nat
  patt_src_base : Nat
  pkt_src_base : Nat
  stat_dest_base : Nat
  num_pkt : Nat
  num_matched_pkt : Nat
  pkt_size : Nat
  patt_size : Nat
  pkt_size_wo_hw_hdr : Nat
  stat_size : Nat
  pattern : Nat
  results : Nat
  curr_result_id : Nat
  t_init : Int
  t_regex_patt : Int
  t_regex_pkt : Int
  t_regex_pkt_copy : Int
  t_regex_scan : Int
  t_regex_harvest : Int
  t_cleanup : Int

/-- The function `soft_reset (h)`: its four register writes. -/
def soft_reset : List Event :=
  [.write .ACTION_CONTROL_L 0x00000010, .write .ACTION_CONTROL_H 0x00000000,
   .write .ACTION_CONTROL_L 0x00000000, .write .ACTION_CONTROL_H 0x00000000]

/-- The function `capi_regex_job_init (job_desc)`. `snap_card_alloc_dev` is the card
handle the library call returns and `snap_attach_action` the action handle that
`get_action` obtains. Returns the return code, the descriptor and the register accesses. -/
def capi_regex_job_init (job_desc : Option CAPIRegexJobDescriptor)
    (snap_card_alloc_dev : Nat) (snap_attach_action : Nat) :
    Int × Option CAPIRegexJobDescriptor × List Event :=
  match job_desc with
  | none => (-1, none, [])
  | some job_desc =>
    -- Init the job descriptor
    let job_desc := { job_desc with
      card_no := 0
      timeout := ACTION_WAIT_TIME
      attach_flags := 0
      act := 0
      patt_src_base := 0
      pkt_src_base := 0
      stat_dest_base := 0
      num_pkt := 0
      num_matched_pkt := 0
      pkt_size := 0
      patt_size := 0
      pkt_size_wo_hw_hdr := 0
      stat_size := 0
      pattern := 0
      results := 0
      curr_result_id := 0
      t_init := 0
      t_regex_patt := 0
      t_regex_pkt := 0
      t_regex_scan := 0
      t_regex_harvest := 0
      t_cleanup := 0 }
    -- Prepare the card and action
    let job_desc := { job_desc with dn := snap_card_alloc_dev }
    if job_desc.dn = 0 then (-1, some job_desc, [])
    else
      -- Reset the hardware
      let log := soft_reset
      let job_desc := { job_desc with act := snap_attach_action }
      (0, some job_desc, log)

/-- The initialiser of `max_alloc_size` in `capi_regex_compile_internal`,
`MAX_NUM_PATT * (64 + (W - 4) + ((W - 4) % 64) == 0 ? 0 : (64 - ((W - 4) % 64)))` with
`W = PATTERN_WIDTH_BYTES`, read with the precedence of C: `+` binds tighter than `==`,
which binds tighter than `? :`, so the whole sum is the left operand of `==`. The result
is converted to `size_t`. -/
def max_alloc_size (PATTERN_WIDTH_BYTES : Int) : Nat :=
  ((MAX_NUM_PATT *
    (if 64 + (PATTERN_WIDTH_BYTES - 4) + Int.tmod (PATTERN_WIDTH_BYTES - 4) 64 = 0 then 0
      else 64 - Int.tmod (PATTERN_WIDTH_BYTES - 4) 64)) % 18446744073709551616).toNat

/-- The function `capi_regex_compile_internal (patt, size)`: the returned
`patt_src_base`, the stored `*size` and the process state. `alloc_mem` is the pointer that
`alloc_mem (64, max_alloc_size)` returns, 0 (`NULL`) when `posix_memalign` failed. `none`
is the end of the process inside the call: the `exit (EXIT_FAILURE)` on a null pattern,
or, after a failed allocation, the store `patt_base_addr[bytes_used] = 0x5A` that
`fill_one_pattern` makes through the null pointer. -/
def capi_regex_compile_internal (PATTERN_WIDTH_BYTES : Nat)
    (fregex_get_config : String → (Nat → Byte) × Int) (patt : Option String)
    (alloc_mem : Nat) (s : Process) : Option (Nat × Nat × Process) :=
  let patt_src_base := alloc_mem
  let patt_src := patt_src_base
  match patt with
  | none => none
  | some patt =>
    -- for (int i = 0; i < 1; i++) patt_src = fill_one_pattern (patt, patt_src);
    if patt_src = 0 then none
    else
      let r := s.fill_one_pattern PATTERN_WIDTH_BYTES fregex_get_config patt patt_src
      let patt_src := r.2
      some (patt_src_base, patt_src - patt_src_base, r.1)

/-- The function `capi_regex_compile (job_desc, pattern)`; `none` when the process ends
inside `capi_regex_compile_internal`. -/
def capi_regex_compile (PATTERN_WIDTH_BYTES : Nat)
    (fregex_get_config : String → (Nat → Byte) × Int)
    (job_desc : Option CAPIRegexJobDescriptor) (pattern : Option String) (alloc_mem : Nat)
    (s : Process) : Option (Int × Option CAPIRegexJobDescriptor × Process) :=
  match job_desc with
  | none => some (-1, none, s)
  | some job_desc =>
    match capi_regex_compile_internal PATTERN_WIDTH_BYTES fregex_get_config pattern
      alloc_mem s with
    | none => none
    | some (patt_src_base, size, s) =>
      let job_desc := { job_desc with patt_src_base := patt_src_base, patt_size := size }
      if job_desc.patt_size = 0 ∨ job_desc.patt_src_base = 0 then (some (-1, some job_desc, s))
      else some (0, some job_desc, s)

/-- A heap tuple that passes the storage test of the row loop: the attribute bytes
`VARDATA (attr_ptr)`, the length `attr_len = VARSIZE (attr_ptr) - VARHDRSZ`, and the
value of `diff_time (&t_beg, &t_end)` measured around its encoder call. -/
structure Tuple where
  data : Nat → Byte
  attr_len : Int
  copy_time : Int

/-- What `capi_regex_pkt_psql_internal` returns and stores through its pointers. -/
structure PktLoad where
  pkt_src_base : Nat
  size : Nat
  size_wo_hw_hdr : Nat
  num_pkt : Nat
  t_pkt_cpy : Int
  proc : Process

/-- The function `capi_regex_pkt_psql_internal`. `blocks` lists, block by block and in
line order, the tuples of the relation that are encoded; `alloc_mem` is the pointer the
allocation made at block 0 returns; `size_wo_hw_hdr`, `num_pkt` and `t_pkt_cpy` are the
values behind the pointer arguments before the call (the counts stay below `2 ^ 64`). -/
def capi_regex_pkt_psql_internal (blocks : List (List Tuple)) (alloc_mem : Nat)
    (size_wo_hw_hdr num_pkt : Nat) (t_pkt_cpy : Int) (s : Process) : PktLoad :=
  -- pkt_src_base = NULL until the allocation of block 0
  let pkt_src_base := if blocks.isEmpty then 0 else alloc_mem
  let rows := blocks.flatten
  -- pkt_src = fill_one_packet (VARDATA (attr_ptr), attr_len, pkt_src);
  let e := fill_packets (rows.map (fun t => (t.data, t.attr_len)))
    ⟨s.mem, s.PACKET_ID, pkt_src_base⟩
  { pkt_src_base := pkt_src_base
    -- (*size) = pkt_src - pkt_src_base;
    size := e.next - pkt_src_base
    -- (*size_wo_hw_hdr) += attr_len;
    size_wo_hw_hdr := rows.foldl
      (fun acc t => (((acc : Int) + t.attr_len) % 18446744073709551616).toNat) size_wo_hw_hdr
    -- (*num_pkt)++;
    num_pkt := num_pkt + rows.length
    -- (*t_pkt_cpy) += diff_time (&t_beg, &t_end);
    t_pkt_cpy := rows.foldl (fun acc t => acc + t.copy_time) t_pkt_cpy
    proc := ⟨e.mem, s.PATTERN_ID, e.id⟩ }

/-- The value of the local `stat_size` of `capi_regex_pkt_psql` for a packet count. The
product is formed in `size_t` and converted to `int`; `%` is the C remainder. The macro
`OUTPUT_STAT_WIDTH` comes from a header outside this file and is a parameter. -/
def stat_size (OUTPUT_STAT_WIDTH : Nat) (num_pkt : Nat) : Int :=
  -- int real_stat_size = (OUTPUT_STAT_WIDTH / 8) * (job_desc->num_pkt) * 2;
  let real_stat_size : Int :=
    toInt32 (((OUTPUT_STAT_WIDTH / 8) * num_pkt * 2) % 18446744073709551616)
  let stat_size : Int :=
    if Int.tmod real_stat_size 4096 = 0 then real_stat_size
    else toInt32 ((real_stat_size + (4096 - Int.tmod real_stat_size 4096)) % 4294967296).toNat
  -- At least 4K for output buffer.
  if stat_size = 0 then 4096 else stat_size

/-- The function `capi_regex_pkt_psql (job_desc, rel, attr_id)`. `pkt_alloc` and
`stat_alloc` are the pointers its two allocations return. -/
def capi_regex_pkt_psql (OUTPUT_STAT_WIDTH : Nat)
    (job_desc : Option CAPIRegexJobDescriptor) (blocks : List (List Tuple))
    (pkt_alloc stat_alloc : Nat) (s : Process) :
    Int × Option CAPIRegexJobDescriptor × Process :=
  match job_desc with
  | none => (-1, none, s)
  | some job_desc =>
    let r := capi_regex_pkt_psql_internal blocks pkt_alloc job_desc.pkt_size_wo_hw_hdr
      job_desc.num_pkt job_desc.t_regex_pkt_copy s
    let job_desc := { job_desc with
      pkt_src_base := r.pkt_src_base
      pkt_size := r.size
      pkt_size_wo_hw_hdr := r.size_wo_hw_hdr
      num_pkt := r.num_pkt
      t_regex_pkt_copy := r.t_pkt_cpy }
    -- Allocate the result buffer per the number of packets in the packet buffer
    let stat_size := stat_size OUTPUT_STAT_WIDTH job_desc.num_pkt
    let job_desc := { job_desc with
      stat_dest_base := stat_alloc
      stat_size := (stat_size % 18446744073709551616).toNat }
    if job_desc.pkt_size = 0 ∨ job_desc.pkt_src_base = 0 ∨ job_desc.stat_dest_base = 0 then
      (-1, some job_desc, r.proc)
    else (0, some job_desc, r.proc)

/-- The function `action_wait_idle (h, timeout, elapsed)`; `snap_action_completed` is the
value the library call of that name returns (0 when the wait expired). -/
def action_wait_idle (snap_action_completed : Int) : Int :=
  -- rc = snap_action_completed ((void*)h, NULL, timeout);
  let rc := snap_action_completed
  -- if (rc) { rc = 0; } else { elog (...); }
  let rc := if rc ≠ 0 then 0 else rc
  rc

/-- The function `capi_regex_scan_internal`: the run of `action_regex` and, when that
returned, the return code. -/
def capi_regex_scan_internal (verbose : Int) (snap_action_completed : Int) (a : ScanArgs)
    (num_matched_pkt : Nat) (input : List U32) : Run × Option Int :=
  let run := action_regex verbose a num_matched_pkt input
  match run.outcome with
  | .returned =>
    let rc := action_wait_idle snap_action_completed
    if 0 ≠ rc then (run, some rc) else (run, some rc)
  | _ => (run, none)

/-- The function `capi_regex_scan (job_desc)`: the return code (`none` when the driver did
not return), the descriptor and the register accesses. -/
def capi_regex_scan (verbose : Int) (snap_action_completed : Int)
    (job_desc : Option CAPIRegexJobDescriptor) (input : List U32) :
    Option Int × Option CAPIRegexJobDescriptor × List Event :=
  match job_desc with
  | none => (some (-1), none, [])
  | some job_desc =>
    let r := capi_regex_scan_internal verbose snap_action_completed
      ⟨job_desc.patt_src_base, job_desc.pkt_src_base, job_desc.stat_dest_base,
        job_desc.patt_size, job_desc.pkt_size, job_desc.stat_size⟩
      job_desc.num_matched_pkt input
    let job_desc := { job_desc with num_matched_pkt := r.1.num_matched_pkt }
    match r.2 with
    | none => (none, some job_desc, r.1.log)
    | some rc =>
      if rc ≠ 0 then (some (-1), some job_desc, r.1.log)
      else (some 0, some job_desc, r.1.log)

/-! ## Auxiliary definitions used in the statements and proofs -/

/-- Memory written by `fill_one_packet` before its padding loop starts. -/
def packet_prepad (in_pkt : Nat → Byte) (pkt_len : Nat) (a : Nat) (pkt_id : Nat) (m : Mem) :
    Mem :=
  memcpy
    (store (store (store (store
      (memset
        (store (store (store (store (store (store (store m a 0x5A) (a + 1) 0x5A) (a + 2) 0x5A)
          (a + 3) 0x5A) (a + 4) (pkt_len &&& 0xFF)) (a + 5) 0) (a + 5)
          (0 ||| ((pkt_len >>> 8) &&& 0xF)))
        (a + 6) 0 54)
      (a + 60) (sar32 pkt_id 0 &&& 0xFF)) (a + 61) (sar32 pkt_id 8 &&& 0xFF))
      (a + 62) (sar32 pkt_id 16 &&& 0xFF)) (a + 63) (sar32 pkt_id 24 &&& 0xFF))
    (a + 64) in_pkt pkt_len

/-- Memory written by `fill_one_pattern` before its padding loop starts. -/
def pattern_prepad (config_bytes : Nat → Byte) (config_len : Nat) (patt_byte_cnt : Nat)
    (a : Nat) (pattern_id : Nat) (m : Mem) : Mem :=
  memcpy
    (store (store (store (store
      (memset
        (store (store (store (store (store (store m a 0x5A) (a + 1) 0x5A) (a + 2) 0x5A)
          (a + 3) 0x5A) (a + 4) (patt_byte_cnt &&& 0xFF)) (a + 5)
          ((patt_byte_cnt >>> 8) &&& 0x7))
        (a + 6) 0 54)
      (a + 60) ((pattern_id >>> 0) &&& 0xFF)) (a + 61) ((pattern_id >>> 8) &&& 0xFF))
      (a + 62) ((pattern_id >>> 16) &&& 0xFF)) (a + 63) ((pattern_id >>> 24) &&& 0xFF))
    (a + 64) config_bytes config_len

/-- The polling loop entered at a polling read point. -/
def resume (p : ReadPoint) (n : Nat) (log : List Event) (input : List U32) : Run :=
  match p with
  | .pattern_copy => copy_loop n log input
  | .scanning => scan_loop n log input
  | _ => flush_loop n log input

/-- The three polling read points. -/
def ReadPoint.polling (p : ReadPoint) : Prop :=
  p = .pattern_copy ∨ p = .scanning ∨ p = .flushing

/-- Whether an access is a read of register `r`. -/
def Event.readsReg (r : Reg) : Event → Bool
  | .read r1 _ => decide (r1 = r)
  | .write _ _ => false

/-- The value written, when an access is a write to register `r`. -/
def Event.writeTo (r : Reg) : Event → Option U32
  | .write r1 d => if r1 = r then some d else none
  | .read _ _ => none

/-- A payload object holding the given bytes (zero beyond them). -/
def payload (l : List Byte) : Nat → Byte := fun i => l.getD i 0

/-- The address at which the `k`-th record (counted from 0) of a packet buffer starts. -/
def record_start (rows : List ((Nat → Byte) × Int)) (start : Encoded) (k : Nat) : Nat :=
  (fill_packets (rows.take k) start).next

/-- A job descriptor with every field zero. -/
def blank_job : CAPIRegexJobDescriptor :=
  ⟨0, 0, 0, 0, 0, 0, 0, 0, 0, 0, 0, 0, 0, 0, 0, 0, 0, 0, 0, 0, 0, 0, 0, 0⟩

/-- The size that the comment and the formula of `capi_regex_compile_internal` intend:
`MAX_NUM_PATT` records of 64 header bytes plus `W - 4` configuration bytes rounded up to
a multiple of 64. -/
def intended_alloc_size (W : Nat) : Nat :=
  1024 * (64 + 64 * ((W - 4 + 63) / 64))

end PgCapi

/-! ## The job runner of `actions/hdl_database/sw/direct/mt/dirtest/JobDirtest.cpp` -/

namespace JobDirtest

/-- The member functions that `JobDirtest::run` calls. -/
inductive Call
  | init | packet | scan | fail | done
  deriving DecidableEq, Repr

/-- The function `JobDirtest::run ()` over a job state `σ`. The phases `init`, `packet`
and `scan` return their `int` result and the next state; `fail` and `done` are the base
class's status setters. Returned are the return value, the final state and the member
calls in order. The two elapsed-time fields, which no branch reads, are not part of the
state. -/
def run {σ : Type} (init packet scan : σ → Int × σ) (fail done : σ → σ) (s : σ) :
    Int × σ × List Call :=
  let r := init s
  if r.1 ≠ 0 then
    (-1, fail r.2, [.init, .fail])
  else
    let r := packet r.2
    if r.1 ≠ 0 then
      (-1, fail r.2, [.init, .packet, .fail])
    else
      let r := scan r.2
      if r.1 ≠ 0 then
        (-1, fail r.2, [.init, .packet, .scan, .fail])
      else
        (0, done r.2, [.init, .packet, .scan, .done])

end JobDirtest

namespace PgCapi

/-! ## Result harvest -/

/-- The loop `do { action_read (h, ACTION_STATUS_L); count++; } while (count < limit);` of
the two drains: the body runs, then the test; `status_l count` is the value the read
number `count` returns. The first argument bounds the number of iterations unfolded;
`limit` of them are enough. -/
def drain_loop (limit : Nat) (status_l : Nat → U32) : Nat → Nat → List U32 → List U32
  | 0, _, reads => reads
  | fuel + 1, count, reads =>
    let reads := reads ++ [status_l count]
    let count := count + 1
    if count < limit then drain_loop limit status_l fuel count reads else reads

/-- The function `capi_regex_result_harvest (job_desc)`. `status_l` and `status_h` are the
values the status reads return, `palloc` the pointer and `results0` the content of the
array that `palloc` returns, `stat` the bytes of the result buffer at
`job_desc->stat_dest_base`. Returned are the return code, the descriptor, the register
accesses and the result array. -/
def capi_regex_result_harvest (job_desc : Option CAPIRegexJobDescriptor)
    (status_l : Nat → U32) (status_h : U32) (palloc : Nat) (results0 : Nat → Nat)
    (stat : Int → Byte) :
    Int × Option CAPIRegexJobDescriptor × List Event × Option (Nat → Nat) :=
  match job_desc with
  | none => (-1, none, [], none)
  | some job_desc =>
    -- Wait for transaction to be done.
    let log := (drain_loop 2 status_l 2 0 []).map (Event.read .ACTION_STATUS_L)
    let reg_data := status_h
    let log := log ++ [.read .ACTION_STATUS_H reg_data]
    let job_desc := { job_desc with num_matched_pkt := reg_data.val }
    let job_desc := { job_desc with results := palloc }
    let r := get_results (if job_desc.results = 0 then none else some results0)
      job_desc.num_matched_pkt stat
    if r.1 ≠ 0 then (-1, some job_desc, log, r.2) else (0, some job_desc, log, r.2)

/-- The offsets `i * 10 + j` at which `get_results` reads `stat_dest_base`, in the order
of its two loops. -/
def get_results_offsets (num_matched_pkt : Nat) : List Int :=
  (List.range (toInt32 num_matched_pkt).toNat).flatMap
    (fun i => [4, 5, 6, 7].map (fun j => toInt32 (i * 10 + j)))

/-- The value `t_regex_pkt - t_regex_pkt_copy` that `print_result` reports as
"pkt_other". -/
def print_result_pkt_other (job_desc : CAPIRegexJobDescriptor) : Int :=
  job_desc.t_regex_pkt - job_desc.t_regex_pkt_copy

end PgCapi

namespace JobDirtest

/-! ## The phases of a `JobDirtest` -/

/-- What the job asks of its worker (`WorkerDirtest`, declared outside this file). -/
structure Worker where
  get_pattern_buffer : Nat
  get_pattern_buffer_size : Nat
  get_packet_buffer : Int → Int → Nat
  get_packet_buffer_size : Int → Int → Nat

/-- The calls a job makes on the hardware: through its hardware manager, and the
accelerator scan `regex_scan_internal` on the manager's card. -/
inductive Access
  | reset_engine (thread_id : Int)
  | regex_scan_internal (thread_id : Int)
  | reg_read (addr : PgCapi.Reg) (thread_id : Int) (value : PgCapi.U32)
  deriving DecidableEq, Repr

/-- The members of a `JobDirtest` that the phases use, with the memory and the record of
hardware calls they act on. A pointer is an address, 0 being `NULL`; `m_hw_mgr` tells
whether the hardware manager pointer is non-null. -/
structure Job where
  m_id : Int
  m_thread_id : Int
  m_worker : Option Worker
  m_hw_mgr : Bool
  m_num_matched_pkt : Nat
  m_patt_src_base : Nat
  m_patt_size : Nat
  m_pkt_src_base : Nat
  m_pkt_size : Nat
  m_max_alloc_pkt_size : Nat
  m_stat_dest_base : Nat
  m_stat_size : Nat
  mem : PgCapi.Mem
  hw : List Access

/-- The function `JobDirtest::init ()`. -/
def init (j : Job) : Int × Job :=
  match j.m_worker with
  | none => (-1, j)
  | some m_worker =>
    if j.m_hw_mgr = false then (-1, j)
    else
      -- Copy the pattern from worker to job
      let j := { j with
        m_patt_src_base := m_worker.get_pattern_buffer
        m_patt_size := m_worker.get_pattern_buffer_size }
      -- Reset the engine
      let j := { j with hw := j.hw ++ [Access.reset_engine j.m_thread_id] }
      (0, j)

/-- The function `JobDirtest::packet ()`. The `memcpy` copies within the job's memory,
from the address the worker returns; the function does not test that address (with a
null source and a positive length the call reads through the null pointer, see
`packet_memcpy`). -/
def packet (j : Job) : Int × Job :=
  match j.m_worker with
  | none => (-1, j)
  | some m_worker =>
    if j.m_pkt_src_base = 0 then (-1, j)
    else if j.m_stat_dest_base = 0 then (-1, j)
    else
      let j := { j with m_pkt_size := m_worker.get_packet_buffer_size j.m_id j.m_thread_id }
      let j := { j with
        mem := PgCapi.memcpy j.mem j.m_pkt_src_base
          (fun i => j.mem (m_worker.get_packet_buffer j.m_id j.m_thread_id + i)) j.m_pkt_size }
      (0, j)

/-- The function `JobDirtest::scan ()`, reached from `run` once `init` has found the
hardware manager non-null. `regex_scan_internal` (defined outside this file) is given by
its return value and the count it stores through `&m_num_matched_pkt`; `status_l` and
`status_h` are the values the drain reads return. -/
def scan (regex_scan_internal : Int × Nat) (status_l : Nat → PgCapi.U32)
    (status_h : PgCapi.U32) (j : Job) : Int × Job :=
  let j := { j with
    hw := j.hw ++ [Access.regex_scan_internal j.m_thread_id]
    m_num_matched_pkt := regex_scan_internal.2 }
  if regex_scan_internal.1 ≠ 0 then (-1, j)
  else
    -- do { m_hw_mgr->reg_read (ACTION_STATUS_L, m_thread_id); count++; } while (count < 10);
    let j := { j with
      hw := j.hw ++ (PgCapi.drain_loop 10 status_l 10 0 []).map
        (Access.reg_read .ACTION_STATUS_L j.m_thread_id) }
    let reg_data := status_h
    let j := { j with hw := j.hw ++ [Access.reg_read .ACTION_STATUS_H j.m_thread_id reg_data] }
    let j := { j with m_num_matched_pkt := reg_data.val }
    (0, j)

/-- The function `JobDirtest::set_packet_buffer (in_pkt_src_base, in_max_alloc_pkt_size)`. -/
def set_packet_buffer (in_pkt_src_base : Nat) (in_max_alloc_pkt_size : Nat) (j : Job) :
    Int × Job :=
  let j := { j with m_pkt_src_base := in_pkt_src_base }
  if j.m_pkt_src_base = 0 then (-1, j)
  else
    let j := { j with m_max_alloc_pkt_size := in_max_alloc_pkt_size }
    (0, j)

/-- The function `JobDirtest::set_result_buffer (in_stat_dest_base, in_stat_size)`. -/
def set_result_buffer (in_stat_dest_base : Nat) (in_stat_size : Nat) (j : Job) : Int × Job :=
  let j := { j with m_stat_dest_base := in_stat_dest_base }
  let j := { j with m_stat_size := in_stat_size }
  (0, j)

/-! ## Auxiliary definitions for two jobs running at the same time -/

/-- The executions of two threads that synchronise on nothing: `Interleaved xs ys zs` says
that `zs` merges the step sequences `xs` and `ys`, keeping the order within each. -/
inductive Interleaved {α : Type} : List α → List α → List α → Prop
  | nil : Interleaved [] [] []
  | left (x : α) {xs ys zs : List α} : Interleaved xs ys zs → Interleaved (x :: xs) ys (x :: zs)
  | right (y : α) {xs ys zs : List α} : Interleaved xs ys zs → Interleaved xs (y :: ys) (y :: zs)

/-- A job with nothing bound, on an engine. -/
def unbound (thread_id : Int) : Job :=
  ⟨0, thread_id, none, false, 0, 0, 0, 0, 0, 0, 0, 0, fun _ => 0, []⟩

end JobDirtest

namespace PgCapi
theorem low_six_bits (x : Nat) :
    ((x % 18446744073709551616) &&& 0x3F = 0x3F) ↔ x % 64 = 63 := by
  have e : (0x3F : Nat) = 2 ^ 6 - 1 := by norm_num
  rw [e, Nat.and_pow_two_sub_one_eq_mod]
  norm_num

theorem pad_loop_spec (base : Nat) (d : Nat) : ∀ (m : Mem) (bu : Nat),
    63 - (base + bu) % 64 = d → bu + d < 4294967296 →
    (pad_loop base m bu).2 = bu + d ∧
    ∀ x, (pad_loop base m bu).1 x = if base + bu < x ∧ x ≤ base + bu + d then 0 else m x := by
  induction d with
  | zero =>
    intro m bu hd hlt
    have h63 : (base + bu) % 64 = 63 := by omega
    rw [pad_loop, if_pos ((low_six_bits _).2 h63)]
    refine ⟨by simp, fun x => ?_⟩
    rw [if_neg (by omega)]
  | succ d ih =>
    intro m bu hd hlt
    have h63 : ¬ ((base + bu) % 64 = 63) := by omega
    rw [pad_loop, if_neg (fun h => h63 ((low_six_bits _).1 h))]
    have e : (bu + 1) % 4294967296 = bu + 1 := by omega
    rw [e]
    obtain ⟨h1, h2⟩ := ih (store m (base + (bu + 1)) 0x00) (bu + 1) (by omega) (by omega)
    refine ⟨by rw [h1]; omega, fun x => ?_⟩
    rw [h2 x]
    by_cases hx : x = base + (bu + 1)
    · subst hx
      rw [if_neg (by omega), if_pos (by omega)]
      simp [store, toByte]
    · by_cases hr : base + (bu + 1) < x ∧ x ≤ base + (bu + 1) + d
      · rw [if_pos hr, if_pos (by omega)]
      · rw [if_neg hr, if_neg (by omega)]
        simp [store, hx]

theorem range_four : List.range 4 = [0, 1, 2, 3] := by decide


theorem pkt_len_lt (size : Int) : (size % 65536).toNat < 65536 := by
  have h1 : 0 ≤ size % 65536 := Int.emod_nonneg _ (by norm_num)
  have h2 : size % 65536 < 65536 := Int.emod_lt_of_pos _ (by norm_num)
  omega

theorem fill_one_packet_pad (in_pkt : Nat → Byte) (size : Int) (a id : Nat) (m : Mem) :
    fill_one_packet in_pkt size a id m =
      ⟨(pad_loop a (packet_prepad in_pkt (size % 65536).toNat a ((id + 1) % 4294967296) m)
          (63 + (size % 65536).toNat)).1,
        (id + 1) % 4294967296,
        a + ((pad_loop a (packet_prepad in_pkt (size % 65536).toNat a ((id + 1) % 4294967296) m)
          (63 + (size % 65536).toNat)).2 + 1) % 4294967296⟩ := by
  have hL := pkt_len_lt size
  have e : (64 + (size % 65536).toNat + 4294967295) % 4294967296 = 63 + (size % 65536).toNat := by
    omega
  simp only [fill_one_packet, range_four, List.foldl, packet_prepad]
  norm_num
  rw [e]
  simp [store, toByte]

theorem fill_one_packet_id (in_pkt : Nat → Byte) (size : Int) (a id : Nat) (m : Mem) :
    (fill_one_packet in_pkt size a id m).id = (id + 1) % 4294967296 := rfl

-- From here on the encoders are used through their unfolding lemmas only.
attribute [irreducible] fill_one_packet

theorem fill_one_packet_next (in_pkt : Nat → Byte) (size : Int) (a id : Nat) (m : Mem) :
    (fill_one_packet in_pkt size a id m).next =
      64 * ((a + (size % 65536).toNat + 127) / 64) := by
  have hL := pkt_len_lt size
  rw [fill_one_packet_pad]
  obtain ⟨h1, -⟩ := pad_loop_spec a _
    (packet_prepad in_pkt (size % 65536).toNat a ((id + 1) % 4294967296) m)
    (63 + (size % 65536).toNat) rfl (by omega)
  simp only [h1]
  omega

theorem fill_one_packet_mem (in_pkt : Nat → Byte) (size : Int) (a id : Nat) (m : Mem) (x : Nat) :
    (fill_one_packet in_pkt size a id m).mem x =
      if a + 63 + (size % 65536).toNat < x ∧ x < 64 * ((a + (size % 65536).toNat + 127) / 64)
      then 0
      else packet_prepad in_pkt (size % 65536).toNat a ((id + 1) % 4294967296) m x := by
  have hL := pkt_len_lt size
  rw [fill_one_packet_pad]
  obtain ⟨-, h2⟩ := pad_loop_spec a _
    (packet_prepad in_pkt (size % 65536).toNat a ((id + 1) % 4294967296) m)
    (63 + (size % 65536).toNat) rfl (by omega)
  simp only [h2]
  by_cases h : a + 63 + (size % 65536).toNat < x ∧ x < 64 * ((a + (size % 65536).toNat + 127) / 64)
  · rw [if_pos h, if_pos (by omega)]
  · rw [if_neg h, if_neg (by omega)]


theorem or_fill (y c i : Nat) (hy : y < 2 ^ i) : (y ||| 2 ^ i * c) = 2 ^ i * c + y := by
  rw [Nat.lor_comm, Nat.mul_add_lt_is_or hy]

theorem and_255 (x : Nat) : x &&& 255 = x % 256 := by
  have e : (255 : Nat) = 2 ^ 8 - 1 := by norm_num
  rw [e, Nat.and_pow_two_sub_one_eq_mod]

theorem sar32_byte (v : Nat) (hv : v < 4294967296) (i : Nat) (hi : i < 4) :
    (sar32 v (8 * i) &&& 0xFF) = v / 256 ^ i % 256 := by
  rw [and_255]
  unfold sar32
  split
  · rw [Nat.shiftRight_eq_div_pow, pow_mul]; norm_num
  · rw [Nat.shiftRight_eq_div_pow]
    interval_cases i
    · simp
    · have h := or_fill (v / 2 ^ 8) 255 24 (by norm_num; omega)
      norm_num at h ⊢
      rw [h]; omega
    · have h := or_fill (v / 2 ^ 16) 65535 16 (by norm_num; omega)
      norm_num at h ⊢
      rw [h]; omega
    · have h := or_fill (v / 2 ^ 24) 16777215 8 (by norm_num; omega)
      norm_num at h ⊢
      rw [h]; omega

theorem toByte_val (v : Nat) : (toByte v).val = v % 256 := rfl


theorem and_15 (x : Nat) : x &&& 15 = x % 16 := by
  have e : (15 : Nat) = 2 ^ 4 - 1 := by norm_num
  rw [e, Nat.and_pow_two_sub_one_eq_mod]

theorem and_7 (x : Nat) : x &&& 7 = x % 8 := by
  have e : (7 : Nat) = 2 ^ 3 - 1 := by norm_num
  rw [e, Nat.and_pow_two_sub_one_eq_mod]

/-! ### The bytes of a packet record, for any `size` argument -/

theorem fill_one_packet_marker (in_pkt : Nat → Byte) (size : Int) (a id : Nat) (m : Mem)
    (i : Nat) (hi : i < 4) : (fill_one_packet in_pkt size a id m).mem (a + i) = 0x5A := by
  rw [fill_one_packet_mem, if_neg (by omega)]
  interval_cases i <;> simp [packet_prepad, memcpy, store, memset, toByte]

theorem fill_one_packet_len_lo (in_pkt : Nat → Byte) (size : Int) (a id : Nat) (m : Mem) :
    ((fill_one_packet in_pkt size a id m).mem (a + 4)).val = (size % 65536).toNat % 256 := by
  rw [fill_one_packet_mem, if_neg (by omega)]
  simp [packet_prepad, memcpy, store, memset, toByte_val, and_255]

theorem fill_one_packet_len_hi (in_pkt : Nat → Byte) (size : Int) (a id : Nat) (m : Mem) :
    ((fill_one_packet in_pkt size a id m).mem (a + 5)).val =
      (size % 65536).toNat / 256 % 16 := by
  rw [fill_one_packet_mem, if_neg (by omega)]
  generalize (size % 65536).toNat = L
  simp [packet_prepad, memcpy, store, memset, toByte_val, and_15, Nat.shiftRight_eq_div_pow]
  omega

theorem fill_one_packet_reserved (in_pkt : Nat → Byte) (size : Int) (a id : Nat) (m : Mem)
    (i : Nat) (h1 : 6 ≤ i) (h2 : i < 60) :
    (fill_one_packet in_pkt size a id m).mem (a + i) = 0 := by
  rw [fill_one_packet_mem, if_neg (by omega)]
  simp only [packet_prepad, memcpy, store, memset]
  rw [if_neg (by omega), if_neg (by omega), if_neg (by omega), if_neg (by omega),
    if_neg (by omega), if_pos (by omega)]
  rfl

theorem fill_one_packet_id_bytes (in_pkt : Nat → Byte) (size : Int) (a id : Nat) (m : Mem)
    (i : Nat) (hi : i < 4) :
    ((fill_one_packet in_pkt size a id m).mem (a + 60 + i)).val =
      (id + 1) % 4294967296 / 256 ^ i % 256 := by
  have hid : (id + 1) % 4294967296 < 4294967296 := Nat.mod_lt _ (by norm_num)
  rw [fill_one_packet_mem, if_neg (by omega)]
  simp only [packet_prepad, memcpy]
  rw [if_neg (by omega)]
  have h0 := sar32_byte _ hid 0 (by norm_num)
  have h1 := sar32_byte _ hid 1 (by norm_num)
  have h2 := sar32_byte _ hid 2 (by norm_num)
  have h3 := sar32_byte _ hid 3 (by norm_num)
  norm_num at h0 h1 h2 h3
  interval_cases i <;> simp [store, toByte_val, h0, h1, h2, h3]
  all_goals omega

theorem fill_one_packet_payload (in_pkt : Nat → Byte) (size : Int) (a id : Nat) (m : Mem)
    (i : Nat) (hi : i < (size % 65536).toNat) :
    (fill_one_packet in_pkt size a id m).mem (a + 64 + i) = in_pkt i := by
  rw [fill_one_packet_mem, if_neg (by omega)]
  simp only [packet_prepad, memcpy]
  rw [if_pos (by omega)]
  congr 1
  omega

theorem fill_one_packet_padding (in_pkt : Nat → Byte) (size : Int) (a id : Nat) (m : Mem)
    (x : Nat) (h1 : a + 64 + (size % 65536).toNat ≤ x)
    (h2 : x < (fill_one_packet in_pkt size a id m).next) :
    (fill_one_packet in_pkt size a id m).mem x = 0 := by
  rw [fill_one_packet_next] at h2
  rw [fill_one_packet_mem, if_pos (by omega)]

theorem fill_one_packet_frame (in_pkt : Nat → Byte) (size : Int) (a id : Nat) (m : Mem)
    (x : Nat) (h : x < a ∨ (fill_one_packet in_pkt size a id m).next ≤ x) :
    (fill_one_packet in_pkt size a id m).mem x = m x := by
  have hL := pkt_len_lt size
  rw [fill_one_packet_next] at h
  rw [fill_one_packet_mem, if_neg (by omega)]
  simp only [packet_prepad, memcpy, store, memset]
  repeat rw [if_neg (by omega)]

theorem fill_one_packet_next_ge (in_pkt : Nat → Byte) (size : Int) (a id : Nat) (m : Mem) :
    a + 64 + (size % 65536).toNat ≤ (fill_one_packet in_pkt size a id m).next := by
  rw [fill_one_packet_next]
  omega

/-! ### The pattern encoder -/

theorem fill_one_pattern_pad (W : Nat) (cfg : String → (Nat → Byte) × Int) (in_patt : String)
    (a id : Nat) (m : Mem) (h0 : 0 ≤ (cfg in_patt).2) (h1 : (cfg in_patt).2 ≤ 65535) :
    fill_one_pattern W cfg in_patt a id m =
      ⟨(pad_loop a
          (pattern_prepad (cfg in_patt).1 ((cfg in_patt).2).toNat
            (((W : Int) - 4) % 65536).toNat a ((id + 1) % 4294967296) m)
          (63 + ((cfg in_patt).2).toNat)).1,
        (id + 1) % 4294967296,
        a + ((pad_loop a
          (pattern_prepad (cfg in_patt).1 ((cfg in_patt).2).toNat
            (((W : Int) - 4) % 65536).toNat a ((id + 1) % 4294967296) m)
          (63 + ((cfg in_patt).2).toNat)).2 + 1) % 4294967296⟩ := by
  have e : ((((64 : Nat) : Int) + (cfg in_patt).2) % 4294967296).toNat =
      64 + ((cfg in_patt).2).toNat := by omega
  have e2 : (64 + ((cfg in_patt).2).toNat + 4294967295) % 4294967296 =
      63 + ((cfg in_patt).2).toNat := by omega
  have e3 : ((cfg in_patt).2 % 18446744073709551616).toNat = ((cfg in_patt).2).toNat := by
    omega
  simp only [fill_one_pattern, range_four, List.foldl, pattern_prepad]
  norm_num
  norm_num at e e3
  rw [e, e2, e3]
  simp

theorem fill_one_pattern_id (W : Nat) (cfg : String → (Nat → Byte) × Int) (in_patt : String)
    (a id : Nat) (m : Mem) :
    (fill_one_pattern W cfg in_patt a id m).id = (id + 1) % 4294967296 := rfl

attribute [irreducible] fill_one_pattern

theorem fill_one_pattern_next (W : Nat) (cfg : String → (Nat → Byte) × Int) (in_patt : String)
    (a id : Nat) (m : Mem) (h0 : 0 ≤ (cfg in_patt).2) (h1 : (cfg in_patt).2 ≤ 65535) :
    (fill_one_pattern W cfg in_patt a id m).next =
      64 * ((a + ((cfg in_patt).2).toNat + 127) / 64) := by
  rw [fill_one_pattern_pad W cfg in_patt a id m h0 h1]
  obtain ⟨h, -⟩ := pad_loop_spec a _
    (pattern_prepad (cfg in_patt).1 ((cfg in_patt).2).toNat
      (((W : Int) - 4) % 65536).toNat a ((id + 1) % 4294967296) m)
    (63 + ((cfg in_patt).2).toNat) rfl (by omega)
  simp only [h]
  omega

theorem fill_one_pattern_mem (W : Nat) (cfg : String → (Nat → Byte) × Int) (in_patt : String)
    (a id : Nat) (m : Mem) (h0 : 0 ≤ (cfg in_patt).2) (h1 : (cfg in_patt).2 ≤ 65535)
    (x : Nat) :
    (fill_one_pattern W cfg in_patt a id m).mem x =
      if a + 63 + ((cfg in_patt).2).toNat < x ∧
          x < 64 * ((a + ((cfg in_patt).2).toNat + 127) / 64) then 0
      else pattern_prepad (cfg in_patt).1 ((cfg in_patt).2).toNat
        (((W : Int) - 4) % 65536).toNat a ((id + 1) % 4294967296) m x := by
  rw [fill_one_pattern_pad W cfg in_patt a id m h0 h1]
  obtain ⟨-, h2⟩ := pad_loop_spec a _
    (pattern_prepad (cfg in_patt).1 ((cfg in_patt).2).toNat
      (((W : Int) - 4) % 65536).toNat a ((id + 1) % 4294967296) m)
    (63 + ((cfg in_patt).2).toNat) rfl (by omega)
  simp only [h2]
  by_cases h : a + 63 + ((cfg in_patt).2).toNat < x ∧
      x < 64 * ((a + ((cfg in_patt).2).toNat + 127) / 64)
  · rw [if_pos h, if_pos (by omega)]
  · rw [if_neg h, if_neg (by omega)]

theorem shr_byte (v i : Nat) : (v >>> (8 * i)) &&& 0xFF = v / 256 ^ i % 256 := by
  rw [and_255, Nat.shiftRight_eq_div_pow, pow_mul]
  norm_num

theorem fill_one_pattern_marker (W : Nat) (cfg : String → (Nat → Byte) × Int)
    (in_patt : String) (a id : Nat) (m : Mem) (h0 : 0 ≤ (cfg in_patt).2)
    (h1 : (cfg in_patt).2 ≤ 65535) (i : Nat) (hi : i < 4) :
    (fill_one_pattern W cfg in_patt a id m).mem (a + i) = 0x5A := by
  rw [fill_one_pattern_mem W cfg in_patt a id m h0 h1, if_neg (by omega)]
  interval_cases i <;> simp [pattern_prepad, memcpy, store, memset, toByte]

theorem fill_one_pattern_len_lo (W : Nat) (cfg : String → (Nat → Byte) × Int)
    (in_patt : String) (a id : Nat) (m : Mem) (h0 : 0 ≤ (cfg in_patt).2)
    (h1 : (cfg in_patt).2 ≤ 65535) :
    ((fill_one_pattern W cfg in_patt a id m).mem (a + 4)).val =
      (((W : Int) - 4) % 65536).toNat % 256 := by
  rw [fill_one_pattern_mem W cfg in_patt a id m h0 h1, if_neg (by omega)]
  simp [pattern_prepad, memcpy, store, memset, toByte_val, and_255]

theorem fill_one_pattern_len_hi (W : Nat) (cfg : String → (Nat → Byte) × Int)
    (in_patt : String) (a id : Nat) (m : Mem) (h0 : 0 ≤ (cfg in_patt).2)
    (h1 : (cfg in_patt).2 ≤ 65535) :
    ((fill_one_pattern W cfg in_patt a id m).mem (a + 5)).val =
      (((W : Int) - 4) % 65536).toNat / 256 % 8 := by
  rw [fill_one_pattern_mem W cfg in_patt a id m h0 h1, if_neg (by omega)]
  generalize (((W : Int) - 4) % 65536).toNat = c
  simp [pattern_prepad, memcpy, store, memset, toByte_val, and_7, Nat.shiftRight_eq_div_pow]
  omega

theorem fill_one_pattern_reserved (W : Nat) (cfg : String → (Nat → Byte) × Int)
    (in_patt : String) (a id : Nat) (m : Mem) (h0 : 0 ≤ (cfg in_patt).2)
    (h1 : (cfg in_patt).2 ≤ 65535) (i : Nat) (h6 : 6 ≤ i) (h60 : i < 60) :
    (fill_one_pattern W cfg in_patt a id m).mem (a + i) = 0 := by
  rw [fill_one_pattern_mem W cfg in_patt a id m h0 h1, if_neg (by omega)]
  simp only [pattern_prepad, memcpy, store, memset]
  rw [if_neg (by omega), if_neg (by omega), if_neg (by omega), if_neg (by omega),
    if_neg (by omega), if_pos (by omega)]
  rfl

theorem fill_one_pattern_id_bytes (W : Nat) (cfg : String → (Nat → Byte) × Int)
    (in_patt : String) (a id : Nat) (m : Mem) (h0 : 0 ≤ (cfg in_patt).2)
    (h1 : (cfg in_patt).2 ≤ 65535) (i : Nat) (hi : i < 4) :
    ((fill_one_pattern W cfg in_patt a id m).mem (a + 60 + i)).val =
      (id + 1) % 4294967296 / 256 ^ i % 256 := by
  rw [fill_one_pattern_mem W cfg in_patt a id m h0 h1, if_neg (by omega)]
  simp only [pattern_prepad, memcpy]
  rw [if_neg (by omega)]
  have k0 := shr_byte ((id + 1) % 4294967296) 0
  have k1 := shr_byte ((id + 1) % 4294967296) 1
  have k2 := shr_byte ((id + 1) % 4294967296) 2
  have k3 := shr_byte ((id + 1) % 4294967296) 3
  norm_num at k0 k1 k2 k3
  interval_cases i <;> simp [store, toByte_val, k0, k1, k2, k3]
  all_goals omega

theorem fill_one_pattern_config (W : Nat) (cfg : String → (Nat → Byte) × Int)
    (in_patt : String) (a id : Nat) (m : Mem) (h0 : 0 ≤ (cfg in_patt).2)
    (h1 : (cfg in_patt).2 ≤ 65535) (i : Nat) (hi : i < ((cfg in_patt).2).toNat) :
    (fill_one_pattern W cfg in_patt a id m).mem (a + 64 + i) = (cfg in_patt).1 i := by
  rw [fill_one_pattern_mem W cfg in_patt a id m h0 h1, if_neg (by omega)]
  simp only [pattern_prepad, memcpy]
  rw [if_pos (by omega)]
  have e : a + 64 + i - (a + 64) = i := by omega
  rw [e]

theorem fill_one_pattern_padding (W : Nat) (cfg : String → (Nat → Byte) × Int)
    (in_patt : String) (a id : Nat) (m : Mem) (h0 : 0 ≤ (cfg in_patt).2)
    (h1 : (cfg in_patt).2 ≤ 65535) (x : Nat) (hx : a + 64 + ((cfg in_patt).2).toNat ≤ x)
    (hn : x < (fill_one_pattern W cfg in_patt a id m).next) :
    (fill_one_pattern W cfg in_patt a id m).mem x = 0 := by
  rw [fill_one_pattern_next W cfg in_patt a id m h0 h1] at hn
  rw [fill_one_pattern_mem W cfg in_patt a id m h0 h1, if_pos (by omega)]
theorem fill_packets_nil (e : Encoded) : fill_packets [] e = e := by
  rw [fill_packets, List.foldl_nil]

theorem fill_packets_cons (row : (Nat → Byte) × Int) (rows : List ((Nat → Byte) × Int))
    (e : Encoded) :
    fill_packets (row :: rows) e =
      fill_packets rows (fill_one_packet row.1 row.2 e.next e.id e.mem) := by
  rw [fill_packets, List.foldl_cons, fill_packets]

theorem fill_packets_next (rows : List ((Nat → Byte) × Int)) :
    ∀ (e : Encoded), e.next % 64 = 0 →
    (fill_packets rows e).next =
      e.next + (rows.map (fun row => 64 * ((64 + (row.2 % 65536).toNat + 63) / 64))).sum := by
  induction rows with
  | nil => intro e _; rw [fill_packets_nil]; simp
  | cons row rows ih =>
    intro e hb
    have h : (fill_one_packet row.1 row.2 e.next e.id e.mem).next =
        e.next + 64 * ((64 + (row.2 % 65536).toNat + 63) / 64) := by
      rw [fill_one_packet_next]; omega
    rw [fill_packets_cons, ih _ (by rw [h]; omega), h]
    simp only [List.map_cons, List.sum_cons]
    omega

theorem fill_packets_append (r1 r2 : List ((Nat → Byte) × Int)) (e : Encoded) :
    fill_packets (r1 ++ r2) e = fill_packets r2 (fill_packets r1 e) := by
  rw [fill_packets, List.foldl_append, ← fill_packets, ← fill_packets]

theorem fill_packets_id (rows : List ((Nat → Byte) × Int)) :
    ∀ (e : Encoded), e.id + rows.length < 4294967296 →
      (fill_packets rows e).id = e.id + rows.length := by
  induction rows with
  | nil => intro e _; rw [fill_packets_nil]; simp
  | cons row rows ih =>
    intro e h
    rw [List.length_cons] at h
    rw [fill_packets_cons, ih _ (by rw [fill_one_packet_id]; omega), fill_one_packet_id,
      List.length_cons]
    omega

theorem fill_packets_next_le (rows : List ((Nat → Byte) × Int)) :
    ∀ (e : Encoded), e.next ≤ (fill_packets rows e).next := by
  induction rows with
  | nil => intro e; rw [fill_packets_nil]
  | cons row rows ih =>
    intro e
    rw [fill_packets_cons]
    have h1 := ih (fill_one_packet row.1 row.2 e.next e.id e.mem)
    have h2 := fill_one_packet_next_ge row.1 row.2 e.next e.id e.mem
    omega

theorem fill_packets_frame (rows : List ((Nat → Byte) × Int)) :
    ∀ (e : Encoded) (x : Nat), x < e.next → (fill_packets rows e).mem x = e.mem x := by
  induction rows with
  | nil => intro e x _; rw [fill_packets_nil]
  | cons row rows ih =>
    intro e x hx
    have h2 := fill_one_packet_next_ge row.1 row.2 e.next e.id e.mem
    rw [fill_packets_cons, ih _ x (by omega),
      fill_one_packet_frame row.1 row.2 e.next e.id e.mem x (Or.inl hx)]

theorem fill_packets_record (pre post : List ((Nat → Byte) × Int)) (row : (Nat → Byte) × Int)
    (e : Encoded) (x : Nat)
    (hx : x < (fill_packets pre e).next + 64 + (row.2 % 65536).toNat) :
    (fill_packets (pre ++ row :: post) e).mem x =
      (fill_one_packet row.1 row.2 (fill_packets pre e).next (fill_packets pre e).id
        (fill_packets pre e).mem).mem x := by
  have h2 := fill_one_packet_next_ge row.1 row.2 (fill_packets pre e).next
    (fill_packets pre e).id (fill_packets pre e).mem
  rw [fill_packets_append, fill_packets_cons, fill_packets_frame post _ x (by omega)]

/-! ### The encoders on the process state -/

theorem process_fill_one_packet_eq (s : Process) (in_pkt : Nat → Byte) (size : Int)
    (addr : Nat) :
    s.fill_one_packet in_pkt size addr =
      (⟨(fill_one_packet in_pkt size addr s.PACKET_ID s.mem).mem, s.PATTERN_ID,
          (fill_one_packet in_pkt size addr s.PACKET_ID s.mem).id⟩,
        (fill_one_packet in_pkt size addr s.PACKET_ID s.mem).next) := rfl

theorem process_fill_one_pattern_eq (W : Nat) (cfg : String → (Nat → Byte) × Int)
    (s : Process) (in_patt : String) (addr : Nat) :
    s.fill_one_pattern W cfg in_patt addr =
      (⟨(fill_one_pattern W cfg in_patt addr s.PATTERN_ID s.mem).mem,
          (fill_one_pattern W cfg in_patt addr s.PATTERN_ID s.mem).id, s.PACKET_ID⟩,
        (fill_one_pattern W cfg in_patt addr s.PATTERN_ID s.mem).next) := rfl

theorem packet_state_packet_id (e : Encoded) (b : Nat) :
    ((⟨e.mem, b, e.id⟩ : Process), e.next).1.PACKET_ID = e.id := rfl

theorem packet_state_pattern_id (e : Encoded) (b : Nat) :
    ((⟨e.mem, b, e.id⟩ : Process), e.next).1.PATTERN_ID = b := rfl

theorem packet_state_mem (e : Encoded) (b : Nat) :
    ((⟨e.mem, b, e.id⟩ : Process), e.next).1.mem = e.mem := rfl

theorem pattern_state_pattern_id (e : Encoded) (c : Nat) :
    ((⟨e.mem, e.id, c⟩ : Process), e.next).1.PATTERN_ID = e.id := rfl

theorem pattern_state_packet_id (e : Encoded) (c : Nat) :
    ((⟨e.mem, e.id, c⟩ : Process), e.next).1.PACKET_ID = c := rfl

theorem pattern_state_mem (e : Encoded) (c : Nat) :
    ((⟨e.mem, e.id, c⟩ : Process), e.next).1.mem = e.mem := rfl

/-! ### The register driver -/

theorem flush_loop_cons (n : Nat) (log : List Event) (s : U32) (input : List U32) :
    flush_loop n log (s :: input) =
      if s.val &&& 0x00FFFF00 ≠ 0 then
        ⟨.exit_error ((s.val &&& 0x00FFFF00) >>> 8), log ++ [.read .ACTION_STATUS_L s], n, input⟩
      else if s.val &&& 0x00000008 = 8 then
        read_matched_count n (log ++ [.read .ACTION_STATUS_L s]) input
      else flush_loop n (log ++ [.read .ACTION_STATUS_L s]) input := rfl

theorem scan_loop_cons (n : Nat) (log : List Event) (s : U32) (input : List U32) :
    scan_loop n log (s :: input) =
      if s.val &&& 0x00FFFF00 ≠ 0 then
        ⟨.exit_error ((s.val &&& 0x00FFFF00) >>> 8), log ++ [.read .ACTION_STATUS_L s], n, input⟩
      else if s.val &&& 0x00000010 ≠ 0 then
        ⟨.exit_stat_used_up, log ++ [.read .ACTION_STATUS_L s], n, input⟩
      else if s.val &&& 0x00000006 = 6 then
        flush_loop n
          (log ++ [.read .ACTION_STATUS_L s] ++
            [.write .ACTION_CONTROL_L 0x00000000, .write .ACTION_CONTROL_H 0x00000000] ++
            [.write .ACTION_CONTROL_L 0x00000008, .write .ACTION_CONTROL_H 0x00000000]) input
      else scan_loop n (log ++ [.read .ACTION_STATUS_L s]) input := rfl

theorem copy_loop_cons (n : Nat) (log : List Event) (s : U32) (input : List U32) :
    copy_loop n log (s :: input) =
      if s.val &&& 0x00FFFF00 ≠ 0 then
        ⟨.exit_error ((s.val &&& 0x00FFFF00) >>> 8), log ++ [.read .ACTION_STATUS_L s], n, input⟩
      else if s.val &&& 0x00000001 = 1 then
        scan_loop n
          (log ++ [.read .ACTION_STATUS_L s] ++
            [.write .ACTION_CONTROL_L 0x00000006, .write .ACTION_CONTROL_H 0x00000000]) input
      else copy_loop n (log ++ [.read .ACTION_STATUS_L s]) input := rfl

theorem read_matched_count_not_polling (n : Nat) (log : List Event) (input : List U32)
    (p : ReadPoint) (h : (read_matched_count n log input).outcome = .waiting p) :
    ¬ p.polling := by
  cases input with
  | nil =>
    simp only [read_matched_count, Outcome.waiting.injEq] at h
    subst h
    simp [ReadPoint.polling]
  | cons x xs => simp [read_matched_count] at h

theorem flush_loop_extend (n : Nat) (pre : List U32) : ∀ (log : List Event) (p : ReadPoint),
    (flush_loop n log pre).outcome = .waiting p → p.polling →
    (flush_loop n log pre).num_matched_pkt = n ∧
    ∀ rest, flush_loop n log (pre ++ rest) = resume p n (flush_loop n log pre).log rest := by
  induction pre with
  | nil =>
    intro log p h hp
    simp only [flush_loop, Outcome.waiting.injEq] at h
    subst h
    exact ⟨rfl, fun rest => rfl⟩
  | cons s pre ih =>
    intro log p h hp
    rw [flush_loop_cons] at h ⊢
    simp only [List.cons_append, flush_loop_cons]
    by_cases h1 : s.val &&& 0x00FFFF00 ≠ 0
    · rw [if_pos h1] at h
      simp at h
    · rw [if_neg h1] at h ⊢
      simp only [if_neg h1]
      by_cases h2 : s.val &&& 0x00000008 = 8
      · rw [if_pos h2] at h
        exact absurd hp (read_matched_count_not_polling _ _ _ _ h)
      · rw [if_neg h2] at h ⊢
        simp only [if_neg h2]
        exact ih _ p h hp

theorem scan_loop_extend (n : Nat) (pre : List U32) : ∀ (log : List Event) (p : ReadPoint),
    (scan_loop n log pre).outcome = .waiting p → p.polling →
    (scan_loop n log pre).num_matched_pkt = n ∧
    ∀ rest, scan_loop n log (pre ++ rest) = resume p n (scan_loop n log pre).log rest := by
  induction pre with
  | nil =>
    intro log p h hp
    simp only [scan_loop, Outcome.waiting.injEq] at h
    subst h
    exact ⟨rfl, fun rest => rfl⟩
  | cons s pre ih =>
    intro log p h hp
    rw [scan_loop_cons] at h ⊢
    simp only [List.cons_append, scan_loop_cons]
    by_cases h1 : s.val &&& 0x00FFFF00 ≠ 0
    · rw [if_pos h1] at h
      simp at h
    · rw [if_neg h1] at h ⊢
      simp only [if_neg h1]
      by_cases h2 : s.val &&& 0x00000010 ≠ 0
      · rw [if_pos h2] at h
        simp at h
      · rw [if_neg h2] at h ⊢
        simp only [if_neg h2]
        by_cases h3 : s.val &&& 0x00000006 = 6
        · rw [if_pos h3] at h ⊢
          simp only [if_pos h3]
          exact flush_loop_extend n pre _ p h hp
        · rw [if_neg h3] at h ⊢
          simp only [if_neg h3]
          exact ih _ p h hp

theorem copy_loop_extend (n : Nat) (pre : List U32) : ∀ (log : List Event) (p : ReadPoint),
    (copy_loop n log pre).outcome = .waiting p → p.polling →
    (copy_loop n log pre).num_matched_pkt = n ∧
    ∀ rest, copy_loop n log (pre ++ rest) = resume p n (copy_loop n log pre).log rest := by
  induction pre with
  | nil =>
    intro log p h hp
    simp only [copy_loop, Outcome.waiting.injEq] at h
    subst h
    exact ⟨rfl, fun rest => rfl⟩
  | cons s pre ih =>
    intro log p h hp
    rw [copy_loop_cons] at h ⊢
    simp only [List.cons_append, copy_loop_cons]
    by_cases h1 : s.val &&& 0x00FFFF00 ≠ 0
    · rw [if_pos h1] at h
      simp at h
    · rw [if_neg h1] at h ⊢
      simp only [if_neg h1]
      by_cases h2 : s.val &&& 0x00000001 = 1
      · rw [if_pos h2] at h ⊢
        simp only [if_pos h2]
        exact scan_loop_extend n pre _ p h hp
      · rw [if_neg h2] at h ⊢
        simp only [if_neg h2]
        exact ih _ p h hp

theorem print_control_status_extend (v : Int) (log log1 : List Event) (pre pre1 : List U32)
    (h : print_control_status v log pre = (log1, some pre1)) (rest : List U32) :
    print_control_status v log (pre ++ rest) = (log1, some (pre1 ++ rest)) := by
  unfold print_control_status at h ⊢
  split_ifs at h ⊢ with hv
  · match pre, h with
    | a :: b :: c :: d :: tl, h =>
      simp only [Prod.mk.injEq, Option.some.injEq] at h
      obtain ⟨h1, h2⟩ := h
      subst h1 h2
      rfl
  · simp only [Prod.mk.injEq, Option.some.injEq] at h
    obtain ⟨h1, h2⟩ := h
    subst h1 h2
    rfl

theorem action_regex_print_none (v : Int) (a : ScanArgs) (n : Nat) (input : List U32)
    (log1 : List Event) (h1 : print_control_status v [] input = (log1, none)) :
    action_regex v a n input = ⟨.waiting .print_control_status, log1, n, []⟩ := by
  unfold action_regex
  rw [h1]

theorem action_regex_print_some_none (v : Int) (a : ScanArgs) (n : Nat) (input in1 : List U32)
    (log1 log2 : List Event) (h1 : print_control_status v [] input = (log1, some in1))
    (h2 : print_control_status v
      (log1 ++ config_writes a ++
        [.write .ACTION_CONTROL_L 0x00000001, .write .ACTION_CONTROL_H 0x00000000]) in1
      = (log2, none)) :
    action_regex v a n input = ⟨.waiting .print_control_status, log2, n, []⟩ := by
  unfold action_regex
  rw [h1]
  simp only
  rw [h2]

theorem action_regex_print_some (v : Int) (a : ScanArgs) (n : Nat) (input in1 in2 : List U32)
    (log1 log2 : List Event) (h1 : print_control_status v [] input = (log1, some in1))
    (h2 : print_control_status v
      (log1 ++ config_writes a ++
        [.write .ACTION_CONTROL_L 0x00000001, .write .ACTION_CONTROL_H 0x00000000]) in1
      = (log2, some in2)) :
    action_regex v a n input = copy_loop n log2 in2 := by
  unfold action_regex
  rw [h1]
  simp only
  rw [h2]

theorem action_regex_extend (v : Int) (a : ScanArgs) (n : Nat) (pre : List U32)
    (p : ReadPoint) (h : (action_regex v a n pre).outcome = .waiting p) (hp : p.polling) :
    (action_regex v a n pre).num_matched_pkt = n ∧
    ∀ rest, action_regex v a n (pre ++ rest) = resume p n (action_regex v a n pre).log rest := by
  rcases h1 : print_control_status v [] pre with ⟨log1, _ | pre1⟩
  · rw [action_regex_print_none v a n pre log1 h1] at h
    simp only [Outcome.waiting.injEq] at h
    subst h
    simp [ReadPoint.polling] at hp
  · rcases h2 : print_control_status v
        (log1 ++ config_writes a ++
          [.write .ACTION_CONTROL_L 0x00000001, .write .ACTION_CONTROL_H 0x00000000]) pre1
      with ⟨log2, _ | pre2⟩
    · rw [action_regex_print_some_none v a n pre pre1 log1 log2 h1 h2] at h
      simp only [Outcome.waiting.injEq] at h
      subst h
      simp [ReadPoint.polling] at hp
    · rw [action_regex_print_some v a n pre pre1 pre2 log1 log2 h1 h2] at h ⊢
      obtain ⟨e1, e2⟩ := copy_loop_extend n pre2 log2 p h hp
      refine ⟨e1, fun rest => ?_⟩
      rw [action_regex_print_some v a n (pre ++ rest) (pre1 ++ rest) (pre2 ++ rest) log1 log2
        (print_control_status_extend v _ _ _ _ h1 rest)
        (print_control_status_extend v _ _ _ _ h2 rest)]
      exact e2 rest



theorem error_code_eq (s : Nat) : (s &&& 0x00FFFF00) >>> 8 = (s >>> 8) &&& 0xFFFF := by
  apply Nat.eq_of_testBit_eq
  intro i
  have e : (0x00FFFF00 : Nat) = 0xFFFF <<< 8 := by decide
  rw [Nat.testBit_shiftRight, Nat.testBit_and, Nat.testBit_and, Nat.testBit_shiftRight, e,
    Nat.testBit_shiftLeft]
  simp

theorem print_control_status_quiet (log : List Event) (input : List U32) :
    print_control_status verbose_level log input = (log, some input) := by
  simp [print_control_status, verbose_level]

theorem action_regex_quiet (a : ScanArgs) (n : Nat) (input : List U32) :
    action_regex verbose_level a n input =
      copy_loop n
        (config_writes a ++
          [.write .ACTION_CONTROL_L 0x00000001, .write .ACTION_CONTROL_H 0x00000000]) input := by
  rw [action_regex_print_some verbose_level a n input input input [] _
    (print_control_status_quiet _ _) (print_control_status_quiet _ _)]
  simp

theorem read_matched_count_facts (n : Nat) (log : List Event) (input : List U32) :
    ((read_matched_count n log input).log.countP (Event.readsReg .ACTION_STATUS_H) =
      log.countP (Event.readsReg .ACTION_STATUS_H) +
        if (read_matched_count n log input).outcome = .returned then 1 else 0) ∧
    ((read_matched_count n log input).outcome ≠ .returned →
      (read_matched_count n log input).num_matched_pkt = n) := by
  cases input with
  | nil => simp [read_matched_count]
  | cons x xs => simp [read_matched_count, List.countP_append, List.countP_cons, Event.readsReg]

theorem flush_loop_facts (n : Nat) (input : List U32) : ∀ (log : List Event),
    ((flush_loop n log input).log.countP (Event.readsReg .ACTION_STATUS_H) =
      log.countP (Event.readsReg .ACTION_STATUS_H) +
        if (flush_loop n log input).outcome = .returned then 1 else 0) ∧
    ((flush_loop n log input).outcome ≠ .returned →
      (flush_loop n log input).num_matched_pkt = n) := by
  induction input with
  | nil => intro log; simp [flush_loop]
  | cons s input ih =>
    intro log
    rw [flush_loop_cons]
    by_cases h1 : s.val &&& 0x00FFFF00 ≠ 0
    · rw [if_pos h1]
      simp [List.countP_append, List.countP_cons, Event.readsReg]
    · rw [if_neg h1]
      by_cases h2 : s.val &&& 0x00000008 = 8
      · rw [if_pos h2]
        have := read_matched_count_facts n (log ++ [.read .ACTION_STATUS_L s]) input
        simpa [List.countP_append, List.countP_cons, Event.readsReg] using this
      · rw [if_neg h2]
        have := ih (log ++ [.read .ACTION_STATUS_L s])
        simpa [List.countP_append, List.countP_cons, Event.readsReg] using this

theorem scan_loop_facts (n : Nat) (input : List U32) : ∀ (log : List Event),
    ((scan_loop n log input).log.countP (Event.readsReg .ACTION_STATUS_H) =
      log.countP (Event.readsReg .ACTION_STATUS_H) +
        if (scan_loop n log input).outcome = .returned then 1 else 0) ∧
    ((scan_loop n log input).outcome ≠ .returned →
      (scan_loop n log input).num_matched_pkt = n) := by
  induction input with
  | nil => intro log; simp [scan_loop]
  | cons s input ih =>
    intro log
    rw [scan_loop_cons]
    by_cases h1 : s.val &&& 0x00FFFF00 ≠ 0
    · rw [if_pos h1]
      simp [List.countP_append, List.countP_cons, Event.readsReg]
    · rw [if_neg h1]
      by_cases h2 : s.val &&& 0x00000010 ≠ 0
      · rw [if_pos h2]
        simp [List.countP_append, List.countP_cons, Event.readsReg]
      · rw [if_neg h2]
        by_cases h3 : s.val &&& 0x00000006 = 6
        · rw [if_pos h3]
          have := flush_loop_facts n input
            (log ++ [.read .ACTION_STATUS_L s] ++
              [.write .ACTION_CONTROL_L 0x00000000, .write .ACTION_CONTROL_H 0x00000000] ++
              [.write .ACTION_CONTROL_L 0x00000008, .write .ACTION_CONTROL_H 0x00000000])
          simpa [List.countP_append, List.countP_cons, Event.readsReg] using this
        · rw [if_neg h3]
          have := ih (log ++ [.read .ACTION_STATUS_L s])
          simpa [List.countP_append, List.countP_cons, Event.readsReg] using this

theorem copy_loop_facts (n : Nat) (input : List U32) : ∀ (log : List Event),
    ((copy_loop n log input).log.countP (Event.readsReg .ACTION_STATUS_H) =
      log.countP (Event.readsReg .ACTION_STATUS_H) +
        if (copy_loop n log input).outcome = .returned then 1 else 0) ∧
    ((copy_loop n log input).outcome ≠ .returned →
      (copy_loop n log input).num_matched_pkt = n) := by
  induction input with
  | nil => intro log; simp [copy_loop]
  | cons s input ih =>
    intro log
    rw [copy_loop_cons]
    by_cases h1 : s.val &&& 0x00FFFF00 ≠ 0
    · rw [if_pos h1]
      simp [List.countP_append, List.countP_cons, Event.readsReg]
    · rw [if_neg h1]
      by_cases h2 : s.val &&& 0x00000001 = 1
      · rw [if_pos h2]
        have := scan_loop_facts n input
          (log ++ [.read .ACTION_STATUS_L s] ++
            [.write .ACTION_CONTROL_L 0x00000006, .write .ACTION_CONTROL_H 0x00000000])
        simpa [List.countP_append, List.countP_cons, Event.readsReg] using this
      · rw [if_neg h2]
        have := ih (log ++ [.read .ACTION_STATUS_L s])
        simpa [List.countP_append, List.countP_cons, Event.readsReg] using this

theorem copy_loop_idle (n : Nat) (cs : List U32) : ∀ (log : List Event) (rest : List U32),
    (∀ x ∈ cs, x.val &&& 0x00FFFF00 = 0 ∧ x.val &&& 0x1 ≠ 0x1) →
    copy_loop n log (cs ++ rest) =
      copy_loop n (log ++ cs.map (Event.read .ACTION_STATUS_L)) rest := by
  induction cs with
  | nil => intro log rest _; simp
  | cons c cs ih =>
    intro log rest hcs
    have hc := hcs c (List.mem_cons_self _ _)
    rw [List.cons_append, copy_loop_cons, if_neg (fun h => h hc.1), if_neg hc.2,
      ih _ _ (fun x hx => hcs x (List.mem_cons_of_mem _ hx))]
    simp

theorem scan_loop_idle (n : Nat) (ss : List U32) : ∀ (log : List Event) (rest : List U32),
    (∀ x ∈ ss, x.val &&& 0x00FFFF00 = 0 ∧ x.val &&& 0x10 = 0 ∧ x.val &&& 0x6 ≠ 0x6) →
    scan_loop n log (ss ++ rest) =
      scan_loop n (log ++ ss.map (Event.read .ACTION_STATUS_L)) rest := by
  induction ss with
  | nil => intro log rest _; simp
  | cons c ss ih =>
    intro log rest hss
    have hc := hss c (List.mem_cons_self _ _)
    rw [List.cons_append, scan_loop_cons, if_neg (fun h => h hc.1), if_neg (fun h => h hc.2.1),
      if_neg hc.2.2, ih _ _ (fun x hx => hss x (List.mem_cons_of_mem _ hx))]
    simp

theorem flush_loop_idle (n : Nat) (fs : List U32) : ∀ (log : List Event) (rest : List U32),
    (∀ x ∈ fs, x.val &&& 0x00FFFF00 = 0 ∧ x.val &&& 0x8 ≠ 0x8) →
    flush_loop n log (fs ++ rest) =
      flush_loop n (log ++ fs.map (Event.read .ACTION_STATUS_L)) rest := by
  induction fs with
  | nil => intro log rest _; simp
  | cons c fs ih =>
    intro log rest hfs
    have hc := hfs c (List.mem_cons_self _ _)
    rw [List.cons_append, flush_loop_cons, if_neg (fun h => h hc.1), if_neg hc.2,
      ih _ _ (fun x hx => hfs x (List.mem_cons_of_mem _ hx))]
    simp

theorem writeTo_reads (r : Reg) (l : List U32) :
    (l.map (Event.read .ACTION_STATUS_L)).filterMap (Event.writeTo r) = [] := by
  induction l with
  | nil => rfl
  | cons x xs ih => simp [Event.writeTo]

theorem toInt32_small (x : Nat) (h : x < 2147483648) : toInt32 x = (x : Int) := by
  unfold toInt32
  have e : x % 4294967296 = x := by omega
  rw [e, if_pos h]

theorem or_bytes (b4 b5 b6 b7 : Nat) (h4 : b4 < 256) (h5 : b5 < 256) (h6 : b6 < 256)
    (h7 : b7 < 256) :
    ((((((((0 ||| b4 <<< (4 % 4 * 8)) % 4294967296) ||| b5 <<< (5 % 4 * 8)) % 4294967296)
      ||| b6 <<< (6 % 4 * 8)) % 4294967296) ||| b7 <<< (7 % 4 * 8)) % 4294967296) =
      b4 + 2 ^ 8 * b5 + 2 ^ 16 * b6 + 2 ^ 24 * b7 := by
  have s5 := Nat.mul_add_lt_is_or (i := 8) (b := b4) (by omega) b5
  have s6 := Nat.mul_add_lt_is_or (i := 16) (b := 2 ^ 8 * b5 + b4) (by omega) b6
  have s7 := Nat.mul_add_lt_is_or (i := 24) (b := 2 ^ 16 * b6 + (2 ^ 8 * b5 + b4)) (by omega) b7
  simp only [Nat.shiftLeft_eq, Nat.zero_or]
  norm_num at s5 s6 s7 ⊢
  have e4 : b4 % 4294967296 = b4 := by omega
  rw [e4, Nat.lor_comm b4, Nat.mul_comm b5, ← s5]
  have e5 : (256 * b5 + b4) % 4294967296 = 256 * b5 + b4 := by omega
  rw [e5, Nat.lor_comm _ (b6 * 65536), Nat.mul_comm b6, ← s6]
  have e6 : (65536 * b6 + (256 * b5 + b4)) % 4294967296 = 65536 * b6 + (256 * b5 + b4) := by
    omega
  rw [e6, Nat.lor_comm _ (b7 * 16777216), Nat.mul_comm b7, ← s7]
  omega


theorem decode_fold (stat : Int → Byte) (result : Nat → Nat) (n : Nat)
    (hn : 10 * n < 2147483648) :
    (List.range n).foldl
      (fun (s : (Nat → Nat) × Nat) i =>
        let pkt_id := [4, 5, 6, 7].foldl
          (fun pkt_id j =>
            (pkt_id ||| ((stat (toInt32 (i * 10 + j))).val <<< ((j % 4) * 8)))
              % 4294967296)
          s.2
        (Function.update s.1 i pkt_id, 0))
      (result, 0) =
    (fun i => if i < n then
        (stat (10 * (i : Int) + 4)).val + 2 ^ 8 * (stat (10 * (i : Int) + 5)).val +
          2 ^ 16 * (stat (10 * (i : Int) + 6)).val + 2 ^ 24 * (stat (10 * (i : Int) + 7)).val
      else result i, 0) := by
  induction n with
  | zero => simp
  | succ n ih =>
    rw [List.range_succ, List.foldl_append, ih (by omega)]
    simp only [List.foldl]
    rw [toInt32_small (n * 10 + 4) (by omega), toInt32_small (n * 10 + 5) (by omega),
      toInt32_small (n * 10 + 6) (by omega), toInt32_small (n * 10 + 7) (by omega)]
    rw [or_bytes _ _ _ _ (stat _).isLt (stat _).isLt (stat _).isLt (stat _).isLt]
    congr 1
    funext i
    by_cases h : i = n
    · subst h
      simp only [Function.update_same]
      rw [if_pos (by omega)]
      push_cast
      simp only [Int.mul_comm]
    · rw [Function.update_noteq h]
      by_cases h2 : i < n
      · rw [if_pos h2, if_pos (by omega)]
      · rw [if_neg h2, if_neg (by omega)]


/-! ### The log only grows -/

theorem read_matched_count_log (n : Nat) (log : List Event) (input : List U32) :
    ∃ t, (read_matched_count n log input).log = log ++ t := by
  cases input with
  | nil => exact ⟨[], (List.append_nil log).symm⟩
  | cons s input =>
    refine ⟨[.read .ACTION_STATUS_H s] ++
      [.write .ACTION_CONTROL_L 0x00000000, .write .ACTION_CONTROL_H 0x00000000], ?_⟩
    show log ++ [Event.read .ACTION_STATUS_H s] ++
      [.write .ACTION_CONTROL_L 0x00000000, .write .ACTION_CONTROL_H 0x00000000] = _
    rw [List.append_assoc]

theorem flush_loop_log (n : Nat) (input : List U32) : ∀ (log : List Event),
    ∃ t, (flush_loop n log input).log = log ++ t := by
  induction input with
  | nil => intro log; exact ⟨[], (List.append_nil log).symm⟩
  | cons s input ih =>
    intro log
    rw [flush_loop_cons]
    split
    · exact ⟨_, rfl⟩
    · split
      · obtain ⟨t, ht⟩ := read_matched_count_log n (log ++ [.read .ACTION_STATUS_L s]) input
        exact ⟨_, by rw [ht, List.append_assoc]⟩
      · obtain ⟨t, ht⟩ := ih (log ++ [.read .ACTION_STATUS_L s])
        exact ⟨_, by rw [ht, List.append_assoc]⟩

theorem scan_loop_log (n : Nat) (input : List U32) : ∀ (log : List Event),
    ∃ t, (scan_loop n log input).log = log ++ t := by
  induction input with
  | nil => intro log; exact ⟨[], (List.append_nil log).symm⟩
  | cons s input ih =>
    intro log
    rw [scan_loop_cons]
    split
    · exact ⟨_, rfl⟩
    · split
      · exact ⟨_, rfl⟩
      · split
        · obtain ⟨t, ht⟩ := flush_loop_log n input
            (log ++ [.read .ACTION_STATUS_L s] ++
              [.write .ACTION_CONTROL_L 0x00000000, .write .ACTION_CONTROL_H 0x00000000] ++
              [.write .ACTION_CONTROL_L 0x00000008, .write .ACTION_CONTROL_H 0x00000000])
          exact ⟨_, by rw [ht, List.append_assoc, List.append_assoc, List.append_assoc]⟩
        · obtain ⟨t, ht⟩ := ih (log ++ [.read .ACTION_STATUS_L s])
          exact ⟨_, by rw [ht, List.append_assoc]⟩

theorem copy_loop_log (n : Nat) (input : List U32) : ∀ (log : List Event),
    ∃ t, (copy_loop n log input).log = log ++ t := by
  induction input with
  | nil => intro log; exact ⟨[], (List.append_nil log).symm⟩
  | cons s input ih =>
    intro log
    rw [copy_loop_cons]
    split
    · exact ⟨_, rfl⟩
    · split
      · obtain ⟨t, ht⟩ := scan_loop_log n input
          (log ++ [.read .ACTION_STATUS_L s] ++
            [.write .ACTION_CONTROL_L 0x00000006, .write .ACTION_CONTROL_H 0x00000000])
        exact ⟨_, by rw [ht, List.append_assoc, List.append_assoc]⟩
      · obtain ⟨t, ht⟩ := ih (log ++ [.read .ACTION_STATUS_L s])
        exact ⟨_, by rw [ht, List.append_assoc]⟩

/-! ### The drain loops and the decoder on a count in the range of `int` -/

theorem drain_loop_ten (status_l : Nat → U32) :
    drain_loop 10 status_l 10 0 [] = (List.range 10).map status_l := rfl

theorem print_control_status_low (v : Int) (hv : v ≤ 2) (log : List Event) (input : List U32) :
    print_control_status v log input = (log, some input) := by
  have h : ¬ v > 2 := by omega
  simp [print_control_status, h]

theorem print_control_status_high (v : Int) (hv : 2 < v) (log : List Event)
    (d1 d2 d3 d4 : U32) (rest : List U32) :
    print_control_status v log (d1 :: d2 :: d3 :: d4 :: rest) =
      (log ++ [.read .ACTION_STATUS_L d1, .read .ACTION_STATUS_H d2,
        .read .ACTION_CONTROL_L d3, .read .ACTION_CONTROL_H d4], some rest) := by
  have h : v > 2 := hv
  simp [print_control_status, h]

theorem print_control_status_short (v : Int) (hv : 2 < v) (log : List Event)
    (input : List U32) (h : input.length < 4) :
    ∃ t, print_control_status v log input = (log ++ t, none) ∧
      t.countP (Event.readsReg .ACTION_STATUS_H) ≤ 1 := by
  have h2 : v > 2 := hv
  rcases input with _ | ⟨d1, _ | ⟨d2, _ | ⟨d3, _ | ⟨d4, rest⟩⟩⟩⟩
  · exact ⟨[], by simp [print_control_status, h2], by simp⟩
  · exact ⟨[.read .ACTION_STATUS_L d1], by simp [print_control_status, h2],
      by simp [List.countP_cons, Event.readsReg]⟩
  · exact ⟨[.read .ACTION_STATUS_L d1, .read .ACTION_STATUS_H d2],
      by simp [print_control_status, h2], by simp [List.countP_cons, Event.readsReg]⟩
  · exact ⟨[.read .ACTION_STATUS_L d1, .read .ACTION_STATUS_H d2, .read .ACTION_CONTROL_L d3],
      by simp [print_control_status, h2], by simp [List.countP_cons, Event.readsReg]⟩
  · simp at h
    omega

theorem action_regex_low (v : Int) (hv : v ≤ 2) (a : ScanArgs) (n : Nat) (input : List U32) :
    action_regex v a n input =
      copy_loop n
        (config_writes a ++
          [.write .ACTION_CONTROL_L 0x00000001, .write .ACTION_CONTROL_H 0x00000000]) input := by
  rw [action_regex_print_some v a n input input input [] _
    (print_control_status_low v hv _ _) (print_control_status_low v hv _ _)]
  simp

theorem action_regex_high (v : Int) (hv : 2 < v) (a : ScanArgs) (n : Nat)
    (d1 d2 d3 d4 e1 e2 e3 e4 : U32) (rest : List U32) :
    action_regex v a n (d1 :: d2 :: d3 :: d4 :: e1 :: e2 :: e3 :: e4 :: rest) =
      copy_loop n
        ([.read .ACTION_STATUS_L d1, .read .ACTION_STATUS_H d2,
            .read .ACTION_CONTROL_L d3, .read .ACTION_CONTROL_H d4] ++
          config_writes a ++
          [.write .ACTION_CONTROL_L 0x00000001, .write .ACTION_CONTROL_H 0x00000000] ++
          [.read .ACTION_STATUS_L e1, .read .ACTION_STATUS_H e2,
            .read .ACTION_CONTROL_L e3, .read .ACTION_CONTROL_H e4]) rest := by
  have h1 := print_control_status_high v hv [] d1 d2 d3 d4 (e1 :: e2 :: e3 :: e4 :: rest)
  rw [List.nil_append] at h1
  exact action_regex_print_some v a n _ _ _ _ _ h1
    (print_control_status_high v hv _ e1 e2 e3 e4 rest)

theorem action_regex_high_short (v : Int) (hv : 2 < v) (a : ScanArgs) (n : Nat)
    (input : List U32) (h : input.length < 8) :
    (action_regex v a n input).outcome = .waiting .print_control_status ∧
    (action_regex v a n input).num_matched_pkt = n ∧
    (action_regex v a n input).log.countP (Event.readsReg .ACTION_STATUS_H) ≤ 2 := by
  by_cases h4 : input.length < 4
  · obtain ⟨t, ht, hc⟩ := print_control_status_short v hv [] input h4
    rw [action_regex_print_none v a n input _ ht]
    refine ⟨rfl, rfl, ?_⟩
    show ([] ++ t).countP _ ≤ 2
    rw [List.nil_append]
    omega
  · rcases input with _ | ⟨d1, _ | ⟨d2, _ | ⟨d3, _ | ⟨d4, in1⟩⟩⟩⟩
    · simp at h4
    · simp at h4
    · simp at h4
    · simp at h4
    · have h1 := print_control_status_high v hv [] d1 d2 d3 d4 in1
      rw [List.nil_append] at h1
      obtain ⟨t, ht, hc⟩ := print_control_status_short v hv
        ([.read .ACTION_STATUS_L d1, .read .ACTION_STATUS_H d2,
            .read .ACTION_CONTROL_L d3, .read .ACTION_CONTROL_H d4] ++ config_writes a ++
          [.write .ACTION_CONTROL_L 0x00000001, .write .ACTION_CONTROL_H 0x00000000]) in1
        (by simp at h; omega)
      rw [action_regex_print_some_none v a n _ _ _ _ h1 ht]
      refine ⟨rfl, rfl, ?_⟩
      show (_ ++ t).countP _ ≤ 2
      rw [List.countP_append]
      have e : ([Event.read .ACTION_STATUS_L d1, Event.read .ACTION_STATUS_H d2,
            Event.read .ACTION_CONTROL_L d3, Event.read .ACTION_CONTROL_H d4] ++ config_writes a ++
          [Event.write .ACTION_CONTROL_L 0x00000001, Event.write .ACTION_CONTROL_H 0x00000000]).countP
          (Event.readsReg .ACTION_STATUS_H) = 1 := by
        simp [config_writes, List.countP_cons, Event.readsReg]
      rw [e]
      omega

theorem high_status_reads_low (v : Int) (hv : v ≤ 2) (a : ScanArgs) (n : Nat)
    (input : List U32) :
    ((action_regex v a n input).log.countP (Event.readsReg .ACTION_STATUS_H) =
      if (action_regex v a n input).outcome = .returned then 1 else 0) ∧
    ((action_regex v a n input).outcome ≠ .returned →
      (action_regex v a n input).num_matched_pkt = n) := by
  rw [action_regex_low v hv]
  refine ⟨?_, (copy_loop_facts n input _).2⟩
  rw [(copy_loop_facts n input _).1]
  simp [config_writes, List.countP_cons, Event.readsReg]

theorem high_status_reads_high (v : Int) (hv : 2 < v) (a : ScanArgs) (n : Nat)
    (input : List U32) :
    ((action_regex v a n input).outcome = .returned →
      (action_regex v a n input).log.countP (Event.readsReg .ACTION_STATUS_H) = 3) ∧
    ((action_regex v a n input).outcome ≠ .returned →
      (action_regex v a n input).log.countP (Event.readsReg .ACTION_STATUS_H) ≤ 2 ∧
      (action_regex v a n input).num_matched_pkt = n) := by
  by_cases h8 : input.length < 8
  · obtain ⟨h1, h2, h3⟩ := action_regex_high_short v hv a n input h8
    refine ⟨fun h => ?_, fun _ => ⟨h3, h2⟩⟩
    rw [h1] at h
    exact absurd h (by decide)
  · rcases input with _ | ⟨d1, _ | ⟨d2, _ | ⟨d3, _ | ⟨d4, _ | ⟨e1, _ | ⟨e2, _ | ⟨e3, _ |
      ⟨e4, rest⟩⟩⟩⟩⟩⟩⟩⟩
    any_goals (simp at h8)
    rw [action_regex_high v hv]
    have hf := copy_loop_facts n rest
      ([.read .ACTION_STATUS_L d1, .read .ACTION_STATUS_H d2,
            .read .ACTION_CONTROL_L d3, .read .ACTION_CONTROL_H d4] ++
          config_writes a ++
          [.write .ACTION_CONTROL_L 0x00000001, .write .ACTION_CONTROL_H 0x00000000] ++
          [.read .ACTION_STATUS_L e1, .read .ACTION_STATUS_H e2,
            .read .ACTION_CONTROL_L e3, .read .ACTION_CONTROL_H e4])
    have e : ([Event.read .ACTION_STATUS_L d1, Event.read .ACTION_STATUS_H d2,
            Event.read .ACTION_CONTROL_L d3, Event.read .ACTION_CONTROL_H d4] ++
          config_writes a ++
          [Event.write .ACTION_CONTROL_L 0x00000001, Event.write .ACTION_CONTROL_H 0x00000000] ++
          [Event.read .ACTION_STATUS_L e1, Event.read .ACTION_STATUS_H e2,
            Event.read .ACTION_CONTROL_L e3, Event.read .ACTION_CONTROL_H e4]).countP
          (Event.readsReg .ACTION_STATUS_H) = 2 := by
      simp [config_writes, List.countP_cons, Event.readsReg]
    rw [e] at hf
    refine ⟨fun h => ?_, fun h => ⟨?_, hf.2 h⟩⟩
    · rw [hf.1, if_pos h]
    · rw [hf.1, if_neg h]

/-! ## Properties of the encoders, the driver and the decoder -/

/-- C1: for a payload of length `L ≤ 4095`, any target address `a` and any value of the
packet counter, `fill_one_packet` leaves `0x5A` in bytes 0..3 of the record, zero in bytes
6..59, the incremented counter in little-endian order in bytes 60..63, the payload in
bytes 64..64+L-1, and zero in every byte from offset 64+L up to the returned address. -/
theorem packet_record_layout (in_pkt : Nat → Byte) (L : Nat) (hL : L ≤ 4095)
    (a PACKET_ID : Nat) (m : Mem) :
    (∀ i, i < 4 → (fill_one_packet in_pkt L a PACKET_ID m).mem (a + i) = 0x5A) ∧
    (∀ i, 6 ≤ i → i < 60 → (fill_one_packet in_pkt L a PACKET_ID m).mem (a + i) = 0) ∧
    (∀ i, i < 4 → ((fill_one_packet in_pkt L a PACKET_ID m).mem (a + 60 + i)).val =
      (fill_one_packet in_pkt L a PACKET_ID m).id / 256 ^ i % 256) ∧
    (fill_one_packet in_pkt L a PACKET_ID m).id = (PACKET_ID + 1) % 4294967296 ∧
    (∀ i, i < L → (fill_one_packet in_pkt L a PACKET_ID m).mem (a + 64 + i) = in_pkt i) ∧
    (∀ x, a + 64 + L ≤ x → x < (fill_one_packet in_pkt L a PACKET_ID m).next →
      (fill_one_packet in_pkt L a PACKET_ID m).mem x = 0) := by
  have e : (((L : Nat) : Int) % 65536).toNat = L := by omega
  refine ⟨fun i hi => fill_one_packet_marker _ _ _ _ _ i hi,
    fun i h1 h2 => fill_one_packet_reserved _ _ _ _ _ i h1 h2,
    fun i hi => ?_, fill_one_packet_id _ _ _ _ _, fun i hi => ?_, fun x h1 h2 => ?_⟩
  · rw [fill_one_packet_id_bytes _ _ _ _ _ i hi, fill_one_packet_id]
  · exact fill_one_packet_payload _ _ _ _ _ i (by rw [e]; exact hi)
  · exact fill_one_packet_padding _ _ _ _ _ x (by rw [e]; exact h1) h2

/-- C1 at the payload "foo" written at address 0 by a fresh process: the record starts
with the marker byte. -/
theorem packet_record_layout_witness :
    (3 : Nat) ≤ 4095 ∧
    (fill_one_packet (payload [0x66, 0x6f, 0x6f]) ((3 : Nat) : Int) 0 0 (fun _ => 0)).mem
      (0 + 0) = 0x5A :=
  ⟨by decide,
    (packet_record_layout (payload [0x66, 0x6f, 0x6f]) 3 (by decide) 0 0 (fun _ => 0)).1 0
      (by decide)⟩

/-- C2: for a target address `a` and a length `L ≤ 65535`, the address `r` returned by
`fill_one_packet` for a payload of length `L`, and by `fill_one_pattern` when the compiled
configuration has length `L`, is the least multiple of 64 that is at least `a + 64 + L`;
the last byte written lies at an address congruent to 63 modulo 64; when `a` is aligned
the encoded length `r - a` is `64 * ceil ((64 + L) / 64)`, which is 64 for `L = 0` and 128
for `L = 1`. -/
theorem returned_address_least_multiple (a L : Nat) (hL : L ≤ 65535)
    (in_pkt : Nat → Byte) (PACKET_ID : Nat) (m : Mem)
    (W : Nat) (cfg : String → (Nat → Byte) × Int) (in_patt : String) (PATTERN_ID : Nat)
    (hcfg : (cfg in_patt).2 = L) (r : Nat)
    (hr : r = (fill_one_packet in_pkt L a PACKET_ID m).next ∨
      r = (fill_one_pattern W cfg in_patt a PATTERN_ID m).next) :
    64 ∣ r ∧ a + 64 + L ≤ r ∧ (∀ k, 64 ∣ k → a + 64 + L ≤ k → r ≤ k) ∧
    (r - 1) % 64 = 63 ∧
    (a % 64 = 0 → r - a = 64 * ((64 + L + 63) / 64)) ∧
    (a % 64 = 0 → L = 0 → r - a = 64) ∧ (a % 64 = 0 → L = 1 → r - a = 128) := by
  have e : (((L : Nat) : Int) % 65536).toNat = L := by omega
  have hr2 : r = 64 * ((a + L + 127) / 64) := by
    rcases hr with hr | hr
    · rw [hr, fill_one_packet_next, e]
    · rw [hr, fill_one_pattern_next W cfg in_patt a PATTERN_ID m (by omega) (by omega), hcfg]
      simp
  refine ⟨⟨_, hr2⟩, by omega, ?_, by omega, by omega, by omega, by omega⟩
  rintro k ⟨q, rfl⟩ hk
  omega

/-- C2 at a one-byte configuration written at address 0: the pattern record is 128 bytes
long. -/
theorem returned_address_least_multiple_witness :
    (fill_one_pattern 36 (fun _ => (payload [0x61], 1)) "a" 0 0 (fun _ => 0)).next - 0 = 128 :=
  (returned_address_least_multiple 0 1 (by decide) (payload [0x61]) 0 (fun _ => 0) 36
    (fun _ => (payload [0x61], 1)) "a" 0 rfl
    (fill_one_pattern 36 (fun _ => (payload [0x61], 1)) "a" 0 0 (fun _ => 0)).next
    (Or.inr rfl)).2.2.2.2.2.2 rfl rfl

/-- C3: for a payload length `L ≤ 4095` the header length field written by
`fill_one_packet` decodes back to `L`: byte 4 is `L mod 256`, the low four bits of byte 5
are bits 11..8 of `L`, the upper four bits of byte 5 are zero, and
`byte4 + 256 * (byte5 mod 16) = L`. -/
theorem length_field_round_trip (in_pkt : Nat → Byte) (L : Nat) (hL : L ≤ 4095)
    (a PACKET_ID : Nat) (m : Mem) :
    ((fill_one_packet in_pkt L a PACKET_ID m).mem (a + 4)).val +
      256 * (((fill_one_packet in_pkt L a PACKET_ID m).mem (a + 5)).val % 16) = L ∧
    ((fill_one_packet in_pkt L a PACKET_ID m).mem (a + 4)).val = L % 256 ∧
    ((fill_one_packet in_pkt L a PACKET_ID m).mem (a + 5)).val % 16 = L / 256 % 16 ∧
    ((fill_one_packet in_pkt L a PACKET_ID m).mem (a + 5)).val / 16 = 0 := by
  have e : (((L : Nat) : Int) % 65536).toNat = L := by omega
  have h4 := fill_one_packet_len_lo in_pkt L a PACKET_ID m
  have h5 := fill_one_packet_len_hi in_pkt L a PACKET_ID m
  rw [e] at h4 h5
  rw [h4, h5]
  omega

/-- C3 at the length 300 = 0x12C. -/
theorem length_field_round_trip_witness :
    ((fill_one_packet (fun _ => 0) ((300 : Nat) : Int) 0 0 (fun _ => 0)).mem (0 + 4)).val +
      256 * (((fill_one_packet (fun _ => 0) ((300 : Nat) : Int) 0 0 (fun _ => 0)).mem
        (0 + 5)).val % 16) = 300 :=
  (length_field_round_trip (fun _ => 0) 300 (by decide) 0 0 (fun _ => 0)).1

/-- C4, amended: for a matched count `N` with `10 * N < 2 ^ 31` (so that neither the cast
`(int) num_matched_pkt` nor the `int` index `i * 10 + j` leaves the range of `int`),
`get_results` with a non-null result array returns 0 and overwrites exactly the entries
`0 .. N-1`, entry `i` becoming
`b[10i+4] + 2^8 * b[10i+5] + 2^16 * b[10i+6] + 2^24 * b[10i+7]`; the outcome depends on
bytes 4..7 of the first `N` slots only. -/
theorem get_results_decodes (N : Nat) (hN : 10 * N < 2147483648) (result : Nat → Nat)
    (stat : Int → Byte) :
    get_results (some result) N stat =
      (0, some (fun i => if i < N then
        (stat (10 * (i : Int) + 4)).val + 2 ^ 8 * (stat (10 * (i : Int) + 5)).val +
          2 ^ 16 * (stat (10 * (i : Int) + 6)).val + 2 ^ 24 * (stat (10 * (i : Int) + 7)).val
        else result i)) ∧
    ∀ stat1 : Int → Byte,
      (∀ i : Nat, i < N → ∀ j : Nat, 4 ≤ j → j < 8 →
        stat1 (10 * (i : Int) + j) = stat (10 * (i : Int) + j)) →
      get_results (some result) N stat1 = get_results (some result) N stat := by
  have key : ∀ st : Int → Byte, get_results (some result) N st =
      (0, some (fun i => if i < N then
        (st (10 * (i : Int) + 4)).val + 2 ^ 8 * (st (10 * (i : Int) + 5)).val +
          2 ^ 16 * (st (10 * (i : Int) + 6)).val + 2 ^ 24 * (st (10 * (i : Int) + 7)).val
        else result i)) := by
    intro st
    have e : (toInt32 N).toNat = N := by rw [toInt32_small N (by omega)]; simp
    simp only [get_results]
    rw [e, decode_fold st result N hN]
  refine ⟨key stat, fun stat1 h => ?_⟩
  rw [key stat1, key stat]
  congr 2
  funext i
  by_cases hi : i < N
  · rw [if_pos hi, if_pos hi]
    have h4 := h i hi 4 (by norm_num) (by norm_num)
    have h5 := h i hi 5 (by norm_num) (by norm_num)
    have h6 := h i hi 6 (by norm_num) (by norm_num)
    have h7 := h i hi 7 (by norm_num) (by norm_num)
    norm_num at h4 h5 h6 h7
    rw [h4, h5, h6, h7]
  · rw [if_neg hi, if_neg hi]

/-- C4, amended, at one slot whose bytes are all 1: the call returns 0 and entry 0 becomes
0x01010101. -/
theorem get_results_decodes_witness :
    10 * 1 < 2147483648 ∧
    (get_results (some (fun _ => 0)) 1 (fun _ => 1)).1 = 0 ∧
    (get_results (some (fun _ => 0)) 1 (fun _ => 1)).2.map (fun f => f 0) = some 16843009 := by
  have h := (get_results_decodes 1 (by decide) (fun _ => 0) (fun _ => 1)).1
  rw [h]
  simp

/-- C4 as stated fails for the matched count `N = 2 ^ 31`: the cast
`(int) num_matched_pkt` is negative, the loop body never runs, and entry 0 of a zeroed
result array stays 0 although bytes 4..7 of slot 0 (all 1) encode 0x01010101. -/
theorem get_results_large_count :
    (get_results (some (fun _ => 0)) 2147483648 (fun _ => 1)).2.map (fun f => f 0) = some 0 ∧
    (get_results (some (fun _ => 0)) 2147483648 (fun _ => 1)).2.map (fun f => f 0) ≠
      some (((fun _ => 1 : Int → Byte) 4).val + 2 ^ 8 * ((fun _ => 1 : Int → Byte) 5).val +
        2 ^ 16 * ((fun _ => 1 : Int → Byte) 6).val +
        2 ^ 24 * ((fun _ => 1 : Int → Byte) 7).val) := by
  have h : (get_results (some (fun _ => 0)) 2147483648 (fun _ => 1)).2.map (fun f => f 0) =
      some 0 := by
    simp [get_results, toInt32]
  refine ⟨h, ?_⟩
  rw [h]
  simp

/-- C5: in each of the three polling loops of `action_regex`, a status value whose error
field `status & 0x00FFFF00` is nonzero, whatever its other bits, makes the driver stop with
the error code `(status >> 8) & 0xFFFF`; the access log ends with that poll, so no
register is written or read after it, and the remaining read values stay unconsumed. -/
theorem error_field_stops_driver (v : Int) (a : ScanArgs) (n : Nat) (pre : List U32)
    (p : ReadPoint) (s : U32) (post : List U32)
    (h : (action_regex v a n pre).outcome = .waiting p)
    (hp : p = .pattern_copy ∨ p = .scanning ∨ p = .flushing)
    (hs : s.val &&& 0x00FFFF00 ≠ 0) :
    action_regex v a n (pre ++ s :: post) =
      ⟨.exit_error ((s.val >>> 8) &&& 0xFFFF),
        (action_regex v a n pre).log ++ [.read .ACTION_STATUS_L s], n, post⟩ := by
  obtain ⟨-, e⟩ := action_regex_extend v a n pre p h hp
  rw [e, ← error_code_eq]
  rcases hp with rfl | rfl | rfl
  · simp only [resume]
    rw [copy_loop_cons, if_pos hs]
  · simp only [resume]
    rw [scan_loop_cons, if_pos hs]
  · simp only [resume]
    rw [flush_loop_cons, if_pos hs]

/-- C5 at the first pattern-copy poll returning 0x00000101: the completion bit is set in
the same value and the driver still stops with error code 1. -/
theorem error_field_stops_driver_witness :
    (action_regex 0 ⟨0, 0, 0, 0, 0, 0⟩ 0 ([] ++ (0x00000101 : U32) :: [])).outcome =
      .exit_error 1 := by
  have h := error_field_stops_driver 0 ⟨0, 0, 0, 0, 0, 0⟩ 0 [] .pattern_copy 0x00000101 []
    rfl (Or.inl rfl) (by decide)
  rw [h]
  rfl

/-- C7: in the scanning phase, for a status value with a zero error field: when bit 4 is
set the driver stops with "result space exhausted" without a further access, also when
bits 1 and 2 are set; otherwise, when bits 1 and 2 are both set, it writes the stop
control value 0 and the flush control value 8 and enters the flush loop; otherwise it
polls again and writes no register. -/
theorem scanning_poll (v : Int) (a : ScanArgs) (n : Nat) (pre : List U32) (s : U32)
    (post : List U32)
    (h : (action_regex v a n pre).outcome = .waiting .scanning)
    (hs : s.val &&& 0x00FFFF00 = 0) :
    (s.val &&& 0x10 ≠ 0 →
      action_regex v a n (pre ++ s :: post) =
        ⟨.exit_stat_used_up, (action_regex v a n pre).log ++ [.read .ACTION_STATUS_L s],
          n, post⟩) ∧
    (s.val &&& 0x10 = 0 → s.val &&& 0x6 = 0x6 →
      action_regex v a n (pre ++ s :: post) =
        flush_loop n
          ((action_regex v a n pre).log ++
            [.read .ACTION_STATUS_L s, .write .ACTION_CONTROL_L 0, .write .ACTION_CONTROL_H 0,
              .write .ACTION_CONTROL_L 8, .write .ACTION_CONTROL_H 0]) post) ∧
    (s.val &&& 0x10 = 0 → s.val &&& 0x6 ≠ 0x6 →
      action_regex v a n (pre ++ s :: post) =
        scan_loop n ((action_regex v a n pre).log ++ [.read .ACTION_STATUS_L s]) post) := by
  obtain ⟨-, e⟩ := action_regex_extend v a n pre .scanning h (Or.inr (Or.inl rfl))
  have hs1 : ¬ (s.val &&& 0x00FFFF00 ≠ 0) := fun hc => hc hs
  refine ⟨fun h4 => ?_, fun h4 h6 => ?_, fun h4 h6 => ?_⟩
  · rw [e]
    simp only [resume]
    rw [scan_loop_cons, if_neg hs1, if_pos h4]
  · rw [e]
    simp only [resume]
    rw [scan_loop_cons, if_neg hs1, if_neg (fun hc => hc h4), if_pos h6]
    simp
  · rw [e]
    simp only [resume]
    rw [scan_loop_cons, if_neg hs1, if_neg (fun hc => hc h4), if_neg h6]

/-- C7 at a scan poll returning 0x16, reached after one completed pattern-copy poll: bit 4
wins over bits 1 and 2. -/
theorem scanning_poll_witness :
    (action_regex 0 ⟨0, 0, 0, 0, 0, 0⟩ 0 ([1] ++ (0x16 : U32) :: [])).outcome =
      .exit_stat_used_up := by
  have h := (scanning_poll 0 ⟨0, 0, 0, 0, 0, 0⟩ 0 [1] 0x16 [] rfl (by decide)).1 (by decide)
  rw [h]

/-- C8, amended: at every value of `verbose_level`, when the first flush poll with bit 3
set and a zero error field is followed by the read value `hi`, the driver reads the high
status register next, stores `hi` through `num_matched_pkt`, writes control 0 and
returns; and on every run that does not return the caller's `num_matched_pkt` is
unchanged. With `verbose_level` at most 2 (its initial value is 0) the high status
register is read once when the driver returns and never otherwise; with `verbose_level`
above 2 each of the two `print_control_status` dumps reads it as well, so that a
returning run reads it three times and a run that does not return at most twice. -/
theorem matched_count_capture (v : Int) (a : ScanArgs) (n : Nat) :
    (∀ (pre : List U32) (s hi : U32) (post : List U32),
      (action_regex v a n pre).outcome = .waiting .flushing →
      s.val &&& 0x00FFFF00 = 0 → s.val &&& 0x8 = 0x8 →
      action_regex v a n (pre ++ s :: hi :: post) =
        ⟨.returned,
          (action_regex v a n pre).log ++
            [.read .ACTION_STATUS_L s, .read .ACTION_STATUS_H hi,
              .write .ACTION_CONTROL_L 0, .write .ACTION_CONTROL_H 0],
          hi.val, post⟩) ∧
    (∀ input : List U32,
      (action_regex v a n input).outcome ≠ .returned →
      (action_regex v a n input).num_matched_pkt = n) ∧
    (v ≤ 2 → ∀ input : List U32,
      (action_regex v a n input).log.countP (Event.readsReg .ACTION_STATUS_H) =
        if (action_regex v a n input).outcome = .returned then 1 else 0) ∧
    (2 < v → ∀ input : List U32,
      ((action_regex v a n input).outcome = .returned →
        (action_regex v a n input).log.countP (Event.readsReg .ACTION_STATUS_H) = 3) ∧
      ((action_regex v a n input).outcome ≠ .returned →
        (action_regex v a n input).log.countP (Event.readsReg .ACTION_STATUS_H) ≤ 2)) := by
  refine ⟨fun pre s hi post h hs h8 => ?_, fun input h => ?_,
    fun hv input => (high_status_reads_low v hv a n input).1,
    fun hv input => ⟨(high_status_reads_high v hv a n input).1,
      fun h => ((high_status_reads_high v hv a n input).2 h).1⟩⟩
  · obtain ⟨-, e⟩ := action_regex_extend v a n pre .flushing h (Or.inr (Or.inr rfl))
    rw [e]
    simp only [resume]
    rw [flush_loop_cons, if_neg (fun hc => hc hs), if_pos h8]
    simp [read_matched_count]
  · by_cases hv : v ≤ 2
    · exact (high_status_reads_low v hv a n input).2 h
    · exact ((high_status_reads_high v (by omega) a n input).2 h).2

/-- C8, amended, on the trace 1, 6, 8, 5 at the verbosity 0: the matched count is 5. -/
theorem matched_count_capture_witness :
    (action_regex verbose_level ⟨0, 0, 0, 0, 0, 0⟩ 0 ([1, 6] ++ 8 :: 5 :: [])).num_matched_pkt
      = 5 := by
  have h := (matched_count_capture verbose_level ⟨0, 0, 0, 0, 0, 0⟩ 0).1 [1, 6] 8 5 [] rfl
    (by decide) (by decide)
  rw [h]
  rfl

/-- C8 as stated fails at the verbosity 3: on the trace of eight dump values followed by
1, 6, 8, 5 the driver returns with the matched count 5, and the high status register has
been read three times, twice by `print_control_status`. -/
theorem high_status_read_thrice :
    (action_regex 3 ⟨0, 0, 0, 0, 0, 0⟩ 0 [0, 0, 0, 0, 0, 0, 0, 0, 1, 6, 8, 5]).outcome =
      .returned ∧
    (action_regex 3 ⟨0, 0, 0, 0, 0, 0⟩ 0 [0, 0, 0, 0, 0, 0, 0, 0, 1, 6, 8, 5]).num_matched_pkt
      = 5 ∧
    (action_regex 3 ⟨0, 0, 0, 0, 0, 0⟩ 0 [0, 0, 0, 0, 0, 0, 0, 0, 1, 6, 8, 5]).log.countP
      (Event.readsReg .ACTION_STATUS_H) = 3 ∧
    (3 : Nat) ≠ 1 := by
  have ho : (action_regex 3 ⟨0, 0, 0, 0, 0, 0⟩ 0
      [0, 0, 0, 0, 0, 0, 0, 0, 1, 6, 8, 5]).outcome = .returned := rfl
  exact ⟨ho, rfl, (high_status_reads_high 3 (by decide) _ _ _).1 ho, by decide⟩

/-- C6: with the verbosity the file sets, on a trace without error in which each phase
polls idle values (`cs`, `ss`, `fs`) and then sees its completion value (`c`, `s`, `f`),
followed by the high status value `hi`, `action_regex` returns; its accesses are the
fourteen configuration writes, then control 1, the copy polls, control 6, the scan polls,
control 0, control 8, the flush polls, the high status read and control 0, every control
write being a low write followed by a 0 write to the high control register; the values
written to the low control register are exactly 0x1, 0x6, 0x0, 0x8, 0x0. -/
theorem no_error_run (a : ScanArgs) (n : Nat) (cs ss fs : List U32) (c s f hi : U32)
    (post : List U32)
    (hcs : ∀ x ∈ cs, x.val &&& 0x00FFFF00 = 0 ∧ x.val &&& 0x1 ≠ 0x1)
    (hc : c.val &&& 0x00FFFF00 = 0 ∧ c.val &&& 0x1 = 0x1)
    (hss : ∀ x ∈ ss, x.val &&& 0x00FFFF00 = 0 ∧ x.val &&& 0x10 = 0 ∧ x.val &&& 0x6 ≠ 0x6)
    (hs : s.val &&& 0x00FFFF00 = 0 ∧ s.val &&& 0x10 = 0 ∧ s.val &&& 0x6 = 0x6)
    (hfs : ∀ x ∈ fs, x.val &&& 0x00FFFF00 = 0 ∧ x.val &&& 0x8 ≠ 0x8)
    (hf : f.val &&& 0x00FFFF00 = 0 ∧ f.val &&& 0x8 = 0x8) :
    action_regex verbose_level a n (cs ++ c :: (ss ++ s :: (fs ++ f :: hi :: post))) =
      ⟨.returned,
        config_writes a ++
        [.write .ACTION_CONTROL_L 0x1, .write .ACTION_CONTROL_H 0] ++
        cs.map (Event.read .ACTION_STATUS_L) ++ [.read .ACTION_STATUS_L c] ++
        [.write .ACTION_CONTROL_L 0x6, .write .ACTION_CONTROL_H 0] ++
        ss.map (Event.read .ACTION_STATUS_L) ++ [.read .ACTION_STATUS_L s] ++
        [.write .ACTION_CONTROL_L 0x0, .write .ACTION_CONTROL_H 0] ++
        [.write .ACTION_CONTROL_L 0x8, .write .ACTION_CONTROL_H 0] ++
        fs.map (Event.read .ACTION_STATUS_L) ++ [.read .ACTION_STATUS_L f] ++
        [.read .ACTION_STATUS_H hi] ++
        [.write .ACTION_CONTROL_L 0x0, .write .ACTION_CONTROL_H 0],
        hi.val, post⟩ ∧
    (action_regex verbose_level a n
        (cs ++ c :: (ss ++ s :: (fs ++ f :: hi :: post)))).log.filterMap
      (Event.writeTo .ACTION_CONTROL_L) = [0x1, 0x6, 0x0, 0x8, 0x0] := by
  have key : action_regex verbose_level a n (cs ++ c :: (ss ++ s :: (fs ++ f :: hi :: post))) =
      ⟨.returned,
        config_writes a ++
        [.write .ACTION_CONTROL_L 0x1, .write .ACTION_CONTROL_H 0] ++
        cs.map (Event.read .ACTION_STATUS_L) ++ [.read .ACTION_STATUS_L c] ++
        [.write .ACTION_CONTROL_L 0x6, .write .ACTION_CONTROL_H 0] ++
        ss.map (Event.read .ACTION_STATUS_L) ++ [.read .ACTION_STATUS_L s] ++
        [.write .ACTION_CONTROL_L 0x0, .write .ACTION_CONTROL_H 0] ++
        [.write .ACTION_CONTROL_L 0x8, .write .ACTION_CONTROL_H 0] ++
        fs.map (Event.read .ACTION_STATUS_L) ++ [.read .ACTION_STATUS_L f] ++
        [.read .ACTION_STATUS_H hi] ++
        [.write .ACTION_CONTROL_L 0x0, .write .ACTION_CONTROL_H 0],
        hi.val, post⟩ := by
    rw [action_regex_quiet, copy_loop_idle n cs _ _ hcs, copy_loop_cons,
      if_neg (fun h => h hc.1), if_pos hc.2, scan_loop_idle n ss _ _ hss, scan_loop_cons,
      if_neg (fun h => h hs.1), if_neg (fun h => h hs.2.1), if_pos hs.2.2,
      flush_loop_idle n fs _ _ hfs, flush_loop_cons, if_neg (fun h => h hf.1), if_pos hf.2]
    simp [read_matched_count]
  refine ⟨key, ?_⟩
  rw [key]
  simp only [List.filterMap_append, writeTo_reads]
  simp [config_writes, Event.writeTo]

/-- C6 on the shortest such trace 1, 6, 8, 5. -/
theorem no_error_run_witness :
    (action_regex verbose_level ⟨0, 0, 0, 0, 0, 0⟩ 0
        ([] ++ 1 :: ([] ++ 6 :: ([] ++ 8 :: 5 :: [])))).log.filterMap
      (Event.writeTo .ACTION_CONTROL_L) = [0x1, 0x6, 0x0, 0x8, 0x0] :=
  (no_error_run ⟨0, 0, 0, 0, 0, 0⟩ 0 [] [] [] 1 6 8 5 []
    (fun _ h => absurd h (List.not_mem_nil _)) (by decide)
    (fun _ h => absurd h (List.not_mem_nil _)) (by decide)
    (fun _ h => absurd h (List.not_mem_nil _)) (by decide)).2

/-- C10, amended: encoding "foo" (length 3) and "foobar123" (length 9) back to back from a
64-byte aligned base gives a first record of 128 bytes (64 header bytes and 3 payload
bytes, padded), so the second record begins at offset 128, where its marker bytes lie; the
buffer ends at offset 256, and the total length 256 is a multiple of 64. -/
theorem two_packets_scenario (base PACKET_ID : Nat) (m : Mem) (hb : base % 64 = 0) :
    (fill_one_packet (payload [0x66, 0x6f, 0x6f]) 3 base PACKET_ID m).next = base + 128 ∧
    record_start
      [(payload [0x66, 0x6f, 0x6f], 3),
       (payload [0x66, 0x6f, 0x6f, 0x62, 0x61, 0x72, 0x31, 0x32, 0x33], 9)]
      ⟨m, PACKET_ID, base⟩ 1 = base + 128 ∧
    (∀ i, i < 4 →
      (fill_packets
        [(payload [0x66, 0x6f, 0x6f], 3),
         (payload [0x66, 0x6f, 0x6f, 0x62, 0x61, 0x72, 0x31, 0x32, 0x33], 9)]
        ⟨m, PACKET_ID, base⟩).mem (base + 128 + i) = 0x5A) ∧
    pkt_size
      [(payload [0x66, 0x6f, 0x6f], 3),
       (payload [0x66, 0x6f, 0x6f, 0x62, 0x61, 0x72, 0x31, 0x32, 0x33], 9)]
      base PACKET_ID m = 256 ∧
    64 ∣ pkt_size
      [(payload [0x66, 0x6f, 0x6f], 3),
       (payload [0x66, 0x6f, 0x6f, 0x62, 0x61, 0x72, 0x31, 0x32, 0x33], 9)]
      base PACKET_ID m := by
  have e3 : ((3 : Int) % 65536).toNat = 3 := by decide
  have e9 : ((9 : Int) % 65536).toNat = 9 := by decide
  have e1 : (fill_one_packet (payload [0x66, 0x6f, 0x6f]) 3 base PACKET_ID m).next =
      base + 128 := by
    rw [fill_one_packet_next, e3]
    omega
  have e2 : pkt_size
      [(payload [0x66, 0x6f, 0x6f], 3),
       (payload [0x66, 0x6f, 0x6f, 0x62, 0x61, 0x72, 0x31, 0x32, 0x33], 9)]
      base PACKET_ID m = 256 := by
    unfold pkt_size
    rw [fill_packets_next
      [(payload [0x66, 0x6f, 0x6f], 3),
       (payload [0x66, 0x6f, 0x6f, 0x62, 0x61, 0x72, 0x31, 0x32, 0x33], 9)]
      ⟨m, PACKET_ID, base⟩ hb]
    simp only [List.map_cons, List.map_nil, List.sum_cons, List.sum_nil, e3, e9]
    omega
  have hs : (fill_packets [(payload [0x66, 0x6f, 0x6f], 3)] ⟨m, PACKET_ID, base⟩).next =
      base + 128 := by
    rw [fill_packets_cons, fill_packets_nil]
    exact e1
  refine ⟨e1, ?_, fun i hi => ?_, e2, ?_⟩
  · unfold record_start
    rw [List.take_succ_cons, List.take_zero]
    exact hs
  · have h := fill_packets_record [(payload [0x66, 0x6f, 0x6f], 3)] []
      (payload [0x66, 0x6f, 0x6f, 0x62, 0x61, 0x72, 0x31, 0x32, 0x33], 9) ⟨m, PACKET_ID, base⟩
      (base + 128 + i) (by rw [hs]; omega)
    rw [List.singleton_append] at h
    rw [h, hs]
    exact fill_one_packet_marker _ _ _ _ _ i hi
  · rw [e2]
    exact ⟨4, rfl⟩


/-- C10, amended, from base 0 in a fresh process. -/
theorem two_packets_scenario_witness :
    0 % 64 = 0 ∧
    record_start
      [(payload [0x66, 0x6f, 0x6f], 3),
       (payload [0x66, 0x6f, 0x6f, 0x62, 0x61, 0x72, 0x31, 0x32, 0x33], 9)]
      ⟨fun _ => 0, 0, 0⟩ 1 = 0 + 128 :=
  ⟨rfl, (two_packets_scenario 0 0 (fun _ => 0) rfl).2.1⟩


/-- C10 as stated fails: from base 0 the record of "foo" occupies 128 bytes, so the second
record begins at offset 128 and not at offset 64. -/
theorem second_record_not_at_64 :
    record_start
      [(payload [0x66, 0x6f, 0x6f], 3),
       (payload [0x66, 0x6f, 0x6f, 0x62, 0x61, 0x72, 0x31, 0x32, 0x33], 9)]
      ⟨fun _ => 0, 0, 0⟩ 1 = 128 ∧
    record_start
      [(payload [0x66, 0x6f, 0x6f], 3),
       (payload [0x66, 0x6f, 0x6f, 0x62, 0x61, 0x72, 0x31, 0x32, 0x33], 9)]
      ⟨fun _ => 0, 0, 0⟩ 1 ≠ 64 := by
  have e3 : ((3 : Int) % 65536).toNat = 3 := by decide
  have e : record_start
      [(payload [0x66, 0x6f, 0x6f], 3),
       (payload [0x66, 0x6f, 0x6f, 0x62, 0x61, 0x72, 0x31, 0x32, 0x33], 9)]
      ⟨fun _ => 0, 0, 0⟩ 1 = 128 := by
    unfold record_start
    rw [List.take_succ_cons, List.take_zero, fill_packets_cons, fill_packets_nil,
      fill_one_packet_next]
    show 64 * (((0 : Nat) + ((3 : Int) % 65536).toNat + 127) / 64) = 128
    rw [e3]
  rw [e]
  exact ⟨rfl, by decide⟩


/-- C11, amended: for a configuration width `W` with `4 ≤ W` and `W - 4 < 2048` (the
length field keeps the low 11 bits of `W - 4`: byte 5 is masked with 0x7), every pattern
text and every compiler output of length `n ≤ W`, `fill_one_pattern` writes `0x5A` to
bytes 0..3, a little-endian length field of value `W - 4` to bytes 4..5, zero to bytes
6..59, the incremented pattern counter in little-endian order to bytes 60..63, the `n`
configuration bytes from offset 64, and zero from offset 64+n up to the returned
address. -/
theorem pattern_record_layout (W : Nat) (hW4 : 4 ≤ W) (hW : W - 4 < 2048)
    (cfg : String → (Nat → Byte) × Int) (in_patt : String) (n : Nat) (hn : n ≤ W)
    (hcfg : (cfg in_patt).2 = n) (a PATTERN_ID : Nat) (m : Mem) :
    (∀ i, i < 4 → (fill_one_pattern W cfg in_patt a PATTERN_ID m).mem (a + i) = 0x5A) ∧
    ((fill_one_pattern W cfg in_patt a PATTERN_ID m).mem (a + 4)).val +
      256 * ((fill_one_pattern W cfg in_patt a PATTERN_ID m).mem (a + 5)).val = W - 4 ∧
    ((fill_one_pattern W cfg in_patt a PATTERN_ID m).mem (a + 4)).val = (W - 4) % 256 ∧
    ((fill_one_pattern W cfg in_patt a PATTERN_ID m).mem (a + 5)).val = (W - 4) / 256 ∧
    (∀ i, 6 ≤ i → i < 60 → (fill_one_pattern W cfg in_patt a PATTERN_ID m).mem (a + i) = 0) ∧
    (∀ i, i < 4 → ((fill_one_pattern W cfg in_patt a PATTERN_ID m).mem (a + 60 + i)).val =
      (fill_one_pattern W cfg in_patt a PATTERN_ID m).id / 256 ^ i % 256) ∧
    (fill_one_pattern W cfg in_patt a PATTERN_ID m).id = (PATTERN_ID + 1) % 4294967296 ∧
    (∀ i, i < n →
      (fill_one_pattern W cfg in_patt a PATTERN_ID m).mem (a + 64 + i) = (cfg in_patt).1 i) ∧
    (∀ x, a + 64 + n ≤ x → x < (fill_one_pattern W cfg in_patt a PATTERN_ID m).next →
      (fill_one_pattern W cfg in_patt a PATTERN_ID m).mem x = 0) := by
  have h0 : 0 ≤ (cfg in_patt).2 := by omega
  have h1 : (cfg in_patt).2 ≤ 65535 := by omega
  have en : ((cfg in_patt).2).toNat = n := by omega
  have eW : (((W : Int) - 4) % 65536).toNat = W - 4 := by omega
  have h4 := fill_one_pattern_len_lo W cfg in_patt a PATTERN_ID m h0 h1
  have h5 := fill_one_pattern_len_hi W cfg in_patt a PATTERN_ID m h0 h1
  rw [eW] at h4 h5
  refine ⟨fun i hi => fill_one_pattern_marker W cfg in_patt a PATTERN_ID m h0 h1 i hi,
    by rw [h4, h5]; omega, h4, by rw [h5]; omega,
    fun i h6 h60 => fill_one_pattern_reserved W cfg in_patt a PATTERN_ID m h0 h1 i h6 h60,
    fun i hi => ?_, fill_one_pattern_id _ _ _ _ _ _, fun i hi => ?_, fun x hx hnx => ?_⟩
  · rw [fill_one_pattern_id_bytes W cfg in_patt a PATTERN_ID m h0 h1 i hi, fill_one_pattern_id]
  · exact fill_one_pattern_config W cfg in_patt a PATTERN_ID m h0 h1 i (by rw [en]; exact hi)
  · exact fill_one_pattern_padding W cfg in_patt a PATTERN_ID m h0 h1 x (by rw [en]; exact hx)
      hnx


/-- C11, amended, for width 36 and a three-byte configuration at address 0: the length
field holds 32. -/
theorem pattern_record_layout_witness :
    ((fill_one_pattern 36 (fun _ => (payload [1, 2, 3], ((3 : Nat) : Int))) "abc" 0 0
        (fun _ => 0)).mem (0 + 4)).val +
      256 * ((fill_one_pattern 36 (fun _ => (payload [1, 2, 3], ((3 : Nat) : Int))) "abc" 0 0
        (fun _ => 0)).mem (0 + 5)).val = 36 - 4 :=
  (pattern_record_layout 36 (by decide) (by decide)
    (fun _ => (payload [1, 2, 3], ((3 : Nat) : Int))) "abc" 3 (by decide) rfl 0 0
    (fun _ => 0)).2.1


/-- C11 as stated fails for the width `W = 2052`: `W - 4 = 2048 = 0x800`, byte 4 is 0x00
and byte 5 is `(0x800 >> 8) & 0x7 = 0`, so the length field holds 0 and not 2048. -/
theorem pattern_length_field_truncated :
    ((fill_one_pattern 2052 (fun _ => (fun _ => 0, 0)) "abc" 0 0 (fun _ => 0)).mem 4).val +
      256 * ((fill_one_pattern 2052 (fun _ => (fun _ => 0, 0)) "abc" 0 0
        (fun _ => 0)).mem 5).val = 0 ∧
    (0 : Nat) ≠ 2052 - 4 := by
  have h4 := fill_one_pattern_len_lo 2052 (fun _ => (fun _ => 0, 0)) "abc" 0 0 (fun _ => 0)
    (by decide) (by decide)
  have h5 := fill_one_pattern_len_hi 2052 (fun _ => (fun _ => 0, 0)) "abc" 0 0 (fun _ => 0)
    (by decide) (by decide)
  norm_num at h4 h5
  rw [h4, h5]
  exact ⟨rfl, by decide⟩


/-- C12: `fill_one_packet` has no error result and validates nothing: for a payload
length `L` with `4096 ≤ L ≤ 65535` the header length field decodes to `L mod 4096`, which
differs from `L`, while all `L` payload bytes are copied from offset 64 and the padding
and the returned address are computed from the full `L`. -/
theorem oversized_payload_misencoded (in_pkt : Nat → Byte) (L : Nat) (h1 : 4096 ≤ L)
    (h2 : L ≤ 65535) (a PACKET_ID : Nat) (m : Mem) :
    ((fill_one_packet in_pkt L a PACKET_ID m).mem (a + 4)).val +
      256 * (((fill_one_packet in_pkt L a PACKET_ID m).mem (a + 5)).val % 16) = L % 4096 ∧
    ((fill_one_packet in_pkt L a PACKET_ID m).mem (a + 5)).val / 16 = 0 ∧
    L % 4096 ≠ L ∧
    (∀ i, i < L → (fill_one_packet in_pkt L a PACKET_ID m).mem (a + 64 + i) = in_pkt i) ∧
    (fill_one_packet in_pkt L a PACKET_ID m).next = 64 * ((a + 64 + L + 63) / 64) ∧
    a + 64 + L ≤ (fill_one_packet in_pkt L a PACKET_ID m).next ∧
    (∀ x, a + 64 + L ≤ x → x < (fill_one_packet in_pkt L a PACKET_ID m).next →
      (fill_one_packet in_pkt L a PACKET_ID m).mem x = 0) := by
  have e : (((L : Nat) : Int) % 65536).toNat = L := by omega
  have h4 := fill_one_packet_len_lo in_pkt L a PACKET_ID m
  have h5 := fill_one_packet_len_hi in_pkt L a PACKET_ID m
  have hn := fill_one_packet_next in_pkt L a PACKET_ID m
  rw [e] at h4 h5 hn
  refine ⟨by rw [h4, h5]; omega, by rw [h5]; omega, by omega, fun i hi => ?_,
    by rw [hn]; omega, by rw [hn]; omega, fun x hx hnx => ?_⟩
  · exact fill_one_packet_payload _ _ _ _ _ i (by rw [e]; exact hi)
  · exact fill_one_packet_padding _ _ _ _ _ x (by rw [e]; exact hx) hnx


/-- C12 at the length 4097: the header declares a one-byte payload. -/
theorem oversized_payload_misencoded_witness :
    ((fill_one_packet (fun _ => 7) ((4097 : Nat) : Int) 0 0 (fun _ => 0)).mem (0 + 4)).val +
      256 * (((fill_one_packet (fun _ => 7) ((4097 : Nat) : Int) 0 0 (fun _ => 0)).mem
        (0 + 5)).val % 16) = 4097 % 4096 :=
  (oversized_payload_misencoded (fun _ => 7) 4097 (by decide) (by decide) 0 0
    (fun _ => 0)).1


/-- C13: the identifiers come from two independent counters. A `fill_one_packet` call
increments `PACKET_ID` by one (modulo `2 ^ 32`), embeds the incremented value in bytes
60..63 and leaves `PATTERN_ID` unchanged; the first packet of a fresh process carries
identifier 1; in a buffer of packets encoded back to back by fewer calls than would wrap
the counter, the record after `k` earlier ones carries the start value plus `k + 1`. A
`fill_one_pattern` call increments and embeds `PATTERN_ID` and leaves `PACKET_ID`
unchanged. -/
theorem identifier_counters (s : Process) (in_pkt : Nat → Byte) (size : Int) (addr : Nat)
    (W : Nat) (cfg : String → (Nat → Byte) × Int) (in_patt : String) :
    (s.fill_one_packet in_pkt size addr).1.PACKET_ID = (s.PACKET_ID + 1) % 4294967296 ∧
    (s.fill_one_packet in_pkt size addr).1.PATTERN_ID = s.PATTERN_ID ∧
    (∀ i, i < 4 → ((s.fill_one_packet in_pkt size addr).1.mem (addr + 60 + i)).val =
      (s.fill_one_packet in_pkt size addr).1.PACKET_ID / 256 ^ i % 256) ∧
    (∀ m0 : Mem, ((Process.start m0).fill_one_packet in_pkt size addr).1.PACKET_ID = 1) ∧
    (∀ (pre post : List ((Nat → Byte) × Int)) (row : (Nat → Byte) × Int) (start : Encoded),
      start.id + (pre.length + 1 + post.length) < 4294967296 →
      (fill_packets pre start).id + 1 = start.id + pre.length + 1 ∧
      ∀ i, i < 4 →
        ((fill_packets (pre ++ row :: post) start).mem
          ((fill_packets pre start).next + 60 + i)).val =
            (start.id + pre.length + 1) / 256 ^ i % 256) ∧
    (s.fill_one_pattern W cfg in_patt addr).1.PATTERN_ID = (s.PATTERN_ID + 1) % 4294967296 ∧
    (s.fill_one_pattern W cfg in_patt addr).1.PACKET_ID = s.PACKET_ID ∧
    (0 ≤ (cfg in_patt).2 → (cfg in_patt).2 ≤ 65535 → ∀ i, i < 4 →
      ((s.fill_one_pattern W cfg in_patt addr).1.mem (addr + 60 + i)).val =
        (s.fill_one_pattern W cfg in_patt addr).1.PATTERN_ID / 256 ^ i % 256) := by
  refine ⟨?_, ?_, fun i hi => ?_, fun m0 => ?_, fun pre post row start h => ?_, ?_, ?_,
    fun h0 h1 i hi => ?_⟩
  · rw [process_fill_one_packet_eq, packet_state_packet_id, fill_one_packet_id]
  · exact (congrArg (fun p : Process × Nat => p.1.PATTERN_ID)
      (process_fill_one_packet_eq s in_pkt size addr)).trans
      (packet_state_pattern_id (fill_one_packet in_pkt size addr s.PACKET_ID s.mem)
        s.PATTERN_ID)
  · rw [process_fill_one_packet_eq, packet_state_packet_id, packet_state_mem,
      fill_one_packet_id_bytes _ _ _ _ _ i hi, fill_one_packet_id]
  · rw [process_fill_one_packet_eq, packet_state_packet_id, fill_one_packet_id]
    rfl
  · have e := fill_packets_id pre start (by omega)
    refine ⟨by rw [e], fun i hi => ?_⟩
    rw [fill_packets_record pre post row start _ (by omega),
      fill_one_packet_id_bytes _ _ _ _ _ i hi, e]
    have e2 : (start.id + pre.length + 1) % 4294967296 = start.id + pre.length + 1 := by
      omega
    rw [e2]
  · rw [process_fill_one_pattern_eq, pattern_state_pattern_id, fill_one_pattern_id]
  · exact (congrArg (fun p : Process × Nat => p.1.PACKET_ID)
      (process_fill_one_pattern_eq W cfg s in_patt addr)).trans
      (pattern_state_packet_id (fill_one_pattern W cfg in_patt addr s.PATTERN_ID s.mem)
        s.PACKET_ID)
  · rw [process_fill_one_pattern_eq, pattern_state_pattern_id, pattern_state_mem,
      fill_one_pattern_id_bytes W cfg in_patt addr s.PATTERN_ID s.mem h0 h1 i hi,
      fill_one_pattern_id]

/-! ### Result-buffer sizing -/

theorem stat_size_core (x : Nat) (hx : 2 * x + 4096 < 2147483648) :
    (if (if Int.tmod (toInt32 ((x * 2) % 18446744073709551616)) 4096 = 0
          then toInt32 ((x * 2) % 18446744073709551616)
          else toInt32 ((toInt32 ((x * 2) % 18446744073709551616) +
            (4096 - Int.tmod (toInt32 ((x * 2) % 18446744073709551616)) 4096)) %
              4294967296).toNat) = 0
      then (4096 : Int)
      else (if Int.tmod (toInt32 ((x * 2) % 18446744073709551616)) 4096 = 0
          then toInt32 ((x * 2) % 18446744073709551616)
          else toInt32 ((toInt32 ((x * 2) % 18446744073709551616) +
            (4096 - Int.tmod (toInt32 ((x * 2) % 18446744073709551616)) 4096)) %
              4294967296).toNat)) =
      if x = 0 then 4096 else ((4096 * ((2 * x + 4095) / 4096) : Nat) : Int) := by
  have e1 : (x * 2) % 18446744073709551616 = x * 2 := by omega
  have e2 : toInt32 (x * 2) = ((x * 2 : Nat) : Int) := toInt32_small _ (by omega)
  have e3 : Int.tmod ((x * 2 : Nat) : Int) 4096 = (((x * 2) % 4096 : Nat) : Int) := by
    rw [Int.tmod_eq_emod (by omega) (by norm_num)]
    omega
  rw [e1, e2, e3]
  by_cases h0 : x = 0
  · subst h0
    simp
  · rw [if_neg h0]
    by_cases hr : (x * 2) % 4096 = 0
    · have hr2 : (((x * 2) % 4096 : Nat) : Int) = 0 := by omega
      rw [if_pos hr2, if_neg (by omega)]
      omega
    · have hr2 : ¬ ((((x * 2) % 4096 : Nat) : Int) = 0) := by omega
      rw [if_neg hr2]
      have e4 : ((((x * 2 : Nat) : Int) + (4096 - (((x * 2) % 4096 : Nat) : Int))) %
          4294967296).toNat = x * 2 + (4096 - (x * 2) % 4096) := by omega
      rw [e4, toInt32_small _ (by omega), if_neg (by omega)]
      omega

theorem stat_size_value (W N : Nat) (hN : 2 * (W / 8 * N) + 4096 < 2147483648) :
    stat_size W N =
      if W / 8 * N = 0 then 4096
      else ((4096 * ((2 * (W / 8 * N) + 4095) / 4096) : Nat) : Int) :=
  stat_size_core (W / 8 * N) hN

theorem compile_patt_size (W : Nat) (cfg : String → (Nat → Byte) × Int) (s : Process)
    (pattern : String) (alloc : Nat) (h0 : 0 ≤ (cfg pattern).2) (h1 : (cfg pattern).2 ≤ 65535) :
    (s.fill_one_pattern W cfg pattern alloc).2 - alloc =
      64 * ((alloc + ((cfg pattern).2).toNat + 127) / 64) - alloc := by
  have e : (s.fill_one_pattern W cfg pattern alloc).2 =
      (fill_one_pattern W cfg pattern alloc s.PATTERN_ID s.mem).next :=
    congrArg Prod.snd (process_fill_one_pattern_eq W cfg s pattern alloc)
  rw [e, fill_one_pattern_next W cfg pattern alloc s.PATTERN_ID s.mem h0 h1]

theorem compile_result (W : Nat) (cfg : String → (Nat → Byte) × Int)
    (job1 : CAPIRegexJobDescriptor) (pattern : String) (alloc : Nat) (s : Process)
    (ha : alloc ≠ 0) :
    capi_regex_compile W cfg (some job1) (some pattern) alloc s =
      some (if (s.fill_one_pattern W cfg pattern alloc).2 - alloc = 0 ∨ alloc = 0 then -1 else 0,
        some { job1 with
          patt_src_base := alloc
          patt_size := (s.fill_one_pattern W cfg pattern alloc).2 - alloc },
        (s.fill_one_pattern W cfg pattern alloc).1) := by
  unfold capi_regex_compile capi_regex_compile_internal
  simp only [if_neg ha]
  split <;> rfl

theorem action_wait_idle_zero (c : Int) : action_wait_idle c = 0 := by
  unfold action_wait_idle
  by_cases h : c = 0
  · simp [h]
  · simp [h]

theorem scan_internal_returned (v c : Int) (a : ScanArgs) (n : Nat) (input : List U32)
    (h : (action_regex v a n input).outcome = .returned) :
    capi_regex_scan_internal v c a n input = (action_regex v a n input, some 0) := by
  unfold capi_regex_scan_internal
  simp only [h, action_wait_idle_zero]
  rfl

theorem scan_internal_run (v c : Int) (a : ScanArgs) (n : Nat) (input : List U32) :
    (capi_regex_scan_internal v c a n input).1 = action_regex v a n input := by
  unfold capi_regex_scan_internal
  simp only []
  split
  · split <;> rfl
  · rfl

theorem capi_regex_scan_log (v c : Int) (job : CAPIRegexJobDescriptor) (input : List U32) :
    (capi_regex_scan v c (some job) input).2.2 =
      (action_regex v
        ⟨job.patt_src_base, job.pkt_src_base, job.stat_dest_base, job.patt_size, job.pkt_size,
          job.stat_size⟩ job.num_matched_pkt input).log := by
  unfold capi_regex_scan
  simp only []
  rw [scan_internal_run]
  split
  · rfl
  · split <;> rfl

/-- C16 (the code departs from the claim): `action_wait_idle` returns 0 whatever
`snap_action_completed` returns, also 0 for an expired wait; hence, whenever the driver
returned, `capi_regex_scan_internal` and `capi_regex_scan` return 0 for a wait that timed
out. -/
theorem wait_idle_ignores_timeout :
    (∀ c : Int, action_wait_idle c = 0) ∧ action_wait_idle 0 = 0 ∧
    (∀ (v : Int) (a : ScanArgs) (n : Nat) (input : List U32),
      (action_regex v a n input).outcome = .returned →
      (capi_regex_scan_internal v 0 a n input).2 = some 0) ∧
    (∀ (v : Int) (job : CAPIRegexJobDescriptor) (input : List U32),
      (action_regex v
        ⟨job.patt_src_base, job.pkt_src_base, job.stat_dest_base, job.patt_size, job.pkt_size,
          job.stat_size⟩ job.num_matched_pkt input).outcome = .returned →
      (capi_regex_scan v 0 (some job) input).1 = some 0) := by
  refine ⟨action_wait_idle_zero, action_wait_idle_zero 0, fun v a n input h => ?_,
    fun v job input h => ?_⟩
  · rw [scan_internal_returned v 0 a n input h]
  · unfold capi_regex_scan
    simp only []
    rw [scan_internal_returned v 0 _ _ input h]
    rfl

/-! ### Polling without a bound -/

theorem resume_zeros (p : ReadPoint) (hp : p.polling) (n : Nat) (log : List Event) (k : Nat) :
    resume p n log (List.replicate k 0) =
      ⟨.waiting p, log ++ List.replicate k (.read .ACTION_STATUS_L 0), n, []⟩ := by
  have hz : ∀ x ∈ List.replicate k (0 : U32),
      x.val &&& 0x00FFFF00 = 0 ∧ x.val &&& 0x1 ≠ 0x1 ∧ x.val &&& 0x10 = 0 ∧
        x.val &&& 0x6 ≠ 0x6 ∧ x.val &&& 0x8 ≠ 0x8 := by
    intro x hx
    rw [List.eq_of_mem_replicate hx]
    decide
  have e : List.replicate k (0 : U32) = List.replicate k (0 : U32) ++ [] := by simp
  rcases hp with rfl | rfl | rfl
  · show copy_loop n log (List.replicate k 0) = _
    rw [e, copy_loop_idle n _ log [] (fun x hx => ⟨(hz x hx).1, (hz x hx).2.1⟩),
      List.map_replicate]
    rfl
  · show scan_loop n log (List.replicate k 0) = _
    rw [e, scan_loop_idle n _ log []
      (fun x hx => ⟨(hz x hx).1, (hz x hx).2.2.1, (hz x hx).2.2.2.1⟩), List.map_replicate]
    rfl
  · show flush_loop n log (List.replicate k 0) = _
    rw [e, flush_loop_idle n _ log [] (fun x hx => ⟨(hz x hx).1, (hz x hx).2.2.2.2⟩),
      List.map_replicate]
    rfl

/-- C17, amended: the polling loops of `action_regex` have no bound and no timeout. From
any point at which the driver waits in one of its three polling loops, after any number
`k` of further status reads of value 0 (no error, no completion bit) it is still waiting
in the same loop, having made `k` reads and no write, with the caller's
`num_matched_pkt` unchanged; a loop ends only on a completion bit or an error. -/
theorem polling_has_no_timeout (v : Int) (a : ScanArgs) (n : Nat) (pre : List U32)
    (p : ReadPoint) (h : (action_regex v a n pre).outcome = .waiting p)
    (hp : p = .pattern_copy ∨ p = .scanning ∨ p = .flushing) (k : Nat) :
    action_regex v a n (pre ++ List.replicate k 0) =
      ⟨.waiting p,
        (action_regex v a n pre).log ++ List.replicate k (.read .ACTION_STATUS_L 0), n, []⟩ := by
  obtain ⟨-, e⟩ := action_regex_extend v a n pre p h hp
  rw [e, resume_zeros p hp]

/-- C17, amended, at the start of the pattern-copy loop and 1000 polls. -/
theorem polling_has_no_timeout_witness :
    (action_regex 0 ⟨0, 0, 0, 0, 0, 0⟩ 0 ([] ++ List.replicate 1000 0)).outcome =
      .waiting .pattern_copy := by
  have h := polling_has_no_timeout 0 ⟨0, 0, 0, 0, 0, 0⟩ 0 [] .pattern_copy rfl (Or.inl rfl) 1000
  rw [h]

/-- C17 as stated fails: when the low status register constantly reads 0 there is no
number of polls after which the driver has left the pattern-copy loop. -/
theorem constant_zero_status_never_ends :
    ¬ ∃ k : Nat,
      (action_regex verbose_level ⟨0, 0, 0, 0, 0, 0⟩ 0 (List.replicate k 0)).outcome ≠
        .waiting .pattern_copy := by
  rintro ⟨k, hk⟩
  apply hk
  rw [action_regex_quiet]
  have h := resume_zeros .pattern_copy (Or.inl rfl) 0
    (config_writes ⟨0, 0, 0, 0, 0, 0⟩ ++
      [.write .ACTION_CONTROL_L 0x00000001, .write .ACTION_CONTROL_H 0x00000000]) k
  have h2 : copy_loop 0
      (config_writes ⟨0, 0, 0, 0, 0, 0⟩ ++
        [.write .ACTION_CONTROL_L 0x00000001, .write .ACTION_CONTROL_H 0x00000000])
      (List.replicate k 0) = _ := h
  rw [h2]

/-! ### The values handed to the size registers -/

theorem read_matched_count_writes (r : Reg) (hL : Reg.ACTION_CONTROL_L ≠ r)
    (hH : Reg.ACTION_CONTROL_H ≠ r) (n : Nat) (log : List Event) (input : List U32) :
    (read_matched_count n log input).log.filterMap (Event.writeTo r) =
      log.filterMap (Event.writeTo r) := by
  cases input with
  | nil => rfl
  | cons s input => simp [read_matched_count, List.filterMap_append, Event.writeTo, hL, hH]

theorem flush_loop_writes (r : Reg) (hL : Reg.ACTION_CONTROL_L ≠ r)
    (hH : Reg.ACTION_CONTROL_H ≠ r) (n : Nat) (input : List U32) : ∀ (log : List Event),
    (flush_loop n log input).log.filterMap (Event.writeTo r) =
      log.filterMap (Event.writeTo r) := by
  induction input with
  | nil => intro log; rfl
  | cons s input ih =>
    intro log
    rw [flush_loop_cons]
    by_cases h1 : s.val &&& 0x00FFFF00 ≠ 0
    · rw [if_pos h1]
      simp [List.filterMap_append, Event.writeTo]
    · rw [if_neg h1]
      by_cases h2 : s.val &&& 0x00000008 = 8
      · rw [if_pos h2, read_matched_count_writes r hL hH]
        simp [List.filterMap_append, Event.writeTo]
      · rw [if_neg h2, ih]
        simp [List.filterMap_append, Event.writeTo]

theorem scan_loop_writes (r : Reg) (hL : Reg.ACTION_CONTROL_L ≠ r)
    (hH : Reg.ACTION_CONTROL_H ≠ r) (n : Nat) (input : List U32) : ∀ (log : List Event),
    (scan_loop n log input).log.filterMap (Event.writeTo r) =
      log.filterMap (Event.writeTo r) := by
  induction input with
  | nil => intro log; rfl
  | cons s input ih =>
    intro log
    rw [scan_loop_cons]
    by_cases h1 : s.val &&& 0x00FFFF00 ≠ 0
    · rw [if_pos h1]
      simp [List.filterMap_append, Event.writeTo]
    · rw [if_neg h1]
      by_cases h2 : s.val &&& 0x00000010 ≠ 0
      · rw [if_pos h2]
        simp [List.filterMap_append, Event.writeTo]
      · rw [if_neg h2]
        by_cases h3 : s.val &&& 0x00000006 = 6
        · rw [if_pos h3, flush_loop_writes r hL hH]
          simp [List.filterMap_append, Event.writeTo, hL, hH]
        · rw [if_neg h3, ih]
          simp [List.filterMap_append, Event.writeTo]

theorem copy_loop_writes (r : Reg) (hL : Reg.ACTION_CONTROL_L ≠ r)
    (hH : Reg.ACTION_CONTROL_H ≠ r) (n : Nat) (input : List U32) : ∀ (log : List Event),
    (copy_loop n log input).log.filterMap (Event.writeTo r) =
      log.filterMap (Event.writeTo r) := by
  induction input with
  | nil => intro log; rfl
  | cons s input ih =>
    intro log
    rw [copy_loop_cons]
    by_cases h1 : s.val &&& 0x00FFFF00 ≠ 0
    · rw [if_pos h1]
      simp [List.filterMap_append, Event.writeTo]
    · rw [if_neg h1]
      by_cases h2 : s.val &&& 0x00000001 = 1
      · rw [if_pos h2, scan_loop_writes r hL hH]
        simp [List.filterMap_append, Event.writeTo, hL, hH]
      · rw [if_neg h2, ih]
        simp [List.filterMap_append, Event.writeTo]

theorem action_regex_writes (r : Reg) (hL : Reg.ACTION_CONTROL_L ≠ r)
    (hH : Reg.ACTION_CONTROL_H ≠ r) (a : ScanArgs) (n : Nat) (input : List U32) :
    (action_regex verbose_level a n input).log.filterMap (Event.writeTo r) =
      (config_writes a).filterMap (Event.writeTo r) := by
  rw [action_regex_quiet, copy_loop_writes r hL hH]
  simp [List.filterMap_append, Event.writeTo, hL, hH]

/-- C18, amended: when `capi_regex_scan` runs the driver for a job descriptor (with the
verbosity the file sets), the pair `ACTION_PATT_TOTAL_NUM` receives the two halves of the
job's pattern buffer size in bytes (`patt_size`), the pair `ACTION_PKT_TOTAL_NUM` the two
halves of its packet buffer size in bytes (`pkt_size`), and the pair
`ACTION_STAT_TOTAL_SIZE` the two halves of `stat_size`; each is written once, and the
packet count `num_pkt` is not passed to the driver. -/
theorem scan_register_values (c : Int) (job : CAPIRegexJobDescriptor) (input : List U32) :
    (capi_regex_scan verbose_level c (some job) input).2.2.filterMap
      (Event.writeTo .ACTION_PATT_TOTAL_NUM_L) = [lo32 job.patt_size] ∧
    (capi_regex_scan verbose_level c (some job) input).2.2.filterMap
      (Event.writeTo .ACTION_PATT_TOTAL_NUM_H) = [hi32 job.patt_size] ∧
    (capi_regex_scan verbose_level c (some job) input).2.2.filterMap
      (Event.writeTo .ACTION_PKT_TOTAL_NUM_L) = [lo32 job.pkt_size] ∧
    (capi_regex_scan verbose_level c (some job) input).2.2.filterMap
      (Event.writeTo .ACTION_PKT_TOTAL_NUM_H) = [hi32 job.pkt_size] ∧
    (capi_regex_scan verbose_level c (some job) input).2.2.filterMap
      (Event.writeTo .ACTION_STAT_TOTAL_SIZE_L) = [lo32 job.stat_size] ∧
    (capi_regex_scan verbose_level c (some job) input).2.2.filterMap
      (Event.writeTo .ACTION_STAT_TOTAL_SIZE_H) = [hi32 job.stat_size] := by
  rw [capi_regex_scan_log]
  refine ⟨?_, ?_, ?_, ?_, ?_, ?_⟩
  all_goals
    rw [action_regex_writes _ (by decide) (by decide)]
    simp [config_writes, Event.writeTo]

/-- C18 as stated fails for a job with one packet in a packet buffer of 128 bytes: the low
packet-total register receives 128, the byte size, and not the packet count 1. -/
theorem packet_total_is_byte_size :
    (capi_regex_scan verbose_level 1
      (some { blank_job with num_pkt := 1, pkt_size := 128, patt_size := 128,
                             stat_size := 4096 }) []).2.2.filterMap
      (Event.writeTo .ACTION_PKT_TOTAL_NUM_L) = [128] ∧
    ({ blank_job with num_pkt := 1, pkt_size := 128, patt_size := 128,
                      stat_size := 4096 } : CAPIRegexJobDescriptor).num_pkt = 1 ∧
    ([128] : List U32) ≠ [1] := by
  refine ⟨?_, rfl, by decide⟩
  rw [capi_regex_scan_log, action_regex_writes _ (by decide) (by decide)]
  simp [config_writes, Event.writeTo]
  decide

/-! ### The size of the pattern buffer allocation -/

theorem max_alloc_size_value (W : Nat) :
    max_alloc_size ((W + 4 : Nat) : Int) = 1024 * (64 - W % 64) := by
  have e1 : ((W + 4 : Nat) : Int) - 4 = (W : Int) := by omega
  have e2 : Int.tmod (W : Int) 64 = ((W % 64 : Nat) : Int) := by
    rw [Int.tmod_eq_emod (by omega) (by norm_num)]
    omega
  unfold max_alloc_size MAX_NUM_PATT
  rw [e1, e2, if_neg (by omega)]
  omega

/-- C19 (the code departs from the claim): because of the operator precedence in the
initialiser, `max_alloc_size` is `1024 * (64 - (W - 4) mod 64)` for every width `W ≥ 4`,
which is at most 65536, and for every `W > 4` it is smaller than the intended
`1024 * (64 + (W - 4) rounded up to a multiple of 64)`; for `W = 68` it is 65536 where
131072 is intended. -/
theorem alloc_size_below_intended :
    (∀ W : Nat, max_alloc_size ((W + 4 : Nat) : Int) = 1024 * (64 - W % 64)) ∧
    (∀ W : Nat, max_alloc_size ((W + 4 : Nat) : Int) ≤ 65536) ∧
    (∀ W : Nat, 0 < W →
      max_alloc_size ((W + 4 : Nat) : Int) < intended_alloc_size (W + 4)) ∧
    max_alloc_size 68 = 65536 ∧ intended_alloc_size 68 = 131072 := by
  refine ⟨max_alloc_size_value, fun W => ?_, fun W hW => ?_, ?_, by decide⟩
  · rw [max_alloc_size_value]
    omega
  · rw [max_alloc_size_value]
    unfold intended_alloc_size
    omega
  · exact max_alloc_size_value 64

/-! ### The compile phase -/

/-- C24: `capi_regex_compile` returns -1 on a null descriptor. With a descriptor and a
pattern, when the allocation failed (`alloc_mem` returned the null pointer) the function
does not return -1: `fill_one_pattern` stores through the null pointer before the test
`patt_src_base == NULL` of `capi_regex_compile` is reached, and the process ends there;
with a descriptor and a null pattern the process exits. When the allocation returned a
non-null 4096-aligned pointer, the compiled configuration length `n` lies in 0..65535 and
the record fits the `max_alloc_size + 64` bytes that were allocated, the function stores
the pointer and the encoded size `64 * ceil ((64 + n) / 64)`, a positive multiple of 64,
and returns 0. -/
theorem compile_return_code (W : Nat) (cfg : String → (Nat → Byte) × Int)
    (job : CAPIRegexJobDescriptor) (pattern : String) (alloc : Nat) (s : Process) :
    (∀ patt : Option String, capi_regex_compile W cfg none patt alloc s = some (-1, none, s)) ∧
    capi_regex_compile W cfg (some job) none alloc s = none ∧
    capi_regex_compile W cfg (some job) (some pattern) 0 s = none ∧
    (∀ (job2 : Option CAPIRegexJobDescriptor) (s2 : Process),
      capi_regex_compile W cfg (some job) (some pattern) 0 s ≠ some (-1, job2, s2)) ∧
    (0 ≤ (cfg pattern).2 → (cfg pattern).2 ≤ 65535 → alloc % 4096 = 0 → alloc ≠ 0 →
      64 * ((64 + ((cfg pattern).2).toNat + 63) / 64) ≤ max_alloc_size (W : Int) + 64 →
      ∃ job2 s2,
        capi_regex_compile W cfg (some job) (some pattern) alloc s = some (0, some job2, s2) ∧
        job2.patt_src_base = alloc ∧
        job2.patt_size = 64 * ((64 + ((cfg pattern).2).toNat + 63) / 64) ∧
        64 ∣ job2.patt_size ∧ 64 ≤ job2.patt_size) := by
  have hnull : capi_regex_compile W cfg (some job) (some pattern) 0 s = none := by
    unfold capi_regex_compile capi_regex_compile_internal
    simp only [if_true]
  refine ⟨fun patt => rfl, rfl, hnull, fun job2 s2 h => ?_, fun h0 h1 ha hz _ => ?_⟩
  · rw [hnull] at h
    exact absurd h (by simp)
  · have hc := compile_result W cfg job pattern alloc s hz
    have hp := compile_patt_size W cfg s pattern alloc h0 h1
    have hv : 64 * ((alloc + ((cfg pattern).2).toNat + 127) / 64) - alloc =
        64 * ((64 + ((cfg pattern).2).toNat + 63) / 64) := by omega
    rw [hv] at hp
    have h64 : 64 ≤ 64 * ((64 + ((cfg pattern).2).toNat + 63) / 64) := by omega
    rw [hp, if_neg (by omega)] at hc
    exact ⟨_, _, hc, rfl, rfl, ⟨_, rfl⟩, h64⟩

/-- C24 at the pattern "abc" with a three-byte configuration and the allocation at 4096:
the compile phase returns 0 and the encoded size is 128. -/
theorem compile_return_code_witness :
    ∃ job2 s2,
      capi_regex_compile 36 (fun _ => (payload [1, 2, 3], 3)) (some blank_job) (some "abc") 4096
        (Process.start (fun _ => 0)) = some (0, some job2, s2) ∧
      job2.patt_src_base = 4096 ∧
      job2.patt_size = 64 * ((64 + ((3 : Int)).toNat + 63) / 64) ∧
      64 ∣ job2.patt_size ∧ 64 ≤ job2.patt_size :=
  (compile_return_code 36 (fun _ => (payload [1, 2, 3], 3)) blank_job "abc" 4096
    (Process.start (fun _ => 0))).2.2.2.2 (by decide) (by decide) (by decide) (by decide)
    (by decide)

/-! ### The pattern-copy polling loop -/

theorem copy_loop_poll_ends (n : Nat) (log0 : List Event) (cs : List U32) (s : U32)
    (rest : List U32)
    (hcs : ∀ x ∈ cs, x.val &&& 0x00FFFF00 = 0 ∧ x.val &&& 0x00000001 = 0)
    (hs : s.val &&& 0x00FFFF00 = 0 ∧ s.val &&& 0x00000001 = 1) :
    copy_loop n log0 cs =
      ⟨.waiting .pattern_copy, log0 ++ cs.map (Event.read .ACTION_STATUS_L), n, []⟩ ∧
    copy_loop n log0 (cs ++ [s]) =
      ⟨.waiting .scanning,
        log0 ++ (cs ++ [s]).map (Event.read .ACTION_STATUS_L) ++
          [.write .ACTION_CONTROL_L 6, .write .ACTION_CONTROL_H 0], n, []⟩ ∧
    copy_loop n log0 (cs ++ s :: rest) =
      scan_loop n
        (log0 ++ (cs ++ [s]).map (Event.read .ACTION_STATUS_L) ++
          [.write .ACTION_CONTROL_L 6, .write .ACTION_CONTROL_H 0]) rest ∧
    (∃ t, (copy_loop n log0 (cs ++ s :: rest)).log =
      log0 ++ (cs ++ [s]).map (Event.read .ACTION_STATUS_L) ++
        [.write .ACTION_CONTROL_L 6, .write .ACTION_CONTROL_H 0] ++ t) := by
  have hidle : ∀ x ∈ cs, x.val &&& 0x00FFFF00 = 0 ∧ x.val &&& 0x1 ≠ 0x1 := by
    intro x hx
    refine ⟨(hcs x hx).1, fun h1 => ?_⟩
    rw [(hcs x hx).2] at h1
    exact absurd h1 (by decide)
  have key : ∀ tail : List U32, copy_loop n log0 (cs ++ s :: tail) =
      scan_loop n
        (log0 ++ (cs ++ [s]).map (Event.read .ACTION_STATUS_L) ++
          [.write .ACTION_CONTROL_L 6, .write .ACTION_CONTROL_H 0]) tail := by
    intro tail
    rw [copy_loop_idle n cs _ (s :: tail) hidle, copy_loop_cons,
      if_neg (fun hc => hc hs.1), if_pos hs.2, List.map_append, List.map_cons, List.map_nil,
      List.append_assoc _ (cs.map (Event.read .ACTION_STATUS_L))]
  refine ⟨?_, ?_, key rest, ?_⟩
  · have h := copy_loop_idle n cs log0 [] hidle
    rw [List.append_nil] at h
    rw [h]
    rfl
  · have h := key []
    rw [List.append_cons, List.append_nil] at h
    rw [h]
    rfl
  · rw [key rest]
    exact scan_loop_log n rest _

/-- C26, amended: when the first `k - 1` values polled from the low status register (`cs`)
have a zero error field and bit 0 clear and the `k`-th (`s`) has a zero error field and
bit 0 set, the driver is still polling in the pattern-copy loop after `k - 1` polls, and
on the `k`-th poll it leaves the loop: the polls are exactly these `k` reads of the low
status register, the write of the work control value 6 (low) and 0 (high) is the next
access, and the driver is then in the scanning loop. With `verbose_level` at most 2 (its
initial value is 0) the `k` polls directly follow the control write that starts the copy;
with `verbose_level` above 2, `print_control_status` reads the low status, high status,
low control and high control registers once before the configuration writes (`d1 .. d4`)
and once between the control write that starts the copy and the first poll
(`e1 .. e4`). -/
theorem pattern_copy_poll_ends (v : Int) (a : ScanArgs) (n : Nat) (cs : List U32) (s : U32)
    (rest : List U32)
    (hcs : ∀ x ∈ cs, x.val &&& 0x00FFFF00 = 0 ∧ x.val &&& 0x00000001 = 0)
    (hs : s.val &&& 0x00FFFF00 = 0 ∧ s.val &&& 0x00000001 = 1) :
    (v ≤ 2 →
      action_regex v a n cs =
        ⟨.waiting .pattern_copy,
          config_writes a ++ [.write .ACTION_CONTROL_L 1, .write .ACTION_CONTROL_H 0] ++
            cs.map (Event.read .ACTION_STATUS_L), n, []⟩ ∧
      action_regex v a n (cs ++ [s]) =
        ⟨.waiting .scanning,
          config_writes a ++ [.write .ACTION_CONTROL_L 1, .write .ACTION_CONTROL_H 0] ++
            (cs ++ [s]).map (Event.read .ACTION_STATUS_L) ++
            [.write .ACTION_CONTROL_L 6, .write .ACTION_CONTROL_H 0], n, []⟩ ∧
      action_regex v a n (cs ++ s :: rest) =
        scan_loop n
          (config_writes a ++ [.write .ACTION_CONTROL_L 1, .write .ACTION_CONTROL_H 0] ++
            (cs ++ [s]).map (Event.read .ACTION_STATUS_L) ++
            [.write .ACTION_CONTROL_L 6, .write .ACTION_CONTROL_H 0]) rest ∧
      (∃ t, (action_regex v a n (cs ++ s :: rest)).log =
        config_writes a ++ [.write .ACTION_CONTROL_L 1, .write .ACTION_CONTROL_H 0] ++
          (cs ++ [s]).map (Event.read .ACTION_STATUS_L) ++
          [.write .ACTION_CONTROL_L 6, .write .ACTION_CONTROL_H 0] ++ t)) ∧
    (2 < v → ∀ d1 d2 d3 d4 e1 e2 e3 e4 : U32,
      action_regex v a n (d1 :: d2 :: d3 :: d4 :: e1 :: e2 :: e3 :: e4 :: cs) =
        ⟨.waiting .pattern_copy,
          [.read .ACTION_STATUS_L d1, .read .ACTION_STATUS_H d2,
              .read .ACTION_CONTROL_L d3, .read .ACTION_CONTROL_H d4] ++
            config_writes a ++ [.write .ACTION_CONTROL_L 1, .write .ACTION_CONTROL_H 0] ++
            [.read .ACTION_STATUS_L e1, .read .ACTION_STATUS_H e2,
              .read .ACTION_CONTROL_L e3, .read .ACTION_CONTROL_H e4] ++
            cs.map (Event.read .ACTION_STATUS_L), n, []⟩ ∧
      action_regex v a n (d1 :: d2 :: d3 :: d4 :: e1 :: e2 :: e3 :: e4 :: (cs ++ [s])) =
        ⟨.waiting .scanning,
          [.read .ACTION_STATUS_L d1, .read .ACTION_STATUS_H d2,
              .read .ACTION_CONTROL_L d3, .read .ACTION_CONTROL_H d4] ++
            config_writes a ++ [.write .ACTION_CONTROL_L 1, .write .ACTION_CONTROL_H 0] ++
            [.read .ACTION_STATUS_L e1, .read .ACTION_STATUS_H e2,
              .read .ACTION_CONTROL_L e3, .read .ACTION_CONTROL_H e4] ++
            (cs ++ [s]).map (Event.read .ACTION_STATUS_L) ++
            [.write .ACTION_CONTROL_L 6, .write .ACTION_CONTROL_H 0], n, []⟩ ∧
      action_regex v a n (d1 :: d2 :: d3 :: d4 :: e1 :: e2 :: e3 :: e4 :: (cs ++ s :: rest)) =
        scan_loop n
          ([.read .ACTION_STATUS_L d1, .read .ACTION_STATUS_H d2,
              .read .ACTION_CONTROL_L d3, .read .ACTION_CONTROL_H d4] ++
            config_writes a ++ [.write .ACTION_CONTROL_L 1, .write .ACTION_CONTROL_H 0] ++
            [.read .ACTION_STATUS_L e1, .read .ACTION_STATUS_H e2,
              .read .ACTION_CONTROL_L e3, .read .ACTION_CONTROL_H e4] ++
            (cs ++ [s]).map (Event.read .ACTION_STATUS_L) ++
            [.write .ACTION_CONTROL_L 6, .write .ACTION_CONTROL_H 0]) rest) ∧
    ((cs ++ [s]).map (Event.read .ACTION_STATUS_L)).length = cs.length + 1 := by
  refine ⟨fun hv => ?_, fun hv d1 d2 d3 d4 e1 e2 e3 e4 => ?_, by simp⟩
  · rw [action_regex_low v hv, action_regex_low v hv, action_regex_low v hv]
    exact copy_loop_poll_ends n _ cs s rest hcs hs
  · rw [action_regex_high v hv, action_regex_high v hv, action_regex_high v hv]
    obtain ⟨h1, h2, h3, -⟩ := copy_loop_poll_ends n
      ([.read .ACTION_STATUS_L d1, .read .ACTION_STATUS_H d2,
          .read .ACTION_CONTROL_L d3, .read .ACTION_CONTROL_H d4] ++
        config_writes a ++ [.write .ACTION_CONTROL_L 1, .write .ACTION_CONTROL_H 0] ++
        [.read .ACTION_STATUS_L e1, .read .ACTION_STATUS_H e2,
          .read .ACTION_CONTROL_L e3, .read .ACTION_CONTROL_H e4]) cs s rest hcs hs
    exact ⟨h1, h2, h3⟩

/-- C26, amended, on the status sequence 0x00000000, 0x00000001 at the verbosity 0: after
the second poll the driver has written the work control value and waits in the scanning
loop. -/
theorem pattern_copy_poll_ends_witness :
    action_regex verbose_level ⟨0, 0, 0, 0, 0, 0⟩ 0 ([0x00000000] ++ [0x00000001]) =
      ⟨.waiting .scanning,
        config_writes ⟨0, 0, 0, 0, 0, 0⟩ ++
          [.write .ACTION_CONTROL_L 1, .write .ACTION_CONTROL_H 0] ++
          ([0x00000000] ++ [0x00000001]).map (Event.read .ACTION_STATUS_L) ++
          [.write .ACTION_CONTROL_L 6, .write .ACTION_CONTROL_H 0], 0, []⟩ :=
  ((pattern_copy_poll_ends verbose_level ⟨0, 0, 0, 0, 0, 0⟩ 0 [0x00000000] 0x00000001 []
    (fun x hx => by rw [List.mem_singleton.mp hx]; decide) (by decide)).1 (by decide)).2.1

/-- C26 as stated fails at the verbosity 3: on eight dump values followed by the status
sequence 0x00000000, 0x00000001 the accesses between the control write that starts the
copy and the write of the work control value are six reads, four of them of a status
register (the dump's low and high status reads and the two polls), not two. -/
theorem dump_reads_before_polls :
    action_regex 3 ⟨0, 0, 0, 0, 0, 0⟩ 0 [0, 0, 0, 0, 0, 0, 0, 0, 0x00000000, 0x00000001] =
      ⟨.waiting .scanning,
        [.read .ACTION_STATUS_L 0, .read .ACTION_STATUS_H 0,
            .read .ACTION_CONTROL_L 0, .read .ACTION_CONTROL_H 0] ++
          config_writes ⟨0, 0, 0, 0, 0, 0⟩ ++
          [.write .ACTION_CONTROL_L 1, .write .ACTION_CONTROL_H 0] ++
          [.read .ACTION_STATUS_L 0, .read .ACTION_STATUS_H 0,
            .read .ACTION_CONTROL_L 0, .read .ACTION_CONTROL_H 0,
            .read .ACTION_STATUS_L 0, .read .ACTION_STATUS_L 1] ++
          [.write .ACTION_CONTROL_L 6, .write .ACTION_CONTROL_H 0], 0, []⟩ ∧
    ([Event.read .ACTION_STATUS_L 0, Event.read .ACTION_STATUS_H 0,
        Event.read .ACTION_CONTROL_L 0, Event.read .ACTION_CONTROL_H 0,
        Event.read .ACTION_STATUS_L 0, Event.read .ACTION_STATUS_L 1].countP
      (fun e => Event.readsReg .ACTION_STATUS_L e || Event.readsReg .ACTION_STATUS_H e)) = 4 ∧
    (4 : Nat) ≠ 2 := by
  refine ⟨?_, by decide, by decide⟩
  rw [action_regex_high 3 (by decide)]
  rfl

/-! ### The configuration writes -/

theorem lo32_val (v : Nat) : (lo32 v).val = v % 18446744073709551616 % 4294967296 := by
  have e : (0xffffffff : Nat) = 2 ^ 32 - 1 := by norm_num
  show ((v % 18446744073709551616) &&& 0xffffffff) % 4294967296 = _
  rw [e, Nat.and_pow_two_sub_one_eq_mod]
  norm_num

theorem hi32_val (v : Nat) :
    (hi32 v).val = v % 18446744073709551616 / 4294967296 % 4294967296 := by
  have e : (0xffffffff : Nat) = 2 ^ 32 - 1 := by norm_num
  show (((v % 18446744073709551616) >>> 32) &&& 0xffffffff) % 4294967296 = _
  rw [e, Nat.and_pow_two_sub_one_eq_mod, Nat.shiftRight_eq_div_pow]
  norm_num

/-- C27: with the verbosity the file sets, on every trace the log of `action_regex` starts
with the fourteen configuration writes, followed by the first control write (1 to the low
control register); the fourteen are writes to no control register, in low-then-high pairs
in the order pattern-buffer address, packet-buffer address, card-DDR address (both halves
0), result-buffer address, pattern total, packet total, result-buffer size; and for every
value `v` below `2 ^ 64` the low register receives `v mod 2 ^ 32` and the high register
`v div 2 ^ 32`, so that `low + 2 ^ 32 * high = v`. -/
theorem configuration_writes (a : ScanArgs) (n : Nat) (input : List U32) :
    (∃ t, (action_regex verbose_level a n input).log =
      config_writes a ++ [.write .ACTION_CONTROL_L 1, .write .ACTION_CONTROL_H 0] ++ t) ∧
    (config_writes a).length = 14 ∧
    (∀ e ∈ config_writes a, (∃ r d, e = .write r d) ∧
      Event.writeTo .ACTION_CONTROL_L e = none ∧ Event.writeTo .ACTION_CONTROL_H e = none) ∧
    config_writes a =
      [.write .ACTION_PATT_INIT_ADDR_L (lo32 a.patt_src_base),
        .write .ACTION_PATT_INIT_ADDR_H (hi32 a.patt_src_base)] ++
      [.write .ACTION_PKT_INIT_ADDR_L (lo32 a.pkt_src_base),
        .write .ACTION_PKT_INIT_ADDR_H (hi32 a.pkt_src_base)] ++
      [.write .ACTION_PATT_CARD_DDR_ADDR_L 0, .write .ACTION_PATT_CARD_DDR_ADDR_H 0] ++
      [.write .ACTION_STAT_INIT_ADDR_L (lo32 a.stat_dest_base),
        .write .ACTION_STAT_INIT_ADDR_H (hi32 a.stat_dest_base)] ++
      [.write .ACTION_PATT_TOTAL_NUM_L (lo32 a.patt_size),
        .write .ACTION_PATT_TOTAL_NUM_H (hi32 a.patt_size)] ++
      [.write .ACTION_PKT_TOTAL_NUM_L (lo32 a.pkt_size),
        .write .ACTION_PKT_TOTAL_NUM_H (hi32 a.pkt_size)] ++
      [.write .ACTION_STAT_TOTAL_SIZE_L (lo32 a.stat_size),
        .write .ACTION_STAT_TOTAL_SIZE_H (hi32 a.stat_size)] ∧
    (∀ v : Nat, v < 18446744073709551616 →
      (lo32 v).val = v % 4294967296 ∧ (hi32 v).val = v / 4294967296 ∧
      (lo32 v).val + 4294967296 * (hi32 v).val = v) := by
  refine ⟨?_, rfl, fun e he => ?_, rfl, fun v hv => ?_⟩
  · rw [action_regex_quiet]
    exact copy_loop_log n input _
  · simp only [config_writes, List.mem_cons, List.mem_singleton, List.not_mem_nil,
      or_false] at he
    rcases he with h | h | h | h | h | h | h | h | h | h | h | h | h | h <;>
      (subst h; exact ⟨⟨_, _, rfl⟩, rfl, rfl⟩)
  · rw [lo32_val, hi32_val]
    omega

/-! ### The fields that `capi_regex_job_init` resets -/

theorem job_init_fields (job0 : CAPIRegexJobDescriptor) (dn act : Nat) :
    ∃ job1, (capi_regex_job_init (some job0) dn act).2.1 = some job1 ∧
      (job1.num_pkt = 0 ∧ job1.num_matched_pkt = 0 ∧ job1.pkt_size = 0 ∧ job1.patt_size = 0 ∧
        job1.pkt_size_wo_hw_hdr = 0 ∧ job1.stat_size = 0) ∧
      (job1.t_init = 0 ∧ job1.t_regex_patt = 0 ∧ job1.t_regex_pkt = 0 ∧
        job1.t_regex_scan = 0 ∧ job1.t_regex_harvest = 0 ∧ job1.t_cleanup = 0) ∧
      job1.t_regex_pkt_copy = job0.t_regex_pkt_copy := by
  unfold capi_regex_job_init
  simp only []
  split
  · exact ⟨_, rfl, ⟨rfl, rfl, rfl, rfl, rfl, rfl⟩, ⟨rfl, rfl, rfl, rfl, rfl, rfl⟩, rfl⟩
  · exact ⟨_, rfl, ⟨rfl, rfl, rfl, rfl, rfl, rfl⟩, ⟨rfl, rfl, rfl, rfl, rfl, rfl⟩, rfl⟩

theorem copy_time_fold (rows : List Tuple) : ∀ (x : Int),
    rows.foldl (fun acc t => acc + t.copy_time) x = x + (rows.map Tuple.copy_time).sum := by
  induction rows with
  | nil => intro x; simp
  | cons t rows ih =>
    intro x
    rw [List.foldl_cons, ih, List.map_cons, List.sum_cons]
    omega

theorem pkt_psql_copy_time (OUTPUT_STAT_WIDTH : Nat) (job : CAPIRegexJobDescriptor)
    (blocks : List (List Tuple)) (pkt_alloc stat_alloc : Nat) (s : Process) :
    ∃ job3, (capi_regex_pkt_psql OUTPUT_STAT_WIDTH (some job) blocks pkt_alloc stat_alloc
        s).2.1 = some job3 ∧
      job3.t_regex_pkt_copy =
        blocks.flatten.foldl (fun acc t => acc + t.copy_time) job.t_regex_pkt_copy := by
  unfold capi_regex_pkt_psql
  simp only []
  split
  · exact ⟨_, rfl, rfl⟩
  · exact ⟨_, rfl, rfl⟩

/-- C29: for every prior descriptor, `capi_regex_job_init` leaves the counts, the sizes and
the timing fields `t_init`, `t_regex_patt`, `t_regex_pkt`, `t_regex_scan`,
`t_regex_harvest`, `t_cleanup` at zero, but it has no assignment to `t_regex_pkt_copy`
(`t_init` is assigned twice): the field keeps its prior value, the load phase adds the
copy times of the job's packets to that value, and the "pkt_other" figure of
`print_result` is the packet time minus that sum. A descriptor that enters with the copy
time 5 leaves `capi_regex_job_init` with the copy time 5. -/
theorem job_init_keeps_copy_time (job0 : CAPIRegexJobDescriptor) (dn act : Nat)
    (OUTPUT_STAT_WIDTH : Nat) (blocks : List (List Tuple)) (pkt_alloc stat_alloc : Nat)
    (s : Process) :
    (∃ job1, (capi_regex_job_init (some job0) dn act).2.1 = some job1 ∧
      (job1.num_pkt = 0 ∧ job1.num_matched_pkt = 0 ∧ job1.pkt_size = 0 ∧ job1.patt_size = 0 ∧
        job1.pkt_size_wo_hw_hdr = 0 ∧ job1.stat_size = 0) ∧
      (job1.t_init = 0 ∧ job1.t_regex_patt = 0 ∧ job1.t_regex_pkt = 0 ∧
        job1.t_regex_scan = 0 ∧ job1.t_regex_harvest = 0 ∧ job1.t_cleanup = 0) ∧
      job1.t_regex_pkt_copy = job0.t_regex_pkt_copy ∧
      ∃ job3, (capi_regex_pkt_psql OUTPUT_STAT_WIDTH (some job1) blocks pkt_alloc stat_alloc
          s).2.1 = some job3 ∧
        job3.t_regex_pkt_copy =
          job0.t_regex_pkt_copy + (blocks.flatten.map Tuple.copy_time).sum ∧
        ∀ T : Int, print_result_pkt_other { job3 with t_regex_pkt := T } =
          T - (job0.t_regex_pkt_copy + (blocks.flatten.map Tuple.copy_time).sum)) ∧
    (∃ job1,
      capi_regex_job_init (some { blank_job with t_regex_pkt_copy := 5 }) 1 1 =
        (0, some job1, soft_reset) ∧
      job1.t_regex_pkt_copy = 5 ∧ job1.t_regex_pkt_copy ≠ 0) := by
  refine ⟨?_, ⟨_, rfl, rfl, by decide⟩⟩
  obtain ⟨job1, h1, hc, ht, hk⟩ := job_init_fields job0 dn act
  obtain ⟨job3, h3, hs⟩ :=
    pkt_psql_copy_time OUTPUT_STAT_WIDTH job1 blocks pkt_alloc stat_alloc s
  rw [copy_time_fold, hk] at hs
  refine ⟨job1, h1, hc, ht, hk, job3, h3, hs, fun T => ?_⟩
  show T - job3.t_regex_pkt_copy = _
  rw [hs]

/-! ### The decoder's reads and the size of the result buffer -/

theorem mem_get_results_offsets (M : Nat) (hM : M < 2147483648) (o : Int) :
    o ∈ get_results_offsets M ↔
      ∃ i, i < M ∧ ∃ j, (j = 4 ∨ j = 5 ∨ j = 6 ∨ j = 7) ∧ o = toInt32 (i * 10 + j) := by
  have e : (toInt32 M).toNat = M := by rw [toInt32_small M hM]; simp
  unfold get_results_offsets
  rw [e]
  simp only [List.mem_flatMap, List.mem_range, List.mem_map, List.mem_cons,
    List.mem_singleton, List.not_mem_nil, or_false]
  constructor
  · rintro ⟨i, hi, j, hj, rfl⟩
    exact ⟨i, hi, j, hj, rfl⟩
  · rintro ⟨i, hi, j, hj, rfl⟩
    exact ⟨i, hi, j, hj, rfl⟩

theorem stat_size_slots (W N : Nat) (hw : W / 8 = 10) (hN : 20 * N + 4096 < 2147483648) :
    ∃ q : Nat, 0 < q ∧ stat_size W N = ((4096 * q : Nat) : Int) ∧ 20 * N ≤ 4096 * q := by
  have h := stat_size_value W N (by rw [hw]; omega)
  rw [hw] at h
  by_cases hz : 10 * N = 0
  · rw [if_pos hz] at h
    exact ⟨1, by omega, by rw [h]; rfl, by omega⟩
  · rw [if_neg hz] at h
    exact ⟨(2 * (10 * N) + 4095) / 4096, by omega, h, by omega⟩

theorem offsets_below (M : Nat) (hM : 10 * M < 2147483648) (o : Int)
    (ho : o ∈ get_results_offsets M) : 0 ≤ o ∧ o + 3 ≤ 10 * (M : Int) := by
  obtain ⟨i, hi, j, hj, rfl⟩ := (mem_get_results_offsets M (by omega) o).1 ho
  rw [toInt32_small _ (by omega)]
  omega

theorem last_offset_mem (M : Nat) (hM : 10 * M < 2147483648) (h1 : 1 ≤ M) :
    (10 * (M : Int) - 3) ∈ get_results_offsets M := by
  refine (mem_get_results_offsets M (by omega) _).2 ⟨M - 1, by omega, 7, by simp, ?_⟩
  rw [toInt32_small _ (by omega)]
  omega

theorem harvest_ignores_stat_size (job : CAPIRegexJobDescriptor) (x : Nat)
    (status_l : Nat → U32) (status_h : U32) (palloc : Nat) (results0 : Nat → Nat)
    (stat : Int → Byte) :
    (capi_regex_result_harvest (some { job with stat_size := x }) status_l status_h palloc
        results0 stat).1 =
      (capi_regex_result_harvest (some job) status_l status_h palloc results0 stat).1 ∧
    (capi_regex_result_harvest (some { job with stat_size := x }) status_l status_h palloc
        results0 stat).2.2.2 =
      (capi_regex_result_harvest (some job) status_l status_h palloc results0 stat).2.2.2 := by
  unfold capi_regex_result_harvest
  simp only []
  split <;> exact ⟨rfl, rfl⟩

/-- C30, amended: with 10-byte slots (`OUTPUT_STAT_WIDTH / 8 = 10`) and a packet count `N`
with `20 * N + 4096 < 2 ^ 31`, for every matched count `M ≤ 2 * N` every byte offset read
by `get_results` is non-negative and strictly below the `stat_size` that
`capi_regex_pkt_psql` computes for `N`, the largest being `10 * (M - 1) + 7`; the
harvest's return code and result array do not depend on the descriptor's `stat_size`;
and for a matched count `M` with `10 * M < 2 ^ 31` some read lies at or past the end of
the buffer exactly when `stat_size + 3 ≤ 10 * M` (a count above `stat_size / 10` is not
enough: the last read is at offset `10 * M - 3`). -/
theorem decode_inside_result_buffer (OUTPUT_STAT_WIDTH N : Nat)
    (hw : OUTPUT_STAT_WIDTH / 8 = 10) (hN : 20 * N + 4096 < 2147483648) :
    (∀ M : Nat, M ≤ 2 * N → ∀ o ∈ get_results_offsets M,
      0 ≤ o ∧ o ≤ 10 * ((M : Int) - 1) + 7 ∧ o < stat_size OUTPUT_STAT_WIDTH N) ∧
    (∀ M : Nat, 1 ≤ M → M ≤ 2 * N → (10 * ((M : Int) - 1) + 7) ∈ get_results_offsets M) ∧
    (∀ (job : CAPIRegexJobDescriptor) (x : Nat) (status_l : Nat → U32) (status_h : U32)
      (palloc : Nat) (results0 : Nat → Nat) (stat : Int → Byte),
      (capi_regex_result_harvest (some { job with stat_size := x }) status_l status_h palloc
          results0 stat).1 =
        (capi_regex_result_harvest (some job) status_l status_h palloc results0 stat).1 ∧
      (capi_regex_result_harvest (some { job with stat_size := x }) status_l status_h palloc
          results0 stat).2.2.2 =
        (capi_regex_result_harvest (some job) status_l status_h palloc results0 stat).2.2.2) ∧
    (∀ M : Nat, 10 * M < 2147483648 →
      ((∃ o ∈ get_results_offsets M, stat_size OUTPUT_STAT_WIDTH N ≤ o) ↔
        stat_size OUTPUT_STAT_WIDTH N + 3 ≤ 10 * (M : Int))) := by
  obtain ⟨q, hq, hS, hle⟩ := stat_size_slots OUTPUT_STAT_WIDTH N hw hN
  rw [hS]
  refine ⟨fun M hM o ho => ?_, fun M h1 hM => ?_,
    fun job x status_l status_h palloc results0 stat =>
      harvest_ignores_stat_size job x status_l status_h palloc results0 stat,
    fun M hM => ⟨?_, fun h => ?_⟩⟩
  · have h := offsets_below M (by omega) o ho
    omega
  · have h := last_offset_mem M (by omega) h1
    have e : 10 * ((M : Int) - 1) + 7 = 10 * (M : Int) - 3 := by omega
    rw [e]
    exact h
  · rintro ⟨o, ho, hge⟩
    have h := offsets_below M hM o ho
    omega
  · exact ⟨10 * (M : Int) - 3, last_offset_mem M hM (by omega), by omega⟩

/-- C30, amended, at the width 80 and 500 packets: for the matched count 1000 the last
read, at offset 9997, is one of the reads of `get_results` and lies below the buffer
size. -/
theorem decode_inside_result_buffer_witness :
    (10 * (((1000 : Nat) : Int) - 1) + 7) ∈ get_results_offsets 1000 ∧
    10 * (((1000 : Nat) : Int) - 1) + 7 < stat_size 80 500 :=
  ⟨(decode_inside_result_buffer 80 500 (by decide) (by decide)).2.1 1000 (by decide)
      (by decide),
    ((decode_inside_result_buffer 80 500 (by decide) (by decide)).1 1000 (by decide) _
      ((decode_inside_result_buffer 80 500 (by decide) (by decide)).2.1 1000 (by decide)
        (by decide))).2.2⟩

/-- C30 as stated fails for 500 packets and the matched count 1229: the buffer has 12288
bytes, 1229 exceeds `12288 / 10 = 1228`, and yet every read of `get_results` lies below
offset 12288, the last one at offset 12287. -/
theorem count_above_tenth_stays_inside :
    stat_size 80 500 = 12288 ∧ stat_size 80 500 / 10 < 1229 ∧
    (∀ o ∈ get_results_offsets 1229, o < stat_size 80 500) ∧
    (12287 : Int) ∈ get_results_offsets 1229 := by
  have hS : stat_size 80 500 = 12288 := by
    rw [stat_size_value 80 500 (by norm_num)]
    norm_num
  rw [hS]
  refine ⟨rfl, by decide, fun o ho => ?_, ?_⟩
  · have h := offsets_below 1229 (by norm_num) o ho
    omega
  · exact last_offset_mem 1229 (by norm_num) (by norm_num)

/-! ### Identifier round trip between encoder and decoder -/

theorem decode_fold_any (stat : Int → Byte) (result : Nat → Nat) (n : Nat) :
    (List.range n).foldl
      (fun (s : (Nat → Nat) × Nat) i =>
        let pkt_id := [4, 5, 6, 7].foldl
          (fun pkt_id j =>
            (pkt_id ||| ((stat (toInt32 (i * 10 + j))).val <<< ((j % 4) * 8)))
              % 4294967296)
          s.2
        (Function.update s.1 i pkt_id, 0))
      (result, 0) =
    (fun i => if i < n then
        (stat (toInt32 (i * 10 + 4))).val + 2 ^ 8 * (stat (toInt32 (i * 10 + 5))).val +
          2 ^ 16 * (stat (toInt32 (i * 10 + 6))).val +
          2 ^ 24 * (stat (toInt32 (i * 10 + 7))).val
      else result i, 0) := by
  induction n with
  | zero => simp
  | succ n ih =>
    rw [List.range_succ, List.foldl_append, ih]
    simp only [List.foldl]
    rw [or_bytes _ _ _ _ (stat _).isLt (stat _).isLt (stat _).isLt (stat _).isLt]
    congr 1
    funext i
    by_cases h : i = n
    · subst h
      simp only [Function.update_same]
      rw [if_pos (by omega)]
    · rw [Function.update_noteq h]
      by_cases h2 : i < n
      · rw [if_pos h2, if_pos (by omega)]
      · rw [if_neg h2, if_neg (by omega)]

theorem little_endian_sum (v : Nat) (hv : v < 4294967296) :
    v / 256 ^ 0 % 256 + 2 ^ 8 * (v / 256 ^ 1 % 256) + 2 ^ 16 * (v / 256 ^ 2 % 256) +
      2 ^ 24 * (v / 256 ^ 3 % 256) = v := by
  norm_num
  omega

/-- C31: for every 32-bit packet identifier `p` (the value of the counter after the
increment in `fill_one_packet`), every slot `i` that `get_results` decodes for a matched
count `N` below `2 ^ 31` and whose byte offsets `10 i + 4 .. 10 i + 7` lie in the range
of `int`: when bytes 4..7 of the slot hold the four bytes that `fill_one_packet` wrote at
header offsets 60..63, whatever the other bytes of the buffer are, `get_results` returns
0 and entry `i` of the result array is exactly `p`, the identifier of the record; every
`p` below `2 ^ 32` is the identifier of a record. -/
theorem identifier_round_trip (in_pkt : Nat → Byte) (size : Int) (a PACKET_ID : Nat) (m : Mem)
    (p : Nat) (hp : (PACKET_ID + 1) % 4294967296 = p)
    (N i : Nat) (hN : N < 2147483648) (hi : i < N) (h10 : 10 * i + 7 < 2147483648)
    (result : Nat → Nat) (stat : Int → Byte)
    (hs : ∀ k : Nat, k < 4 →
      stat (10 * (i : Int) + 4 + k) =
        (fill_one_packet in_pkt size a PACKET_ID m).mem (a + 60 + k)) :
    (fill_one_packet in_pkt size a PACKET_ID m).id = p ∧
    (get_results (some result) N stat).1 = 0 ∧
    (get_results (some result) N stat).2.map (fun f => f i) = some p ∧
    (∀ q : Nat, q < 4294967296 →
      ∃ c : Nat, c < 4294967296 ∧ (fill_one_packet in_pkt size a c m).id = q) := by
  have e : (toInt32 N).toNat = N := by rw [toInt32_small N hN]; simp
  have hg : get_results (some result) N stat =
      (0, some (fun i => if i < N then
        (stat (toInt32 (i * 10 + 4))).val + 2 ^ 8 * (stat (toInt32 (i * 10 + 5))).val +
          2 ^ 16 * (stat (toInt32 (i * 10 + 6))).val +
          2 ^ 24 * (stat (toInt32 (i * 10 + 7))).val
        else result i)) := by
    simp only [get_results]
    rw [e, decode_fold_any stat result N]
  have b0 : (stat (toInt32 (i * 10 + 4))).val = p / 256 ^ 0 % 256 := by
    have h := hs 0 (by omega)
    have e2 : toInt32 (i * 10 + 4) = 10 * (i : Int) + 4 + ((0 : Nat) : Int) := by
      rw [toInt32_small _ (by omega)]; push_cast; ring
    rw [e2, h, fill_one_packet_id_bytes _ _ _ _ _ 0 (by omega), hp]
  have b1 : (stat (toInt32 (i * 10 + 5))).val = p / 256 ^ 1 % 256 := by
    have h := hs 1 (by omega)
    have e2 : toInt32 (i * 10 + 5) = 10 * (i : Int) + 4 + ((1 : Nat) : Int) := by
      rw [toInt32_small _ (by omega)]; push_cast; ring
    rw [e2, h, fill_one_packet_id_bytes _ _ _ _ _ 1 (by omega), hp]
  have b2 : (stat (toInt32 (i * 10 + 6))).val = p / 256 ^ 2 % 256 := by
    have h := hs 2 (by omega)
    have e2 : toInt32 (i * 10 + 6) = 10 * (i : Int) + 4 + ((2 : Nat) : Int) := by
      rw [toInt32_small _ (by omega)]; push_cast; ring
    rw [e2, h, fill_one_packet_id_bytes _ _ _ _ _ 2 (by omega), hp]
  have b3 : (stat (toInt32 (i * 10 + 7))).val = p / 256 ^ 3 % 256 := by
    have h := hs 3 (by omega)
    have e2 : toInt32 (i * 10 + 7) = 10 * (i : Int) + 4 + ((3 : Nat) : Int) := by
      rw [toInt32_small _ (by omega)]; push_cast; ring
    rw [e2, h, fill_one_packet_id_bytes _ _ _ _ _ 3 (by omega), hp]
  refine ⟨(fill_one_packet_id _ _ _ _ _).trans hp, by rw [hg], ?_, fun q hq => ?_⟩
  · rw [hg]
    show some (if i < N then _ else _) = some p
    rw [if_pos hi, b0, b1, b2, b3, little_endian_sum p (by omega)]
  · refine ⟨(q + 4294967295) % 4294967296, by omega, ?_⟩
    rw [fill_one_packet_id]
    omega

/-- C31 at the record of "foo" written at address 0 with the counter at 0, whose
identifier bytes are placed in slot 0 of a result buffer: entry 0 decodes to 1. -/
theorem identifier_round_trip_witness :
    (get_results (some (fun _ => 0)) 1
      (fun x => (fill_one_packet (payload [0x66, 0x6f, 0x6f]) 3 0 0 (fun _ => 0)).mem
        (0 + 60 + (x - 4).toNat))).2.map (fun f => f 0) = some 1 :=
  (identifier_round_trip (payload [0x66, 0x6f, 0x6f]) 3 0 0 (fun _ => 0) 1 rfl 1 0
    (by decide) (by decide) (by decide) (fun _ => 0)
    (fun x => (fill_one_packet (payload [0x66, 0x6f, 0x6f]) 3 0 0 (fun _ => 0)).mem
      (0 + 60 + (x - 4).toNat))
    (fun k _ => congrArg (fill_one_packet (payload [0x66, 0x6f, 0x6f]) 3 0 0 (fun _ => 0)).mem
      (by simp))).2.2.1

end PgCapi

namespace JobDirtest

/-- C20: `JobDirtest::run` calls `init`, `packet` and `scan` in that order; it returns 0
exactly when all three return 0, and then `done` is called once, after `scan`; at the
first phase that returns nonzero it calls `fail`, returns -1 and calls neither a later
phase nor `done`. -/
theorem run_phases {σ : Type} (init packet scan : σ → Int × σ) (fail done : σ → σ) (s : σ) :
    ((run init packet scan fail done s).1 = 0 ↔
      (init s).1 = 0 ∧ (packet (init s).2).1 = 0 ∧ (scan (packet (init s).2).2).1 = 0) ∧
    ((run init packet scan fail done s).1 = 0 ∨ (run init packet scan fail done s).1 = -1) ∧
    ((init s).1 ≠ 0 →
      run init packet scan fail done s = (-1, fail (init s).2, [.init, .fail])) ∧
    ((init s).1 = 0 → (packet (init s).2).1 ≠ 0 →
      run init packet scan fail done s =
        (-1, fail (packet (init s).2).2, [.init, .packet, .fail])) ∧
    ((init s).1 = 0 → (packet (init s).2).1 = 0 → (scan (packet (init s).2).2).1 ≠ 0 →
      run init packet scan fail done s =
        (-1, fail (scan (packet (init s).2).2).2, [.init, .packet, .scan, .fail])) ∧
    ((init s).1 = 0 → (packet (init s).2).1 = 0 → (scan (packet (init s).2).2).1 = 0 →
      run init packet scan fail done s =
        (0, done (scan (packet (init s).2).2).2, [.init, .packet, .scan, .done])) := by
  unfold run
  by_cases h1 : (init s).1 = 0
  · by_cases h2 : (packet (init s).2).1 = 0
    · by_cases h3 : (scan (packet (init s).2).2).1 = 0
      · simp [h1, h2, h3]
      · simp [h1, h2, h3]
    · simp [h1, h2]
  · simp [h1]

end JobDirtest

namespace JobDirtest

/-! ## The phases of a job and the hardware calls they make -/

theorem memcpy_inside (m : PgCapi.Mem) (dst : Nat) (src : Nat → PgCapi.Byte) (n i : Nat)
    (h : i < n) : PgCapi.memcpy m dst src n (dst + i) = src i := by
  unfold PgCapi.memcpy
  rw [if_pos (by omega)]
  have e : dst + i - dst = i := by omega
  rw [e]

theorem init_unbound (j : Job) (h : j.m_worker = none ∨ j.m_hw_mgr = false) :
    init j = (-1, j) := by
  unfold init
  rcases h with h | h
  · rw [h]
  · cases hw : j.m_worker with
    | none => rfl
    | some w => simp only [h, if_true]

theorem init_bound (j : Job) (w : Worker) (hw : j.m_worker = some w) (hm : j.m_hw_mgr = true) :
    init j = (0, { j with
      m_patt_src_base := w.get_pattern_buffer
      m_patt_size := w.get_pattern_buffer_size
      hw := j.hw ++ [Access.reset_engine j.m_thread_id] }) := by
  unfold init
  rw [hw]
  simp only [hm, Bool.true_eq_false, if_false]

theorem packet_unbound (j : Job)
    (h : j.m_worker = none ∨ j.m_pkt_src_base = 0 ∨ j.m_stat_dest_base = 0) :
    packet j = (-1, j) := by
  unfold packet
  cases hw : j.m_worker with
  | none => rfl
  | some w =>
    rcases h with h | h | h
    · rw [hw] at h
      exact absurd h (by simp)
    · simp only [h, if_true]
    · by_cases h2 : j.m_pkt_src_base = 0
      · simp only [h2, if_true]
      · simp only [h2, h, if_true, if_false]

theorem packet_bound (j : Job) (w : Worker) (hw : j.m_worker = some w)
    (hp : j.m_pkt_src_base ≠ 0) (hs : j.m_stat_dest_base ≠ 0) :
    packet j = (0, { j with
      m_pkt_size := w.get_packet_buffer_size j.m_id j.m_thread_id
      mem := PgCapi.memcpy j.mem j.m_pkt_src_base
        (fun i => j.mem (w.get_packet_buffer j.m_id j.m_thread_id + i))
        (w.get_packet_buffer_size j.m_id j.m_thread_id) }) := by
  unfold packet
  rw [hw]
  simp only [hp, hs, if_false]

theorem scan_done (rsi : Int × Nat) (status_l : Nat → PgCapi.U32) (status_h : PgCapi.U32)
    (j : Job) (h : rsi.1 = 0) :
    scan rsi status_l status_h j =
      (0, { j with
        hw := j.hw ++ [Access.regex_scan_internal j.m_thread_id] ++
          (List.range 10).map
            (fun k => Access.reg_read .ACTION_STATUS_L j.m_thread_id (status_l k)) ++
          [Access.reg_read .ACTION_STATUS_H j.m_thread_id status_h]
        m_num_matched_pkt := status_h.val }) := by
  unfold scan
  simp only [h, ne_eq, not_true_eq_false, if_false]
  rw [PgCapi.drain_loop_ten, List.map_map]
  rfl

theorem run_init_fails {σ : Type} (init packet scan : σ → Int × σ) (fail done : σ → σ) (s : σ)
    (h : (init s).1 ≠ 0) :
    run init packet scan fail done s = (-1, fail (init s).2, [.init, .fail]) := by
  unfold run
  simp [h]

theorem run_packet_fails {σ : Type} (init packet scan : σ → Int × σ) (fail done : σ → σ)
    (s : σ) (h1 : (init s).1 = 0) (h2 : (packet (init s).2).1 ≠ 0) :
    run init packet scan fail done s =
      (-1, fail (packet (init s).2).2, [.init, .packet, .fail]) := by
  unfold run
  simp [h1, h2]

theorem interleaved_right_left {α : Type} (ys : List α) : ∀ xs : List α,
    Interleaved xs ys (ys ++ xs) := by
  induction ys with
  | nil =>
    intro xs
    induction xs with
    | nil => exact .nil
    | cons x xs ih => exact .left x ih
  | cons y ys ih =>
    intro xs
    exact .right y (ih xs)

/-- C21, amended: when the worker or the hardware manager of a job is unbound, `run`
returns -1 after `init` alone, and the job handed to `fail` is the one `run` was called
on: no hardware call was made. When worker and hardware manager are bound and the packet
staging buffer or the result buffer is unbound, `run` returns -1 after `packet`, and the
hardware calls made by then are those made before `run` followed by one `reset_engine` on
the job's engine, which `init` issues before the buffers are looked at; the scan phase,
with its register reads, is not reached. -/
theorem run_configuration_errors (rsi : Int × Nat) (status_l : Nat → PgCapi.U32)
    (status_h : PgCapi.U32) (fail done : Job → Job) (j : Job) :
    (j.m_worker = none ∨ j.m_hw_mgr = false →
      run init packet (scan rsi status_l status_h) fail done j =
        (-1, fail j, [.init, .fail])) ∧
    (∀ w : Worker, j.m_worker = some w → j.m_hw_mgr = true →
      j.m_pkt_src_base = 0 ∨ j.m_stat_dest_base = 0 →
      ∃ j1, run init packet (scan rsi status_l status_h) fail done j =
          (-1, fail j1, [.init, .packet, .fail]) ∧
        j1.hw = j.hw ++ [Access.reset_engine j.m_thread_id]) := by
  refine ⟨fun h => ?_, fun w hw hm hb => ?_⟩
  · have hi := init_unbound j h
    rw [run_init_fails init packet (scan rsi status_l status_h) fail done j
      (by rw [hi]; exact (by decide : (-1 : Int) ≠ 0)), hi]
  · have hi := init_bound j w hw hm
    have hp : packet (init j).2 = (-1, (init j).2) := by
      rw [hi]
      exact packet_unbound _ (Or.inr hb)
    rw [run_packet_fails init packet (scan rsi status_l status_h) fail done j (by rw [hi])
      (by rw [hp]; exact (by decide : (-1 : Int) ≠ 0)), hp]
    exact ⟨_, rfl, by rw [hi]⟩

/-- C21 as stated fails for a job with worker and hardware manager bound and no packet
staging buffer: `run` returns -1, and one `reset_engine` call has been made on the
hardware. -/
theorem reset_engine_before_buffer_check :
    run init packet (scan (0, 0) (fun _ => 0) 0) id id
      { unbound 3 with m_worker := some ⟨4096, 64, fun _ _ => 8192, fun _ _ => 64⟩,
                       m_hw_mgr := true, m_stat_dest_base := 12288 } =
      (-1,
        { unbound 3 with m_worker := some ⟨4096, 64, fun _ _ => 8192, fun _ _ => 64⟩,
                         m_hw_mgr := true, m_stat_dest_base := 12288,
                         m_patt_src_base := 4096, m_patt_size := 64,
                         hw := [Access.reset_engine 3] },
        [.init, .packet, .fail]) ∧
    ([Access.reset_engine 3] : List Access) ≠ [] := by
  refine ⟨?_, by simp⟩
  have hi := init_bound
    { unbound 3 with m_worker := some ⟨4096, 64, fun _ _ => 8192, fun _ _ => 64⟩,
                     m_hw_mgr := true, m_stat_dest_base := 12288 }
    ⟨4096, 64, fun _ _ => 8192, fun _ _ => 64⟩ rfl rfl
  have hp := packet_unbound
    (init { unbound 3 with m_worker := some ⟨4096, 64, fun _ _ => 8192, fun _ _ => 64⟩,
                           m_hw_mgr := true, m_stat_dest_base := 12288 }).2
    (Or.inr (Or.inl (by rw [hi]; rfl)))
  rw [run_packet_fails init packet (scan (0, 0) (fun _ => 0) 0) id id _ (by rw [hi])
    (by rw [hp]; exact (by decide : (-1 : Int) ≠ 0)), hp, hi]
  rfl

/-- C23: the capacity given to `set_packet_buffer` is stored in `m_max_alloc_pkt_size` and
read by no phase: for every capacity `C` and every packet size `S` that the worker
reports, after `set_packet_buffer (base, C)` with a non-null base and a bound result
buffer, `packet` returns 0 and writes the `S` bytes of the worker's packet buffer to
`base .. base + S - 1`, also when `S > C`. With `C = 64` and `S = 128` the byte at offset
100 of the staging buffer, beyond its capacity, is overwritten. -/
theorem packet_ignores_capacity :
    (∀ (j : Job) (w : Worker) (base C : Nat), j.m_worker = some w → base ≠ 0 →
      j.m_stat_dest_base ≠ 0 →
      (set_packet_buffer base C j).1 = 0 ∧
      (set_packet_buffer base C j).2.m_max_alloc_pkt_size = C ∧
      (packet (set_packet_buffer base C j).2).1 = 0 ∧
      (packet (set_packet_buffer base C j).2).2.m_max_alloc_pkt_size = C ∧
      ∀ i, i < w.get_packet_buffer_size j.m_id j.m_thread_id →
        (packet (set_packet_buffer base C j).2).2.mem (base + i) =
          j.mem (w.get_packet_buffer j.m_id j.m_thread_id + i)) ∧
    ((set_packet_buffer 8192 64
        { unbound 0 with m_worker := some ⟨4096, 64, fun _ _ => 16384, fun _ _ => 128⟩,
                         m_stat_dest_base := 12288,
                         mem := fun x => if 16384 ≤ x then 0xFF else 0 }).2.m_max_alloc_pkt_size
        = 64 ∧
      (packet (set_packet_buffer 8192 64
        { unbound 0 with m_worker := some ⟨4096, 64, fun _ _ => 16384, fun _ _ => 128⟩,
                         m_stat_dest_base := 12288,
                         mem := fun x => if 16384 ≤ x then 0xFF else 0 }).2).1 = 0 ∧
      (packet (set_packet_buffer 8192 64
        { unbound 0 with m_worker := some ⟨4096, 64, fun _ _ => 16384, fun _ _ => 128⟩,
                         m_stat_dest_base := 12288,
                         mem := fun x => if 16384 ≤ x then 0xFF else 0 }).2).2.mem (8192 + 100)
        = 0xFF) := by
  have hset : ∀ (j : Job) (base C : Nat), base ≠ 0 →
      set_packet_buffer base C j =
        (0, { j with m_pkt_src_base := base, m_max_alloc_pkt_size := C }) := by
    intro j base C hb
    unfold set_packet_buffer
    simp only [hb, if_false]
  have key : ∀ (j : Job) (w : Worker) (base C : Nat), j.m_worker = some w → base ≠ 0 →
      j.m_stat_dest_base ≠ 0 →
      (set_packet_buffer base C j).1 = 0 ∧
      (set_packet_buffer base C j).2.m_max_alloc_pkt_size = C ∧
      (packet (set_packet_buffer base C j).2).1 = 0 ∧
      (packet (set_packet_buffer base C j).2).2.m_max_alloc_pkt_size = C ∧
      ∀ i, i < w.get_packet_buffer_size j.m_id j.m_thread_id →
        (packet (set_packet_buffer base C j).2).2.mem (base + i) =
          j.mem (w.get_packet_buffer j.m_id j.m_thread_id + i) := by
    intro j w base C hw hb hs
    rw [hset j base C hb]
    rw [packet_bound { j with m_pkt_src_base := base, m_max_alloc_pkt_size := C } w hw hb hs]
    refine ⟨rfl, rfl, rfl, rfl, fun i hi => ?_⟩
    exact memcpy_inside j.mem base
      (fun i => j.mem (w.get_packet_buffer j.m_id j.m_thread_id + i)) _ i hi
  refine ⟨key, ?_⟩
  obtain ⟨-, h2, h3, -, h5⟩ := key
    { unbound 0 with m_worker := some ⟨4096, 64, fun _ _ => 16384, fun _ _ => 128⟩,
                     m_stat_dest_base := 12288,
                     mem := fun x => if 16384 ≤ x then 0xFF else 0 }
    ⟨4096, 64, fun _ _ => 16384, fun _ _ => 128⟩ 8192 64 rfl (by decide) (by decide)
  refine ⟨h2, h3, ?_⟩
  rw [h5 100 (by decide)]
  rfl

/-- C28: `run` takes no lock around `scan` (the `lock_guard` line of the source is
commented out), so the scans of two jobs on the engines 0 and 1 are sequences of hardware
calls that nothing orders against each other: there is a merge of the two sequences,
keeping the order within each, in which the accelerator call of engine 1 comes between
the accelerator call and the first status read of engine 0; it is neither of the two
serial orders. -/
theorem scan_accesses_interleave (status_l : Nat → PgCapi.U32) (status_h : PgCapi.U32)
    (n0 n1 : Nat) :
    ∃ zs,
      Interleaved (scan (0, n0) status_l status_h (unbound 0)).2.hw
        (scan (0, n1) status_l status_h (unbound 1)).2.hw zs ∧
      zs.take 3 = [Access.regex_scan_internal 0, Access.regex_scan_internal 1,
        Access.reg_read .ACTION_STATUS_L 1 (status_l 0)] ∧
      zs ≠ (scan (0, n0) status_l status_h (unbound 0)).2.hw ++
        (scan (0, n1) status_l status_h (unbound 1)).2.hw ∧
      zs ≠ (scan (0, n1) status_l status_h (unbound 1)).2.hw ++
        (scan (0, n0) status_l status_h (unbound 0)).2.hw := by
  have h0 : (scan (0, n0) status_l status_h (unbound 0)).2.hw =
      Access.regex_scan_internal 0 ::
        ((List.range 10).map (fun k => Access.reg_read .ACTION_STATUS_L 0 (status_l k)) ++
          [Access.reg_read .ACTION_STATUS_H 0 status_h]) := by
    rw [scan_done _ _ _ _ rfl]
    rfl
  have h1 : (scan (0, n1) status_l status_h (unbound 1)).2.hw =
      Access.regex_scan_internal 1 ::
        ((List.range 10).map (fun k => Access.reg_read .ACTION_STATUS_L 1 (status_l k)) ++
          [Access.reg_read .ACTION_STATUS_H 1 status_h]) := by
    rw [scan_done _ _ _ _ rfl]
    rfl
  rw [h0, h1]
  refine ⟨Access.regex_scan_internal 0 ::
    ((Access.regex_scan_internal 1 ::
      ((List.range 10).map (fun k => Access.reg_read .ACTION_STATUS_L 1 (status_l k)) ++
        [Access.reg_read .ACTION_STATUS_H 1 status_h])) ++
      ((List.range 10).map (fun k => Access.reg_read .ACTION_STATUS_L 0 (status_l k)) ++
        [Access.reg_read .ACTION_STATUS_H 0 status_h])),
    .left _ (interleaved_right_left _ _), rfl, ?_, ?_⟩
  · intro h
    have h2 := congrArg (fun l => l.get? 1) h
    simp [List.range_succ_eq_map] at h2
  · intro h
    have h2 := congrArg (fun l => l.get? 0) h
    simp at h2

end JobDirtest
